import Mathlib

/-! The authorization core of auth-api (role-based access control)

A shallow embedding of the authorization core of the repository
(`internal/models`, `internal/service/auth_service.go`,
`internal/api/middlewares`, `pkg/jwt/jwt.go`) together with the properties
that its specification states about it.

Conventions of the embedding.

* A Go `string` that carries text (user names, e-mail addresses, resource and
  action names, tokens) is a Lean `String`; binary data (`[]byte`: decoded
  token segments, HMAC keys and tags) is a `List Nat` of byte values.
* A Go result pair `(*T, error)` that is either `(nil, err)` or `(v, nil)` is
  an `Except Error T`; `HasPermission`, which returns `(bool, error)`, keeps
  the pair as `Bool × Option Error`.
* A slice is a `List`; the `nil` slice and the empty slice are both `[]`
  (ranging over either runs no iteration).
* The clock (`time.Now()`) is an explicit argument: an instant is an `Int`
  number of nanoseconds since the Unix epoch, a `time.Duration` an `Int`
  number of nanoseconds.
* The relational store behind `*gorm.DB` is a value of type `DB`: its user
  rows, each with its roles and their permissions already attached (what
  `Preload("Roles.Permissions")` loads), and an optional fault with which
  every query fails.
-/

namespace AuthApi

/-! ## Data model (`internal/models`) -/

/-- Permission record (`models.Permission`). -/
structure Permission where
  ID : Nat
  Resource : String
  Action : String
  Description : String
  CreatedAt : Int
  UpdatedAt : Int
  deriving DecidableEq, Repr

/-- Method `Permission.Key`. -/
def Permission.Key (p : Permission) : String := p.Resource ++ ":" ++ p.Action

/-- Role record (`models.Role`). -/
structure Role where
  ID : Nat
  Name : String
  Description : String
  Permissions : List Permission
  CreatedAt : Int
  UpdatedAt : Int
  deriving DecidableEq, Repr

/-- User record (`models.User`). -/
structure User where
  ID : Nat
  Username : String
  Email : String
  Password : String
  FullName : String
  Roles : List Role
  CreatedAt : Int
  UpdatedAt : Int
  deriving DecidableEq, Repr

/-- Go `error` values that the core produces or passes on. -/
inductive Error where
  /-- The sentinel `gorm.ErrRecordNotFound`. -/
  | recordNotFound
  /-- Any other error of the store or its driver, with its text. -/
  | store (msg : String)
  /-- An error made by `errors.New(msg)`. -/
  | new (msg : String)
  /-- A `*jwt.ValidationError` with its `Errors` bit field. -/
  | validation (errors : Nat)
  deriving DecidableEq, Repr

/-- Equality of results is decidable when equality of errors and of values is. -/
instance instDecidableEqExcept {ε α : Type} [DecidableEq ε] [DecidableEq α] :
    DecidableEq (Except ε α)
  | .ok a, .ok b => if h : a = b then isTrue (by rw [h]) else isFalse (by simpa using h)
  | .error a, .error b => if h : a = b then isTrue (by rw [h]) else isFalse (by simpa using h)
  | .ok _, .error _ => isFalse (by simp)
  | .error _, .ok _ => isFalse (by simp)

/-- The text of an error (`err.Error()`), for the errors whose text the core fixes. -/
def Error.message : Error → String
  | .recordNotFound => "record not found"
  | .store msg => msg
  | .new msg => msg
  | .validation _ => "token is invalid"

/-- Values stored in the `map[string]interface{}` built by `ToResponse`. -/
inductive Value where
  | uint (n : Nat)
  | str (s : String)
  | roles (rs : List Role)
  deriving DecidableEq, Repr

/-- Method `User.ToResponse`: the user without its sensitive fields, as a list of
key/value pairs. -/
def User.ToResponse (u : User) : List (String × Value) :=
  [("id", .uint u.ID),
   ("username", .str u.Username),
   ("email", .str u.Email),
   ("full_name", .str u.FullName),
   ("roles", .roles u.Roles)]

/-! ## The store -/

/-- Store state: the user rows with their roles and permissions attached, and the
fault, if any, with which every query fails. -/
structure DB where
  users : List User
  fault : Option String
  deriving Repr

/-- Row with the smallest primary key among `us` (`ORDER BY id LIMIT 1`); of two rows
with the same key the earlier one is kept. -/
def firstByID : List User → Option User
  | [] => none
  | u :: rest =>
    match firstByID rest with
    | none => some u
    | some v => if v.ID < u.ID then some v else some u

/-- Query `db.Where(cond).Preload("Roles.Permissions").First(&user)`: the store's fault
if it has one, `gorm.ErrRecordNotFound` when no row satisfies `cond`, else the first
such row in primary-key order. -/
def DB.First (db : DB) (cond : User → Bool) : Except Error User :=
  match db.fault with
  | some msg => .error (.store msg)
  | none =>
    match firstByID (db.users.filter cond) with
    | none => .error .recordNotFound
    | some u => .ok u

/-! ## Authorization engine (`AuthService.HasPermission`, `RequireRole`) -/

/-- Inner loop of `HasPermission`: `for _, perm := range role.Permissions`. -/
def permLoop (resource action : String) : List Permission → Bool
  | [] => false
  | perm :: rest =>
    if perm.Resource == resource && perm.Action == action then true
    else permLoop resource action rest

/-- Outer loop of `HasPermission`: `for _, role := range user.Roles`. -/
def roleLoop (resource action : String) : List Role → Bool
  | [] => false
  | role :: rest =>
    if permLoop resource action role.Permissions then true
    else roleLoop resource action rest

/-- Method `AuthService.HasPermission`. -/
def HasPermission (db : DB) (userID : Nat) (resource action : String) :
    Bool × Option Error :=
  match db.First (fun u => u.ID == userID) with
  | .error e => (false, some e)
  | .ok user => (roleLoop resource action user.Roles, none)

/-- Method `AuthService.GetUserByID`. -/
def GetUserByID (db : DB) (userID : Nat) : Except Error User :=
  db.First (fun u => u.ID == userID)

/-- JSON answer written by a middleware: the HTTP status and the text under the
`"error"` key of the body. -/
structure Response where
  status : Nat
  error : String
  deriving DecidableEq, Repr

/-- What a gin middleware does with a request: hand it on (`c.Next()`) or answer it
and stop (`c.JSON(...)` followed by `c.Abort()`). -/
inductive Gate where
  | next
  | abort (r : Response)
  deriving DecidableEq, Repr

/-- Loop of `RequireRole`: sets `hasRole` at the first role named `roleName`. -/
def hasRoleLoop (roleName : String) : List Role → Bool
  | [] => false
  | role :: rest => if role.Name == roleName then true else hasRoleLoop roleName rest

/-- Middleware `RequireRole(roleName)`; `ctxUser` is what `c.Get("user")` finds. -/
def RequireRole (roleName : String) (ctxUser : Option User) : Gate :=
  match ctxUser with
  | none => .abort ⟨401, "Unauthorized"⟩
  | some user =>
    if !hasRoleLoop roleName user.Roles then
      .abort ⟨403, "Role required: " ++ roleName⟩
    else .next

/-! ## Bytes and text -/

/-- UTF-8 bytes of one character. -/
def utf8Char (c : Char) : List Nat :=
  let n := c.toNat
  if n < 0x80 then [n]
  else if n < 0x800 then [0xC0 + n / 64, 0x80 + n % 64]
  else if n < 0x10000 then [0xE0 + n / 4096, 0x80 + n / 64 % 64, 0x80 + n % 64]
  else [0xF0 + n / 262144, 0x80 + n / 4096 % 64, 0x80 + n / 64 % 64, 0x80 + n % 64]

/-- Conversion `[]byte(s)`: the UTF-8 bytes of a text. -/
def utf8 (s : String) : List Nat := s.data.flatMap utf8Char

/-- Big-endian bytes of `n`, `len` of them. -/
def beBytes (len n : Nat) : List Nat :=
  (List.range len).map (fun i => n / 256 ^ (len - 1 - i) % 256)

/-- Number with the big-endian bytes `bs`. -/
def beWord (bs : List Nat) : Nat := bs.foldl (fun acc b => acc * 256 + b) 0

/-- At most `fuel` consecutive pieces of `n` elements of `l` (the last may be shorter). -/
def chunks (n : Nat) : Nat → List Nat → List (List Nat)
  | 0, _ => []
  | fuel + 1, l => if l.isEmpty then [] else l.take n :: chunks n fuel (l.drop n)

/-! ## SHA-2 and HMAC (`crypto/sha256`, `crypto/sha512`, `crypto/hmac`)

The hash functions behind the signing methods HS256, HS384 and HS512, after
FIPS 180-4, and HMAC after RFC 2104 as `crypto/hmac` computes it. Words are
natural numbers reduced modulo `2 ^ w`. -/

/-- Round constants of SHA-256 (FIPS 180-4, 4.2.2). -/
def sha256K : List Nat :=
  [0x428a2f98, 0x71374491, 0xb5c0fbcf, 0xe9b5dba5, 0x3956c25b, 0x59f111f1, 0x923f82a4, 0xab1c5ed5,
   0xd807aa98, 0x12835b01, 0x243185be, 0x550c7dc3, 0x72be5d74, 0x80deb1fe, 0x9bdc06a7, 0xc19bf174,
   0xe49b69c1, 0xefbe4786, 0x0fc19dc6, 0x240ca1cc, 0x2de92c6f, 0x4a7484aa, 0x5cb0a9dc, 0x76f988da,
   0x983e5152, 0xa831c66d, 0xb00327c8, 0xbf597fc7, 0xc6e00bf3, 0xd5a79147, 0x06ca6351, 0x14292967,
   0x27b70a85, 0x2e1b2138, 0x4d2c6dfc, 0x53380d13, 0x650a7354, 0x766a0abb, 0x81c2c92e, 0x92722c85,
   0xa2bfe8a1, 0xa81a664b, 0xc24b8b70, 0xc76c51a3, 0xd192e819, 0xd6990624, 0xf40e3585, 0x106aa070,
   0x19a4c116, 0x1e376c08, 0x2748774c, 0x34b0bcb5, 0x391c0cb3, 0x4ed8aa4a, 0x5b9cca4f, 0x682e6ff3,
   0x748f82ee, 0x78a5636f, 0x84c87814, 0x8cc70208, 0x90befffa, 0xa4506ceb, 0xbef9a3f7, 0xc67178f2]

/-- Initial hash value of SHA-256 (FIPS 180-4, 5.3.3). -/
def sha256H0 : List Nat :=
  [0x6a09e667, 0xbb67ae85, 0x3c6ef372, 0xa54ff53a, 0x510e527f, 0x9b05688c, 0x1f83d9ab, 0x5be0cd19]

/-- Round constants of SHA-384 and SHA-512 (FIPS 180-4, 4.2.3). -/
def sha512K : List Nat :=
  [0x428a2f98d728ae22, 0x7137449123ef65cd, 0xb5c0fbcfec4d3b2f, 0xe9b5dba58189dbbc,
   0x3956c25bf348b538, 0x59f111f1b605d019, 0x923f82a4af194f9b, 0xab1c5ed5da6d8118,
   0xd807aa98a3030242, 0x12835b0145706fbe, 0x243185be4ee4b28c, 0x550c7dc3d5ffb4e2,
   0x72be5d74f27b896f, 0x80deb1fe3b1696b1, 0x9bdc06a725c71235, 0xc19bf174cf692694,
   0xe49b69c19ef14ad2, 0xefbe4786384f25e3, 0x0fc19dc68b8cd5b5, 0x240ca1cc77ac9c65,
   0x2de92c6f592b0275, 0x4a7484aa6ea6e483, 0x5cb0a9dcbd41fbd4, 0x76f988da831153b5,
   0x983e5152ee66dfab, 0xa831c66d2db43210, 0xb00327c898fb213f, 0xbf597fc7beef0ee4,
   0xc6e00bf33da88fc2, 0xd5a79147930aa725, 0x06ca6351e003826f, 0x142929670a0e6e70,
   0x27b70a8546d22ffc, 0x2e1b21385c26c926, 0x4d2c6dfc5ac42aed, 0x53380d139d95b3df,
   0x650a73548baf63de, 0x766a0abb3c77b2a8, 0x81c2c92e47edaee6, 0x92722c851482353b,
   0xa2bfe8a14cf10364, 0xa81a664bbc423001, 0xc24b8b70d0f89791, 0xc76c51a30654be30,
   0xd192e819d6ef5218, 0xd69906245565a910, 0xf40e35855771202a, 0x106aa07032bbd1b8,
   0x19a4c116b8d2d0c8, 0x1e376c085141ab53, 0x2748774cdf8eeb99, 0x34b0bcb5e19b48a8,
   0x391c0cb3c5c95a63, 0x4ed8aa4ae3418acb, 0x5b9cca4f7763e373, 0x682e6ff3d6b2b8a3,
   0x748f82ee5defb2fc, 0x78a5636f43172f60, 0x84c87814a1f0ab72, 0x8cc702081a6439ec,
   0x90befffa23631e28, 0xa4506cebde82bde9, 0xbef9a3f7b2c67915, 0xc67178f2e372532b,
   0xca273eceea26619c, 0xd186b8c721c0c207, 0xeada7dd6cde0eb1e, 0xf57d4f7fee6ed178,
   0x06f067aa72176fba, 0x0a637dc5a2c898a6, 0x113f9804bef90dae, 0x1b710b35131c471b,
   0x28db77f523047d84, 0x32caab7b40c72493, 0x3c9ebe0a15c9bebc, 0x431d67c49c100d4c,
   0x4cc5d4becb3e42b6, 0x597f299cfc657e2a, 0x5fcb6fab3ad6faec, 0x6c44198c4a475817]

/-- Initial hash value of SHA-512 (FIPS 180-4, 5.3.5). -/
def sha512H0 : List Nat :=
  [0x6a09e667f3bcc908, 0xbb67ae8584caa73b, 0x3c6ef372fe94f82b, 0xa54ff53a5f1d36f1,
   0x510e527fade682d1, 0x9b05688c2b3e6c1f, 0x1f83d9abfb41bd6b, 0x5be0cd19137e2179]

/-- Initial hash value of SHA-384 (FIPS 180-4, 5.3.4). -/
def sha384H0 : List Nat :=
  [0xcbbb9d5dc1059ed8, 0x629a292a367cd507, 0x9159015a3070dd17, 0x152fecd8f70e5939,
   0x67332667ffc00b31, 0x8eb44a8768581511, 0xdb0c2e0d64f98fa7, 0x47b5481dbefa4fa4]

/-- Parameters of a SHA-2 hash function: word size in bits, round constants, initial
hash value, the rotation and shift amounts of the four sigma functions, and the
digest length in bytes. -/
structure SHA2 where
  w : Nat
  K : List Nat
  H0 : List Nat
  bigS0 : Nat × Nat × Nat
  bigS1 : Nat × Nat × Nat
  smallS0 : Nat × Nat × Nat
  smallS1 : Nat × Nat × Nat
  outLen : Nat

/-- Parameters of SHA-256. -/
def sha256 : SHA2 :=
  ⟨32, sha256K, sha256H0, (2, 13, 22), (6, 11, 25), (7, 18, 3), (17, 19, 10), 32⟩

/-- Parameters of SHA-512. -/
def sha512 : SHA2 :=
  ⟨64, sha512K, sha512H0, (28, 34, 39), (14, 18, 41), (1, 8, 7), (19, 61, 6), 64⟩

/-- Parameters of SHA-384. -/
def sha384 : SHA2 :=
  ⟨64, sha512K, sha384H0, (28, 34, 39), (14, 18, 41), (1, 8, 7), (19, 61, 6), 48⟩

/-- Rotation of the `w`-bit word `x` to the right by `n` bits. -/
def rotr (w x n : Nat) : Nat := (x / 2 ^ n + x % 2 ^ n * 2 ^ (w - n)) % 2 ^ w

/-- Block size in bytes: 16 words. -/
def SHA2.blockSize (p : SHA2) : Nat := 2 * p.w

/-- Padding of a message: the bit `1`, zero bits, and the bit length of the message in
a field of two words, up to a whole number of blocks. -/
def SHA2.pad (p : SHA2) (msg : List Nat) : List Nat :=
  let lenField := p.w / 4
  let used := (msg.length + 1 + lenField) % p.blockSize
  msg ++ 0x80 :: List.replicate ((p.blockSize - used) % p.blockSize) 0
    ++ beBytes lenField (8 * msg.length)

/-- Message schedule of one block. -/
def SHA2.schedule (p : SHA2) (block : List Nat) : List Nat :=
  let w16 := (chunks (p.w / 8) 16 block).map beWord
  (List.range (p.K.length - 16)).foldl (fun W _ =>
    let n := W.length
    let x15 := W.getD (n - 15) 0
    let x2 := W.getD (n - 2) 0
    let s0 := (rotr p.w x15 p.smallS0.1).xor
      ((rotr p.w x15 p.smallS0.2.1).xor (x15 / 2 ^ p.smallS0.2.2))
    let s1 := (rotr p.w x2 p.smallS1.1).xor
      ((rotr p.w x2 p.smallS1.2.1).xor (x2 / 2 ^ p.smallS1.2.2))
    W ++ [(W.getD (n - 16) 0 + s0 + W.getD (n - 7) 0 + s1) % 2 ^ p.w]) w16

/-- One round of the compression function on the eight working variables, with the
round constant and schedule word `kw`. -/
def SHA2.round (p : SHA2) (s : List Nat) (kw : Nat × Nat) : List Nat :=
  match s with
  | [a, b, c, d, e, f, g, h] =>
    let S1 := (rotr p.w e p.bigS1.1).xor
      ((rotr p.w e p.bigS1.2.1).xor (rotr p.w e p.bigS1.2.2))
    let ch := (e.land f).xor ((2 ^ p.w - 1 - e).land g)
    let t1 := (h + S1 + ch + kw.1 + kw.2) % 2 ^ p.w
    let S0 := (rotr p.w a p.bigS0.1).xor
      ((rotr p.w a p.bigS0.2.1).xor (rotr p.w a p.bigS0.2.2))
    let mj := (a.land b).xor ((a.land c).xor (b.land c))
    let t2 := (S0 + mj) % 2 ^ p.w
    [(t1 + t2) % 2 ^ p.w, a, b, c, (d + t1) % 2 ^ p.w, e, f, g]
  | _ => s

/-- Compression of one block into the hash value `H`. -/
def SHA2.compress (p : SHA2) (H : List Nat) (block : List Nat) : List Nat :=
  let s := (p.K.zip (p.schedule block)).foldl p.round H
  List.zipWith (fun x y => (x + y) % 2 ^ p.w) H s

/-- Digest of a message. -/
def SHA2.sum (p : SHA2) (msg : List Nat) : List Nat :=
  let m := p.pad msg
  let H := (chunks p.blockSize m.length m).foldl p.compress p.H0
  ((H.map (beBytes (p.w / 8))).flatten).take p.outLen

/-- Key block of HMAC (`hmac.New`): a key longer than a block is hashed first, then the
key is copied into a block of zero bytes. -/
def hmacKeyBlock (p : SHA2) (key : List Nat) : List Nat :=
  let k := if p.blockSize < key.length then p.sum key else key
  k ++ List.replicate (p.blockSize - k.length) 0

/-- Tag `HMAC(key, msg)` with the hash function `p`. -/
def hmac (p : SHA2) (key msg : List Nat) : List Nat :=
  let k := hmacKeyBlock p key
  p.sum (k.map (fun b => b.xor 0x5c) ++ p.sum (k.map (fun b => b.xor 0x36) ++ msg))

/-! ## base64 (`encoding/base64`, `RawURLEncoding`) -/

/-- Character of the URL alphabet for a 6-bit value. -/
def b64Char (v : Nat) : Char :=
  if v < 26 then Char.ofNat (65 + v)
  else if v < 52 then Char.ofNat (97 + (v - 26))
  else if v < 62 then Char.ofNat (48 + (v - 52))
  else if v = 62 then '-'
  else '_'

/-- The 6-bit value of a character of the URL alphabet (the decode map). -/
def b64Val (c : Char) : Option Nat :=
  let n := c.toNat
  if 65 ≤ n ∧ n ≤ 90 then some (n - 65)
  else if 97 ≤ n ∧ n ≤ 122 then some (n - 97 + 26)
  else if 48 ≤ n ∧ n ≤ 57 then some (n - 48 + 52)
  else if c = '-' then some 62
  else if c = '_' then some 63
  else none

/-- The 6-bit values that encode a byte sequence, without padding. -/
def b64Sextets : List Nat → List Nat
  | b0 :: b1 :: b2 :: rest =>
    b0 / 4 :: (b0 % 4 * 16 + b1 / 16) :: (b1 % 16 * 4 + b2 / 64) :: b2 % 64 ::
      b64Sextets rest
  | [b0, b1] => [b0 / 4, b0 % 4 * 16 + b1 / 16, b1 % 16 * 4]
  | [b0] => [b0 / 4, b0 % 4 * 16]
  | [] => []

/-- The bytes that a sequence of 6-bit values decodes to. A final group of two or three
values gives one or two bytes, whatever its unused low bits are (the decoder is not
strict); a final group of one value is an error. -/
def b64Bytes : List Nat → Option (List Nat)
  | v0 :: v1 :: v2 :: v3 :: rest =>
    match b64Bytes rest with
    | none => none
    | some bs => some ((v0 * 4 + v1 / 16) :: (v1 % 16 * 16 + v2 / 4) :: (v2 % 4 * 64 + v3) :: bs)
  | [v0, v1, v2] => some [v0 * 4 + v1 / 16, v1 % 16 * 16 + v2 / 4]
  | [v0, v1] => some [v0 * 4 + v1 / 16]
  | [_] => none
  | [] => some []

/-- The 6-bit values of a character sequence, or none when a character is outside the
alphabet. -/
def b64Vals : List Char → Option (List Nat)
  | [] => some []
  | c :: rest =>
    match b64Val c, b64Vals rest with
    | some v, some vs => some (v :: vs)
    | _, _ => none

/-- Function `jwt.EncodeSegment`: `base64.RawURLEncoding.EncodeToString`. -/
def EncodeSegment (seg : List Nat) : String :=
  String.mk ((b64Sextets seg).map b64Char)

/-- Function `jwt.DecodeSegment`: `base64.RawURLEncoding.DecodeString`, which skips
carriage returns and line feeds and rejects every other character outside the
alphabet. -/
def DecodeSegment (seg : String) : Option (List Nat) :=
  match b64Vals (seg.data.filter (fun c => c != '\r' && c != '\n')) with
  | none => none
  | some vs => b64Bytes vs

/-! ## Tokens (`github.com/golang-jwt/jwt/v4`) -/

/-- Entries of a token header that the library reads. -/
structure Header where
  alg : Option String
  typ : Option String
  deriving DecidableEq, Repr

/-- Registered claims (`jwt.RegisteredClaims`); a date is an instant in nanoseconds,
`none` for a nil `*NumericDate`. -/
structure RegisteredClaims where
  Issuer : String
  Subject : String
  Audience : List String
  ExpiresAt : Option Int
  NotBefore : Option Int
  IssuedAt : Option Int
  ID : String
  deriving DecidableEq, Repr

/-- Claim set of the service (`jwt.Claims` of `pkg/jwt`), which embeds the registered
claims. -/
structure Claims extends RegisteredClaims where
  UserID : Nat
  Email : String
  deriving DecidableEq, Repr

/-- The JSON layer (`encoding/json`) as the token library uses it: writing a header and
a claim set as JSON text, and reading them back from the bytes of a decoded segment
(`none` when `json.Unmarshal` fails). -/
structure JSONCodec where
  marshalHeader : Header → String
  unmarshalHeader : List Nat → Option Header
  marshalClaims : Claims → String
  unmarshalClaims : List Nat → Option Claims

/-- Signing methods registered by the library: the three HMAC methods, and the others
(`RS*`, `PS*`, `ES*`, `EdDSA`, `none`) by name. -/
inductive SigningMethod where
  | HS256
  | HS384
  | HS512
  | other (alg : String)
  deriving DecidableEq, Repr

/-- Method `Alg()`. -/
def SigningMethod.Alg : SigningMethod → String
  | .HS256 => "HS256"
  | .HS384 => "HS384"
  | .HS512 => "HS512"
  | .other alg => alg

/-- Hash function of an HMAC method; `none` for a method that is not
`*jwt.SigningMethodHMAC`. -/
def SigningMethod.hash : SigningMethod → Option SHA2
  | .HS256 => some sha256
  | .HS384 => some sha384
  | .HS512 => some sha512
  | .other _ => none

/-- Type assertion `token.Method.(*jwt.SigningMethodHMAC)`. -/
def SigningMethod.isHMAC (m : SigningMethod) : Bool := m.hash.isSome

/-- Function `jwt.GetSigningMethod`: the method registered under a name. -/
def GetSigningMethod (alg : String) : Option SigningMethod :=
  if alg = "HS256" then some .HS256
  else if alg = "HS384" then some .HS384
  else if alg = "HS512" then some .HS512
  else if alg ∈ ["RS256", "RS384", "RS512", "PS256", "PS384", "PS512",
      "ES256", "ES384", "ES512", "EdDSA", "none"] then some (.other alg)
  else none

/-- Token (`jwt.Token`). -/
structure Token where
  Header : Header
  Claims : Claims
  Method : SigningMethod
  Signature : String
  Valid : Bool
  deriving DecidableEq, Repr

/-- Flag `jwt.ValidationErrorMalformed`. -/
def ValidationErrorMalformed : Nat := 1

/-- Flag `jwt.ValidationErrorUnverifiable`. -/
def ValidationErrorUnverifiable : Nat := 2

/-- Flag `jwt.ValidationErrorSignatureInvalid`. -/
def ValidationErrorSignatureInvalid : Nat := 4

/-- Flag `jwt.ValidationErrorExpired`. -/
def ValidationErrorExpired : Nat := 16

/-- Flag `jwt.ValidationErrorIssuedAt`. -/
def ValidationErrorIssuedAt : Nat := 32

/-- Flag `jwt.ValidationErrorNotValidYet`. -/
def ValidationErrorNotValidYet : Nat := 128

/-- Function `jwt.NewNumericDate`: the instant truncated to the second
(`t.Truncate(jwt.TimePrecision)`). -/
def NewNumericDate (t : Int) : Int := t / 1000000000 * 1000000000

/-- Check `verifyExp` with `required = false`: `now.Before(exp)`. -/
def verifyExp (exp : Option Int) (now : Int) : Bool :=
  match exp with
  | none => true
  | some e => decide (now < e)

/-- Check `verifyIat` with `required = false`: `now.After(iat) || now.Equal(iat)`. -/
def verifyIat (iat : Option Int) (now : Int) : Bool :=
  match iat with
  | none => true
  | some t => decide (t ≤ now)

/-- Check `verifyNbf` with `required = false`: `now.After(nbf) || now.Equal(nbf)`. -/
def verifyNbf (nbf : Option Int) (now : Int) : Bool :=
  match nbf with
  | none => true
  | some t => decide (t ≤ now)

/-- Method `RegisteredClaims.Valid` at the clock reading `now`: the `Errors` bit field
of the validation error, `0` for a nil error. The flags are distinct bits, so the
field is their sum. -/
def RegisteredClaims.Valid (c : RegisteredClaims) (now : Int) : Nat :=
  (if verifyExp c.ExpiresAt now then 0 else ValidationErrorExpired) +
  (if verifyIat c.IssuedAt now then 0 else ValidationErrorIssuedAt) +
  (if verifyNbf c.NotBefore now then 0 else ValidationErrorNotValidYet)

/-- Method `Verify` with a `[]byte` key; `true` stands for a nil error. An HMAC method
decodes the signature and compares it with the tag of the signing string
(`hmac.Equal`); every other method refuses a `[]byte` key. -/
def SigningMethod.Verify (m : SigningMethod) (signingString signature : String)
    (key : List Nat) : Bool :=
  match m.hash with
  | none => false
  | some p =>
    match DecodeSegment signature with
    | none => false
    | some sig => decide (sig = hmac p key (utf8 signingString))

/-- Method `Sign` with a `[]byte` key. -/
def SigningMethod.Sign (m : SigningMethod) (signingString : String) (key : List Nat) :
    Except Error String :=
  match m.hash with
  | none => .error (.new "key is of invalid type")
  | some p => .ok (EncodeSegment (hmac p key (utf8 signingString)))

/-- Pieces of a character sequence between the occurrences of `sep`
(`strings.Split`). -/
def splitOn (sep : Char) : List Char → List (List Char)
  | [] => [[]]
  | c :: rest =>
    if c = sep then [] :: splitOn sep rest
    else
      match splitOn sep rest with
      | [] => [[c]]
      | seg :: segs => (c :: seg) :: segs

/-- Method `Parser.ParseUnverified`: the token with its header, claims and method, and
the three segments of the token string. -/
def ParseUnverified (L : JSONCodec) (tokenString : String) :
    Except Error (Token × String × String × String) :=
  match splitOn '.' tokenString.data with
  | [p0, p1, p2] =>
    match DecodeSegment (String.mk p0) with
    | none => .error (.validation ValidationErrorMalformed)
    | some headerBytes =>
      match L.unmarshalHeader headerBytes with
      | none => .error (.validation ValidationErrorMalformed)
      | some header =>
        match DecodeSegment (String.mk p1) with
        | none => .error (.validation ValidationErrorMalformed)
        | some claimBytes =>
          match L.unmarshalClaims claimBytes with
          | none => .error (.validation ValidationErrorMalformed)
          | some claims =>
            match header.alg with
            | none => .error (.validation ValidationErrorUnverifiable)
            | some alg =>
              match GetSigningMethod alg with
              | none => .error (.validation ValidationErrorUnverifiable)
              | some method =>
                .ok (⟨header, claims, method, "", false⟩,
                  String.mk p0, String.mk p1, String.mk p2)
  | _ => .error (.validation ValidationErrorMalformed)

/-- Method `Parser.ParseWithClaims` at the clock reading `now` (`jwt.TimeFunc()`): parse,
ask `keyFunc` for the key, validate the claims, verify the signature. -/
def ParseWithClaims (L : JSONCodec) (tokenString : String)
    (keyFunc : Token → Except Error (List Nat)) (now : Int) : Except Error Token :=
  match ParseUnverified L tokenString with
  | .error e => .error e
  | .ok (token, p0, p1, p2) =>
    match keyFunc token with
    | .error (.validation v) => .error (.validation v)
    | .error _ => .error (.validation ValidationErrorUnverifiable)
    | .ok key =>
      let claimErrors := token.Claims.toRegisteredClaims.Valid now
      let errors :=
        if token.Method.Verify (p0 ++ "." ++ p1) p2 key then claimErrors
        else claimErrors + ValidationErrorSignatureInvalid
      if errors = 0 then .ok { token with Signature := p2, Valid := true }
      else .error (.validation errors)

/-- Function `jwt.NewWithClaims`. -/
def NewWithClaims (method : SigningMethod) (claims : Claims) : Token :=
  ⟨⟨some method.Alg, some "JWT"⟩, claims, method, "", false⟩

/-- Method `Token.SigningString`. -/
def SigningString (L : JSONCodec) (token : Token) : String :=
  EncodeSegment (utf8 (L.marshalHeader token.Header)) ++ "." ++
    EncodeSegment (utf8 (L.marshalClaims token.Claims))

/-- Method `Token.SignedString` with a `[]byte` key. -/
def SignedString (L : JSONCodec) (token : Token) (key : List Nat) : Except Error String :=
  let sstr := SigningString L token
  match token.Method.Sign sstr key with
  | .error e => .error e
  | .ok sig => .ok (sstr ++ "." ++ sig)

/-! ## Token service (`pkg/jwt/jwt.go`) -/

/-- Service configuration (`jwt.JWTService`). -/
structure JWTService where
  secretKey : String
  issuer : String
  tokenDuration : Int
  deriving DecidableEq, Repr

/-- Constructor `NewJWTService`. -/
def NewJWTService (secretKey issuer : String) (tokenDuration : Int) : JWTService :=
  ⟨secretKey, issuer, tokenDuration⟩

/-- The claim set that `GenerateToken` builds; `now1` and `now2` are its two readings of
the clock, the first for `ExpiresAt`, the second for `IssuedAt`. -/
def JWTService.claimsFor (j : JWTService) (now1 now2 : Int) (userID : Nat)
    (email : String) : Claims :=
  { UserID := userID
    Email := email
    Issuer := j.issuer
    Subject := ""
    Audience := []
    ExpiresAt := some (NewNumericDate (now1 + j.tokenDuration))
    NotBefore := none
    IssuedAt := some (NewNumericDate now2)
    ID := "" }

/-- Method `JWTService.GenerateToken`. -/
def GenerateToken (L : JSONCodec) (j : JWTService) (now1 now2 : Int) (userID : Nat)
    (email : String) : Except Error String :=
  let claims := j.claimsFor now1 now2 userID email
  let token := NewWithClaims .HS256 claims
  match SignedString L token (utf8 j.secretKey) with
  | .error e => .error e
  | .ok signedToken => .ok signedToken

/-- The key function that `ValidateToken` hands to the parser. -/
def JWTService.keyFunc (j : JWTService) (token : Token) : Except Error (List Nat) :=
  if !token.Method.isHMAC then
    .error (.new ("unexpected signing method: " ++ token.Header.alg.getD ""))
  else .ok (utf8 j.secretKey)

/-- Method `JWTService.ValidateToken` at the clock reading `now`. -/
def ValidateToken (L : JSONCodec) (j : JWTService) (now : Int) (tokenString : String) :
    Except Error Claims :=
  match ParseWithClaims L tokenString j.keyFunc now with
  | .error e => .error e
  | .ok token =>
    if !token.Valid then .error (.new "invalid token")
    else .ok token.Claims

/-! ## Login (`AuthService.Login`) -/

/-- The password hasher (`golang.org/x/crypto/bcrypt`): making a digest from a password,
a cost and the salt drawn for it, and checking a password against a digest (`true`
for a nil error of `CompareHashAndPassword`). -/
structure Bcrypt where
  GenerateFromPassword : String → Nat → List Nat → Except Error String
  CompareHashAndPassword : String → String → Bool

/-- Method `User.CheckPassword`. -/
def User.CheckPassword (bc : Bcrypt) (u : User) (password : String) : Bool :=
  bc.CompareHashAndPassword u.Password password

/-- Request body of a login (`service.LoginRequest`). -/
structure LoginRequest where
  Username : String
  Password : String
  deriving DecidableEq, Repr

/-- Result of a login (`service.LoginResponse`). -/
structure LoginResponse where
  AccessToken : String
  User : List (String × Value)
  deriving DecidableEq, Repr

/-- Method `AuthService.Login`; `now1` and `now2` are the clock readings of the token
service. -/
def Login (L : JSONCodec) (bc : Bcrypt) (db : DB) (j : JWTService) (now1 now2 : Int)
    (req : LoginRequest) : Except Error LoginResponse :=
  match db.First (fun u => u.Username == req.Username) with
  | .error e =>
    if e = .recordNotFound then .error (.new "invalid username or password")
    else .error e
  | .ok user =>
    if !user.CheckPassword bc req.Password then
      .error (.new "invalid username or password")
    else
      match GenerateToken L j now1 now2 user.ID user.Email with
      | .error e => .error e
      | .ok token => .ok ⟨token, user.ToResponse⟩

/-! ## Blowfish (`golang.org/x/crypto/blowfish`) -/

/-- Initial subkeys of Blowfish (`blowfish.p`): the first fractional hexadecimal digits
of pi. -/
def blowfishP : List Nat :=
  [0x243f6a88, 0x85a308d3, 0x13198a2e, 0x03707344, 0xa4093822, 0x299f31d0, 0x082efa98, 0xec4e6c89,
   0x452821e6, 0x38d01377, 0xbe5466cf, 0x34e90c6c, 0xc0ac29b7, 0xc97c50dd, 0x3f84d5b5, 0xb5470917,
   0x9216d5d9, 0x8979fb1b]

/-- Initial substitution box `blowfish.s0`: the digits of pi that follow. -/
def blowfishS0 : List Nat :=
  [0xd1310ba6, 0x98dfb5ac, 0x2ffd72db, 0xd01adfb7, 0xb8e1afed, 0x6a267e96, 0xba7c9045, 0xf12c7f99,
   0x24a19947, 0xb3916cf7, 0x0801f2e2, 0x858efc16, 0x636920d8, 0x71574e69, 0xa458fea3, 0xf4933d7e,
   0x0d95748f, 0x728eb658, 0x718bcd58, 0x82154aee, 0x7b54a41d, 0xc25a59b5, 0x9c30d539, 0x2af26013,
   0xc5d1b023, 0x286085f0, 0xca417918, 0xb8db38ef, 0x8e79dcb0, 0x603a180e, 0x6c9e0e8b, 0xb01e8a3e,
   0xd71577c1, 0xbd314b27, 0x78af2fda, 0x55605c60, 0xe65525f3, 0xaa55ab94, 0x57489862, 0x63e81440,
   0x55ca396a, 0x2aab10b6, 0xb4cc5c34, 0x1141e8ce, 0xa15486af, 0x7c72e993, 0xb3ee1411, 0x636fbc2a,
   0x2ba9c55d, 0x741831f6, 0xce5c3e16, 0x9b87931e, 0xafd6ba33, 0x6c24cf5c, 0x7a325381, 0x28958677,
   0x3b8f4898, 0x6b4bb9af, 0xc4bfe81b, 0x66282193, 0x61d809cc, 0xfb21a991, 0x487cac60, 0x5dec8032,
   0xef845d5d, 0xe98575b1, 0xdc262302, 0xeb651b88, 0x23893e81, 0xd396acc5, 0x0f6d6ff3, 0x83f44239,
   0x2e0b4482, 0xa4842004, 0x69c8f04a, 0x9e1f9b5e, 0x21c66842, 0xf6e96c9a, 0x670c9c61, 0xabd388f0,
   0x6a51a0d2, 0xd8542f68, 0x960fa728, 0xab5133a3, 0x6eef0b6c, 0x137a3be4, 0xba3bf050, 0x7efb2a98,
   0xa1f1651d, 0x39af0176, 0x66ca593e, 0x82430e88, 0x8cee8619, 0x456f9fb4, 0x7d84a5c3, 0x3b8b5ebe,
   0xe06f75d8, 0x85c12073, 0x401a449f, 0x56c16aa6, 0x4ed3aa62, 0x363f7706, 0x1bfedf72, 0x429b023d,
   0x37d0d724, 0xd00a1248, 0xdb0fead3, 0x49f1c09b, 0x075372c9, 0x80991b7b, 0x25d479d8, 0xf6e8def7,
   0xe3fe501a, 0xb6794c3b, 0x976ce0bd, 0x04c006ba, 0xc1a94fb6, 0x409f60c4, 0x5e5c9ec2, 0x196a2463,
   0x68fb6faf, 0x3e6c53b5, 0x1339b2eb, 0x3b52ec6f, 0x6dfc511f, 0x9b30952c, 0xcc814544, 0xaf5ebd09,
   0xbee3d004, 0xde334afd, 0x660f2807, 0x192e4bb3, 0xc0cba857, 0x45c8740f, 0xd20b5f39, 0xb9d3fbdb,
   0x5579c0bd, 0x1a60320a, 0xd6a100c6, 0x402c7279, 0x679f25fe, 0xfb1fa3cc, 0x8ea5e9f8, 0xdb3222f8,
   0x3c7516df, 0xfd616b15, 0x2f501ec8, 0xad0552ab, 0x323db5fa, 0xfd238760, 0x53317b48, 0x3e00df82,
   0x9e5c57bb, 0xca6f8ca0, 0x1a87562e, 0xdf1769db, 0xd542a8f6, 0x287effc3, 0xac6732c6, 0x8c4f5573,
   0x695b27b0, 0xbbca58c8, 0xe1ffa35d, 0xb8f011a0, 0x10fa3d98, 0xfd2183b8, 0x4afcb56c, 0x2dd1d35b,
   0x9a53e479, 0xb6f84565, 0xd28e49bc, 0x4bfb9790, 0xe1ddf2da, 0xa4cb7e33, 0x62fb1341, 0xcee4c6e8,
   0xef20cada, 0x36774c01, 0xd07e9efe, 0x2bf11fb4, 0x95dbda4d, 0xae909198, 0xeaad8e71, 0x6b93d5a0,
   0xd08ed1d0, 0xafc725e0, 0x8e3c5b2f, 0x8e7594b7, 0x8ff6e2fb, 0xf2122b64, 0x8888b812, 0x900df01c,
   0x4fad5ea0, 0x688fc31c, 0xd1cff191, 0xb3a8c1ad, 0x2f2f2218, 0xbe0e1777, 0xea752dfe, 0x8b021fa1,
   0xe5a0cc0f, 0xb56f74e8, 0x18acf3d6, 0xce89e299, 0xb4a84fe0, 0xfd13e0b7, 0x7cc43b81, 0xd2ada8d9,
   0x165fa266, 0x80957705, 0x93cc7314, 0x211a1477, 0xe6ad2065, 0x77b5fa86, 0xc75442f5, 0xfb9d35cf,
   0xebcdaf0c, 0x7b3e89a0, 0xd6411bd3, 0xae1e7e49, 0x00250e2d, 0x2071b35e, 0x226800bb, 0x57b8e0af,
   0x2464369b, 0xf009b91e, 0x5563911d, 0x59dfa6aa, 0x78c14389, 0xd95a537f, 0x207d5ba2, 0x02e5b9c5,
   0x83260376, 0x6295cfa9, 0x11c81968, 0x4e734a41, 0xb3472dca, 0x7b14a94a, 0x1b510052, 0x9a532915,
   0xd60f573f, 0xbc9bc6e4, 0x2b60a476, 0x81e67400, 0x08ba6fb5, 0x571be91f, 0xf296ec6b, 0x2a0dd915,
   0xb6636521, 0xe7b9f9b6, 0xff34052e, 0xc5855664, 0x53b02d5d, 0xa99f8fa1, 0x08ba4799, 0x6e85076a]

/-- Initial substitution box `blowfish.s1`: the digits of pi that follow. -/
def blowfishS1 : List Nat :=
  [0x4b7a70e9, 0xb5b32944, 0xdb75092e, 0xc4192623, 0xad6ea6b0, 0x49a7df7d, 0x9cee60b8, 0x8fedb266,
   0xecaa8c71, 0x699a17ff, 0x5664526c, 0xc2b19ee1, 0x193602a5, 0x75094c29, 0xa0591340, 0xe4183a3e,
   0x3f54989a, 0x5b429d65, 0x6b8fe4d6, 0x99f73fd6, 0xa1d29c07, 0xefe830f5, 0x4d2d38e6, 0xf0255dc1,
   0x4cdd2086, 0x8470eb26, 0x6382e9c6, 0x021ecc5e, 0x09686b3f, 0x3ebaefc9, 0x3c971814, 0x6b6a70a1,
   0x687f3584, 0x52a0e286, 0xb79c5305, 0xaa500737, 0x3e07841c, 0x7fdeae5c, 0x8e7d44ec, 0x5716f2b8,
   0xb03ada37, 0xf0500c0d, 0xf01c1f04, 0x0200b3ff, 0xae0cf51a, 0x3cb574b2, 0x25837a58, 0xdc0921bd,
   0xd19113f9, 0x7ca92ff6, 0x94324773, 0x22f54701, 0x3ae5e581, 0x37c2dadc, 0xc8b57634, 0x9af3dda7,
   0xa9446146, 0x0fd0030e, 0xecc8c73e, 0xa4751e41, 0xe238cd99, 0x3bea0e2f, 0x3280bba1, 0x183eb331,
   0x4e548b38, 0x4f6db908, 0x6f420d03, 0xf60a04bf, 0x2cb81290, 0x24977c79, 0x5679b072, 0xbcaf89af,
   0xde9a771f, 0xd9930810, 0xb38bae12, 0xdccf3f2e, 0x5512721f, 0x2e6b7124, 0x501adde6, 0x9f84cd87,
   0x7a584718, 0x7408da17, 0xbc9f9abc, 0xe94b7d8c, 0xec7aec3a, 0xdb851dfa, 0x63094366, 0xc464c3d2,
   0xef1c1847, 0x3215d908, 0xdd433b37, 0x24c2ba16, 0x12a14d43, 0x2a65c451, 0x50940002, 0x133ae4dd,
   0x71dff89e, 0x10314e55, 0x81ac77d6, 0x5f11199b, 0x043556f1, 0xd7a3c76b, 0x3c11183b, 0x5924a509,
   0xf28fe6ed, 0x97f1fbfa, 0x9ebabf2c, 0x1e153c6e, 0x86e34570, 0xeae96fb1, 0x860e5e0a, 0x5a3e2ab3,
   0x771fe71c, 0x4e3d06fa, 0x2965dcb9, 0x99e71d0f, 0x803e89d6, 0x5266c825, 0x2e4cc978, 0x9c10b36a,
   0xc6150eba, 0x94e2ea78, 0xa5fc3c53, 0x1e0a2df4, 0xf2f74ea7, 0x361d2b3d, 0x1939260f, 0x19c27960,
   0x5223a708, 0xf71312b6, 0xebadfe6e, 0xeac31f66, 0xe3bc4595, 0xa67bc883, 0xb17f37d1, 0x018cff28,
   0xc332ddef, 0xbe6c5aa5, 0x65582185, 0x68ab9802, 0xeecea50f, 0xdb2f953b, 0x2aef7dad, 0x5b6e2f84,
   0x1521b628, 0x29076170, 0xecdd4775, 0x619f1510, 0x13cca830, 0xeb61bd96, 0x0334fe1e, 0xaa0363cf,
   0xb5735c90, 0x4c70a239, 0xd59e9e0b, 0xcbaade14, 0xeecc86bc, 0x60622ca7, 0x9cab5cab, 0xb2f3846e,
   0x648b1eaf, 0x19bdf0ca, 0xa02369b9, 0x655abb50, 0x40685a32, 0x3c2ab4b3, 0x319ee9d5, 0xc021b8f7,
   0x9b540b19, 0x875fa099, 0x95f7997e, 0x623d7da8, 0xf837889a, 0x97e32d77, 0x11ed935f, 0x16681281,
   0x0e358829, 0xc7e61fd6, 0x96dedfa1, 0x7858ba99, 0x57f584a5, 0x1b227263, 0x9b83c3ff, 0x1ac24696,
   0xcdb30aeb, 0x532e3054, 0x8fd948e4, 0x6dbc3128, 0x58ebf2ef, 0x34c6ffea, 0xfe28ed61, 0xee7c3c73,
   0x5d4a14d9, 0xe864b7e3, 0x42105d14, 0x203e13e0, 0x45eee2b6, 0xa3aaabea, 0xdb6c4f15, 0xfacb4fd0,
   0xc742f442, 0xef6abbb5, 0x654f3b1d, 0x41cd2105, 0xd81e799e, 0x86854dc7, 0xe44b476a, 0x3d816250,
   0xcf62a1f2, 0x5b8d2646, 0xfc8883a0, 0xc1c7b6a3, 0x7f1524c3, 0x69cb7492, 0x47848a0b, 0x5692b285,
   0x095bbf00, 0xad19489d, 0x1462b174, 0x23820e00, 0x58428d2a, 0x0c55f5ea, 0x1dadf43e, 0x233f7061,
   0x3372f092, 0x8d937e41, 0xd65fecf1, 0x6c223bdb, 0x7cde3759, 0xcbee7460, 0x4085f2a7, 0xce77326e,
   0xa6078084, 0x19f8509e, 0xe8efd855, 0x61d99735, 0xa969a7aa, 0xc50c06c2, 0x5a04abfc, 0x800bcadc,
   0x9e447a2e, 0xc3453484, 0xfdd56705, 0x0e1e9ec9, 0xdb73dbd3, 0x105588cd, 0x675fda79, 0xe3674340,
   0xc5c43465, 0x713e38d8, 0x3d28f89e, 0xf16dff20, 0x153e21e7, 0x8fb03d4a, 0xe6e39f2b, 0xdb83adf7]

/-- Initial substitution box `blowfish.s2`: the digits of pi that follow. -/
def blowfishS2 : List Nat :=
  [0xe93d5a68, 0x948140f7, 0xf64c261c, 0x94692934, 0x411520f7, 0x7602d4f7, 0xbcf46b2e, 0xd4a20068,
   0xd4082471, 0x3320f46a, 0x43b7d4b7, 0x500061af, 0x1e39f62e, 0x97244546, 0x14214f74, 0xbf8b8840,
   0x4d95fc1d, 0x96b591af, 0x70f4ddd3, 0x66a02f45, 0xbfbc09ec, 0x03bd9785, 0x7fac6dd0, 0x31cb8504,
   0x96eb27b3, 0x55fd3941, 0xda2547e6, 0xabca0a9a, 0x28507825, 0x530429f4, 0x0a2c86da, 0xe9b66dfb,
   0x68dc1462, 0xd7486900, 0x680ec0a4, 0x27a18dee, 0x4f3ffea2, 0xe887ad8c, 0xb58ce006, 0x7af4d6b6,
   0xaace1e7c, 0xd3375fec, 0xce78a399, 0x406b2a42, 0x20fe9e35, 0xd9f385b9, 0xee39d7ab, 0x3b124e8b,
   0x1dc9faf7, 0x4b6d1856, 0x26a36631, 0xeae397b2, 0x3a6efa74, 0xdd5b4332, 0x6841e7f7, 0xca7820fb,
   0xfb0af54e, 0xd8feb397, 0x454056ac, 0xba489527, 0x55533a3a, 0x20838d87, 0xfe6ba9b7, 0xd096954b,
   0x55a867bc, 0xa1159a58, 0xcca92963, 0x99e1db33, 0xa62a4a56, 0x3f3125f9, 0x5ef47e1c, 0x9029317c,
   0xfdf8e802, 0x04272f70, 0x80bb155c, 0x05282ce3, 0x95c11548, 0xe4c66d22, 0x48c1133f, 0xc70f86dc,
   0x07f9c9ee, 0x41041f0f, 0x404779a4, 0x5d886e17, 0x325f51eb, 0xd59bc0d1, 0xf2bcc18f, 0x41113564,
   0x257b7834, 0x602a9c60, 0xdff8e8a3, 0x1f636c1b, 0x0e12b4c2, 0x02e1329e, 0xaf664fd1, 0xcad18115,
   0x6b2395e0, 0x333e92e1, 0x3b240b62, 0xeebeb922, 0x85b2a20e, 0xe6ba0d99, 0xde720c8c, 0x2da2f728,
   0xd0127845, 0x95b794fd, 0x647d0862, 0xe7ccf5f0, 0x5449a36f, 0x877d48fa, 0xc39dfd27, 0xf33e8d1e,
   0x0a476341, 0x992eff74, 0x3a6f6eab, 0xf4f8fd37, 0xa812dc60, 0xa1ebddf8, 0x991be14c, 0xdb6e6b0d,
   0xc67b5510, 0x6d672c37, 0x2765d43b, 0xdcd0e804, 0xf1290dc7, 0xcc00ffa3, 0xb5390f92, 0x690fed0b,
   0x667b9ffb, 0xcedb7d9c, 0xa091cf0b, 0xd9155ea3, 0xbb132f88, 0x515bad24, 0x7b9479bf, 0x763bd6eb,
   0x37392eb3, 0xcc115979, 0x8026e297, 0xf42e312d, 0x6842ada7, 0xc66a2b3b, 0x12754ccc, 0x782ef11c,
   0x6a124237, 0xb79251e7, 0x06a1bbe6, 0x4bfb6350, 0x1a6b1018, 0x11caedfa, 0x3d25bdd8, 0xe2e1c3c9,
   0x44421659, 0x0a121386, 0xd90cec6e, 0xd5abea2a, 0x64af674e, 0xda86a85f, 0xbebfe988, 0x64e4c3fe,
   0x9dbc8057, 0xf0f7c086, 0x60787bf8, 0x6003604d, 0xd1fd8346, 0xf6381fb0, 0x7745ae04, 0xd736fccc,
   0x83426b33, 0xf01eab71, 0xb0804187, 0x3c005e5f, 0x77a057be, 0xbde8ae24, 0x55464299, 0xbf582e61,
   0x4e58f48f, 0xf2ddfda2, 0xf474ef38, 0x8789bdc2, 0x5366f9c3, 0xc8b38e74, 0xb475f255, 0x46fcd9b9,
   0x7aeb2661, 0x8b1ddf84, 0x846a0e79, 0x915f95e2, 0x466e598e, 0x20b45770, 0x8cd55591, 0xc902de4c,
   0xb90bace1, 0xbb8205d0, 0x11a86248, 0x7574a99e, 0xb77f19b6, 0xe0a9dc09, 0x662d09a1, 0xc4324633,
   0xe85a1f02, 0x09f0be8c, 0x4a99a025, 0x1d6efe10, 0x1ab93d1d, 0x0ba5a4df, 0xa186f20f, 0x2868f169,
   0xdcb7da83, 0x573906fe, 0xa1e2ce9b, 0x4fcd7f52, 0x50115e01, 0xa70683fa, 0xa002b5c4, 0x0de6d027,
   0x9af88c27, 0x773f8641, 0xc3604c06, 0x61a806b5, 0xf0177a28, 0xc0f586e0, 0x006058aa, 0x30dc7d62,
   0x11e69ed7, 0x2338ea63, 0x53c2dd94, 0xc2c21634, 0xbbcbee56, 0x90bcb6de, 0xebfc7da1, 0xce591d76,
   0x6f05e409, 0x4b7c0188, 0x39720a3d, 0x7c927c24, 0x86e3725f, 0x724d9db9, 0x1ac15bb4, 0xd39eb8fc,
   0xed545578, 0x08fca5b5, 0xd83d7cd3, 0x4dad0fc4, 0x1e50ef5e, 0xb161e6f8, 0xa28514d9, 0x6c51133c,
   0x6fd5c7e7, 0x56e14ec4, 0x362abfce, 0xddc6c837, 0xd79a3234, 0x92638212, 0x670efa8e, 0x406000e0]

/-- Initial substitution box `blowfish.s3`: the digits of pi that follow. -/
def blowfishS3 : List Nat :=
  [0x3a39ce37, 0xd3faf5cf, 0xabc27737, 0x5ac52d1b, 0x5cb0679e, 0x4fa33742, 0xd3822740, 0x99bc9bbe,
   0xd5118e9d, 0xbf0f7315, 0xd62d1c7e, 0xc700c47b, 0xb78c1b6b, 0x21a19045, 0xb26eb1be, 0x6a366eb4,
   0x5748ab2f, 0xbc946e79, 0xc6a376d2, 0x6549c2c8, 0x530ff8ee, 0x468dde7d, 0xd5730a1d, 0x4cd04dc6,
   0x2939bbdb, 0xa9ba4650, 0xac9526e8, 0xbe5ee304, 0xa1fad5f0, 0x6a2d519a, 0x63ef8ce2, 0x9a86ee22,
   0xc089c2b8, 0x43242ef6, 0xa51e03aa, 0x9cf2d0a4, 0x83c061ba, 0x9be96a4d, 0x8fe51550, 0xba645bd6,
   0x2826a2f9, 0xa73a3ae1, 0x4ba99586, 0xef5562e9, 0xc72fefd3, 0xf752f7da, 0x3f046f69, 0x77fa0a59,
   0x80e4a915, 0x87b08601, 0x9b09e6ad, 0x3b3ee593, 0xe990fd5a, 0x9e34d797, 0x2cf0b7d9, 0x022b8b51,
   0x96d5ac3a, 0x017da67d, 0xd1cf3ed6, 0x7c7d2d28, 0x1f9f25cf, 0xadf2b89b, 0x5ad6b472, 0x5a88f54c,
   0xe029ac71, 0xe019a5e6, 0x47b0acfd, 0xed93fa9b, 0xe8d3c48d, 0x283b57cc, 0xf8d56629, 0x79132e28,
   0x785f0191, 0xed756055, 0xf7960e44, 0xe3d35e8c, 0x15056dd4, 0x88f46dba, 0x03a16125, 0x0564f0bd,
   0xc3eb9e15, 0x3c9057a2, 0x97271aec, 0xa93a072a, 0x1b3f6d9b, 0x1e6321f5, 0xf59c66fb, 0x26dcf319,
   0x7533d928, 0xb155fdf5, 0x03563482, 0x8aba3cbb, 0x28517711, 0xc20ad9f8, 0xabcc5167, 0xccad925f,
   0x4de81751, 0x3830dc8e, 0x379d5862, 0x9320f991, 0xea7a90c2, 0xfb3e7bce, 0x5121ce64, 0x774fbe32,
   0xa8b6e37e, 0xc3293d46, 0x48de5369, 0x6413e680, 0xa2ae0810, 0xdd6db224, 0x69852dfd, 0x09072166,
   0xb39a460a, 0x6445c0dd, 0x586cdecf, 0x1c20c8ae, 0x5bbef7dd, 0x1b588d40, 0xccd2017f, 0x6bb4e3bb,
   0xdda26a7e, 0x3a59ff45, 0x3e350a44, 0xbcb4cdd5, 0x72eacea8, 0xfa6484bb, 0x8d6612ae, 0xbf3c6f47,
   0xd29be463, 0x542f5d9e, 0xaec2771b, 0xf64e6370, 0x740e0d8d, 0xe75b1357, 0xf8721671, 0xaf537d5d,
   0x4040cb08, 0x4eb4e2cc, 0x34d2466a, 0x0115af84, 0xe1b00428, 0x95983a1d, 0x06b89fb4, 0xce6ea048,
   0x6f3f3b82, 0x3520ab82, 0x011a1d4b, 0x277227f8, 0x611560b1, 0xe7933fdc, 0xbb3a792b, 0x344525bd,
   0xa08839e1, 0x51ce794b, 0x2f32c9b7, 0xa01fbac9, 0xe01cc87e, 0xbcc7d1f6, 0xcf0111c3, 0xa1e8aac7,
   0x1a908749, 0xd44fbd9a, 0xd0dadecb, 0xd50ada38, 0x0339c32a, 0xc6913667, 0x8df9317c, 0xe0b12b4f,
   0xf79e59b7, 0x43f5bb3a, 0xf2d519ff, 0x27d9459c, 0xbf97222c, 0x15e6fc2a, 0x0f91fc71, 0x9b941525,
   0xfae59361, 0xceb69ceb, 0xc2a86459, 0x12baa8d1, 0xb6c1075e, 0xe3056a0c, 0x10d25065, 0xcb03a442,
   0xe0ec6e0e, 0x1698db3b, 0x4c98a0be, 0x3278e964, 0x9f1f9532, 0xe0d392df, 0xd3a0342b, 0x8971f21e,
   0x1b0a7441, 0x4ba3348c, 0xc5be7120, 0xc37632d8, 0xdf359f8d, 0x9b992f2e, 0xe60b6f47, 0x0fe3f11d,
   0xe54cda54, 0x1edad891, 0xce6279cf, 0xcd3e7e6f, 0x1618b166, 0xfd2c1d05, 0x848fd2c5, 0xf6fb2299,
   0xf523f357, 0xa6327623, 0x93a83531, 0x56cccd02, 0xacf08162, 0x5a75ebb5, 0x6e163697, 0x88d273cc,
   0xde966292, 0x81b949d0, 0x4c50901b, 0x71c65614, 0xe6c6c7bd, 0x327a140a, 0x45e1d006, 0xc3f27b9a,
   0xc9aa53fd, 0x62a80f00, 0xbb25bfe2, 0x35bdd2f6, 0x71126905, 0xb2040222, 0xb6cbcf7c, 0xcd769c2b,
   0x53113ec0, 0x1640e3d3, 0x38abbd60, 0x2547adf0, 0xba38209c, 0xf746ce76, 0x77afa1c5, 0x20756060,
   0x85cbfe4e, 0x8ae88dd8, 0x7aaaf9b0, 0x4cf9aa7e, 0x1948c25c, 0x02fb8a8c, 0x01c36ae4, 0xd6ebe1f9,
   0x90d4f869, 0xa65cdea0, 0x3f09252d, 0xc208e69f, 0xb74e6132, 0xce77e25b, 0x578fdfe3, 0x3ac372e6]

/-- The cipher state (`blowfish.Cipher`): eighteen subkeys and four boxes of 256 words of
32 bits. -/
structure Cipher where
  p : Array Nat
  s0 : Array Nat
  s1 : Array Nat
  s2 : Array Nat
  s3 : Array Nat

/-- Function `blowfish.initCipher`: the state made of the digits of pi. -/
def initCipher : Cipher :=
  ⟨blowfishP.toArray, blowfishS0.toArray, blowfishS1.toArray, blowfishS2.toArray,
    blowfishS3.toArray⟩

/-- The mixing of one round of `encryptBlock`:
`((s0[byte(x>>24)] + s1[byte(x>>16)]) ^ s2[byte(x>>8)]) + s3[byte(x)]` on 32 bits. -/
def Cipher.f (c : Cipher) (x : Nat) : Nat :=
  ((((c.s0.getD (x / 16777216 % 256) 0 + c.s1.getD (x / 65536 % 256) 0) % 4294967296) ^^^
      c.s2.getD (x / 256 % 256) 0) + c.s3.getD (x % 256) 0) % 4294967296

/-- Function `blowfish.encryptBlock`: sixteen rounds, each changing the older half by the
mixing of the newer half and by the next subkey, then the last subkey and the swap. -/
def encryptBlock (l r : Nat) (c : Cipher) : Nat × Nat :=
  let st := (List.range 16).foldl
    (fun (s : Nat × Nat) i => (s.2 ^^^ (c.f s.1 ^^^ c.p.getD (i + 1) 0), s.1))
    (l ^^^ c.p.getD 0 0, r)
  (st.2 ^^^ c.p.getD 17 0, st.1)

/-- Method `Cipher.Encrypt` on a block of eight bytes. -/
def Cipher.Encrypt (c : Cipher) (src : List Nat) : List Nat :=
  let lr := encryptBlock (beWord (src.take 4)) (beWord ((src.drop 4).take 4)) c
  beBytes 4 lr.1 ++ beBytes 4 lr.2

/-- Function `blowfish.getNextWord`: the big-endian word of the four bytes of `b` from
position `pos` on, where the position after the last byte is the first one again. -/
def getNextWord (b : List Nat) (pos : Nat) : Nat :=
  beWord ((List.range 4).map (fun i => b.getD ((pos + i) % b.length) 0))

/-- The eighteen words that the first loop of `ExpandKey` and of `expandKeyWithSalt`
reads from the key, each call of `getNextWord` starting where the last one ended. -/
def keyWords (key : List Nat) : List Nat :=
  (List.range 18).map (fun i => getNextWord key (4 * i))

/-- The first loop of `ExpandKey`: `c.p[i] ^= d` for the eighteen words read from the
key. -/
def Cipher.xorKey (c : Cipher) (words : List Nat) : Cipher :=
  { c with p := ((List.range 18).map (fun i => c.p.getD i 0 ^^^ words.getD i 0)).toArray }

/-- The assignment `c.p[i], c.p[i+1] = l, r` or `c.sN[i], c.sN[i+1] = l, r` of step `k`
of the filling loops, which run over the subkeys and then over the four boxes. -/
def Cipher.setPair (c : Cipher) (k l r : Nat) : Cipher :=
  if k < 9 then { c with p := (c.p.setD (2 * k) l).setD (2 * k + 1) r }
  else if k < 137 then { c with s0 := (c.s0.setD (2 * (k - 9)) l).setD (2 * (k - 9) + 1) r }
  else if k < 265 then { c with s1 := (c.s1.setD (2 * (k - 137)) l).setD (2 * (k - 137) + 1) r }
  else if k < 393 then { c with s2 := (c.s2.setD (2 * (k - 265)) l).setD (2 * (k - 265) + 1) r }
  else { c with s3 := (c.s3.setD (2 * (k - 393)) l).setD (2 * (k - 393) + 1) r }

/-- The filling loops of `ExpandKey` and of `expandKeyWithSalt`: 521 encryptions of the
running pair `(l, r)`, each with the state as the earlier ones left it, each stored in the
next two entries; `saltWord n` is what the loop mixes into the pair before the
encryption, as the word of its call `n` of `getNextWord` on the salt. -/
def Cipher.fill (c : Cipher) (saltWord : Nat → Nat) : Cipher :=
  ((List.range 521).foldl
    (fun (st : Cipher × Nat × Nat) k =>
      let lr := encryptBlock (st.2.1 ^^^ saltWord (2 * k)) (st.2.2 ^^^ saltWord (2 * k + 1)) st.1
      (st.1.setPair k lr.1 lr.2, lr.1, lr.2))
    (c, 0, 0)).1

/-- Function `blowfish.ExpandKey`, which mixes no salt into the pair. -/
def ExpandKey (key : List Nat) (c : Cipher) : Cipher :=
  (c.xorKey (keyWords key)).fill (fun _ => 0)

/-- Function `blowfish.expandKeyWithSalt`. -/
def expandKeyWithSalt (key salt : List Nat) (c : Cipher) : Cipher :=
  (c.xorKey (keyWords key)).fill (fun n => getNextWord salt (4 * n))

/-- Function `blowfish.NewCipher`. -/
def NewCipher (key : List Nat) : Except Error Cipher :=
  if key.length < 1 ∨ key.length > 56 then
    .error (.new ("crypto/blowfish: invalid key size " ++ toString key.length))
  else .ok (ExpandKey key initCipher)

/-- Function `blowfish.NewSaltedCipher`. -/
def NewSaltedCipher (key salt : List Nat) : Except Error Cipher :=
  if salt.length = 0 then NewCipher key
  else if key.length < 1 then
    .error (.new ("crypto/blowfish: invalid key size " ++ toString key.length))
  else .ok (expandKeyWithSalt key salt initCipher)

/-! ## bcrypt (`golang.org/x/crypto/bcrypt`)

The errors of parsing a digest carry a short text here; the library adds the offending
input to it. The callers in this program look only at whether there is an error. -/

/-- Constant `bcrypt.DefaultCost`. -/
def DefaultCost : Nat := 10

/-- Constant `bcrypt.MinCost`. -/
def MinCost : Nat := 4

/-- Constant `bcrypt.MaxCost`. -/
def MaxCost : Nat := 31

/-- Byte of the bcrypt alphabet `./A-Za-z0-9` for a 6-bit value. -/
def bcByte (v : Nat) : Nat :=
  if v = 0 then 46
  else if v = 1 then 47
  else if v < 28 then 65 + (v - 2)
  else if v < 54 then 97 + (v - 28)
  else 48 + (v - 54)

/-- The 6-bit value of a byte of the bcrypt alphabet. -/
def bcVal (b : Nat) : Option Nat :=
  if b = 46 then some 0
  else if b = 47 then some 1
  else if 65 ≤ b ∧ b ≤ 90 then some (b - 65 + 2)
  else if 97 ≤ b ∧ b ≤ 122 then some (b - 97 + 28)
  else if 48 ≤ b ∧ b ≤ 57 then some (b - 48 + 54)
  else none

/-- The 6-bit values of a byte sequence of the bcrypt alphabet, or none when a byte is
outside of it. -/
def bcVals : List Nat → Option (List Nat)
  | [] => some []
  | b :: rest =>
    match bcVal b, bcVals rest with
    | some v, some vs => some (v :: vs)
    | _, _ => none

/-- Function `bcrypt.base64Encode`: the standard packing with the bcrypt alphabet, the
padding taken off. -/
def base64Encode (src : List Nat) : List Nat := (b64Sextets src).map bcByte

/-- Function `bcrypt.base64Decode` on a source whose length is two more than a multiple of
four, as the 22 bytes of an encoded salt are: two `=` are put behind it and the padded
decoder runs, which skips carriage returns and line feeds, rejects every other byte
outside the alphabet and every `=` before the added ones, and wants two characters in the
last group. -/
def base64Decode (src : List Nat) : Option (List Nat) :=
  let cs := src.filter (fun b => b != 13 && b != 10)
  match bcVals cs with
  | none => none
  | some vs => if vs.length % 4 = 2 then b64Bytes vs else none

/-- Function `bcrypt.expensiveBlowfishSetup`: the key is the password and a zero byte. -/
def expensiveBlowfishSetup (key : List Nat) (cost : Nat) (salt : List Nat) :
    Except Error Cipher :=
  match base64Decode salt with
  | none => .error (.new "illegal base64 data")
  | some csalt =>
    match NewSaltedCipher (key ++ [0]) csalt with
    | .error e => .error e
    | .ok c => .ok (Nat.iterate (fun c => ExpandKey csalt (ExpandKey (key ++ [0]) c)) (2 ^ cost) c)

/-- Constant `bcrypt.magicCipherData`. -/
def magicCipherData : List Nat := utf8 "OrpheanBeholderScryDoubt"

/-- Function `bcrypt.bcrypt`: the three blocks of the magic text, each encrypted 64 times,
of which 23 bytes are encoded. -/
def bcrypt (password : List Nat) (cost : Nat) (salt : List Nat) : Except Error (List Nat) :=
  match expensiveBlowfishSetup password cost salt with
  | .error e => .error e
  | .ok c =>
    .ok (base64Encode
      ((Nat.iterate c.Encrypt 64 (magicCipherData.take 8) ++
        Nat.iterate c.Encrypt 64 ((magicCipherData.drop 8).take 8) ++
        Nat.iterate c.Encrypt 64 ((magicCipherData.drop 16).take 8)).take 23))

/-- The parts of a digest (`bcrypt.hashed`). -/
structure hashed where
  hash : List Nat
  salt : List Nat
  cost : Nat
  major : Nat
  minor : Nat
  deriving DecidableEq, Repr

/-- Method `hashed.Hash`: the parts written into 60 bytes, the minor version left out
when it is zero; what does not fit is dropped and what is not written is zero. The salt
has 22 bytes wherever the library builds a `hashed`. -/
def hashed.Hash (p : hashed) : List Nat :=
  let head := [36, p.major] ++ (if p.minor ≠ 0 then [p.minor] else []) ++ [36] ++
    [48 + p.cost / 10 % 10, 48 + p.cost % 10] ++ [36]
  ((head ++ p.salt ++ p.hash).take 60 ++ List.replicate 60 0).take (head.length + 22 + 31)

/-- Function `bcrypt.checkCost`. -/
def checkCost (cost : Int) : Option Error :=
  if cost < 4 ∨ cost > 31 then
    some (.new ("crypto/bcrypt: cost " ++ toString cost ++ " is outside allowed range (4,31)"))
  else none

/-- Function `bcrypt.newFromPassword`; `unencodedSalt` is what `io.ReadFull(rand.Reader, ...)`
has put into the 16 bytes of the salt. -/
def newFromPassword (password : List Nat) (cost : Nat) (unencodedSalt : List Nat) :
    Except Error hashed :=
  let cost := if cost < MinCost then DefaultCost else cost
  match checkCost cost with
  | some e => .error e
  | none =>
    let salt := base64Encode unencodedSalt
    match bcrypt password cost salt with
    | .error e => .error e
    | .ok hash => .ok ⟨hash, salt, cost, 50, 97⟩

/-- Function `bcrypt.GenerateFromPassword`. -/
def GenerateFromPassword (password : List Nat) (cost : Nat) (unencodedSalt : List Nat) :
    Except Error (List Nat) :=
  if password.length > 72 then .error (.new "bcrypt: password length exceeds 72 bytes")
  else
    match newFromPassword password cost unencodedSalt with
    | .error e => .error e
    | .ok p => .ok p.Hash

/-- Function `strconv.Atoi` on the two bytes of the cost: two digits, or a sign and a
digit. -/
def atoi2 (a b : Nat) : Option Int :=
  if 48 ≤ b ∧ b ≤ 57 then
    if 48 ≤ a ∧ a ≤ 57 then some (((a - 48) * 10 + (b - 48) : Nat) : Int)
    else if a = 43 then some ((b - 48 : Nat) : Int)
    else if a = 45 then some (-((b - 48 : Nat) : Int))
    else none
  else none

/-- Function `bcrypt.newFromHash` with `decodeVersion` and `decodeCost`: the version after
the first `$`, a minor version unless a `$` stands in its place, one byte that is not
looked at, the cost, one more such byte, 22 bytes of salt, and the rest. -/
def newFromHash (hashedSecret : List Nat) : Except Error hashed :=
  if hashedSecret.length < 59 then
    .error (.new "crypto/bcrypt: hashedSecret too short to be a bcrypted password")
  else if hashedSecret.getD 0 0 ≠ 36 then
    .error (.new "crypto/bcrypt: bcrypt hashes must start with '$'")
  else if hashedSecret.getD 1 0 > 50 then
    .error (.new "crypto/bcrypt: bcrypt algorithm version too new")
  else
    let major := hashedSecret.getD 1 0
    let minor := if hashedSecret.getD 2 0 ≠ 36 then hashedSecret.getD 2 0 else 0
    let n := if hashedSecret.getD 2 0 ≠ 36 then 4 else 3
    let rest := hashedSecret.drop n
    match atoi2 (rest.getD 0 0) (rest.getD 1 0) with
    | none => .error (.new "strconv.Atoi: invalid syntax")
    | some cost =>
      match checkCost cost with
      | some e => .error e
      | none => .ok ⟨rest.drop (3 + 22), (rest.drop 3).take 22, cost.toNat, major, minor⟩

/-- Function `bcrypt.CompareHashAndPassword`: nil (here `none`) when the digest of the
password under the salt and the cost of `hashedPassword` is the one in `hashedPassword`. -/
def CompareHashAndPassword (hashedPassword password : List Nat) : Option Error :=
  match newFromHash hashedPassword with
  | .error e => some e
  | .ok p =>
    match bcrypt password p.cost p.salt with
    | .error e => some e
    | .ok otherHash =>
      if p.Hash = (⟨otherHash, p.salt, p.cost, p.major, p.minor⟩ : hashed).Hash then none
      else some (.new "crypto/bcrypt: hashedPassword is not the hash of the given password")

/-- Conversion `string(b)` of bytes that are all ASCII, as those of a digest are. -/
def asciiString (b : List Nat) : String := String.mk (b.map Char.ofNat)

/-- The bcrypt of the Go library as the password hasher. -/
def goBcrypt : Bcrypt :=
  ⟨fun password cost salt =>
      match GenerateFromPassword (utf8 password) cost salt with
      | .error e => .error e
      | .ok digest => .ok (asciiString digest),
   fun digest password => (CompareHashAndPassword (utf8 digest) (utf8 password)).isNone⟩

/-- Method `User.SetPassword`; `salt` is what the entropy source gives to the hasher. The
result is the user afterwards and the returned error. -/
def User.SetPassword (bc : Bcrypt) (u : User) (password : String) (salt : List Nat) :
    User × Option Error :=
  match bc.GenerateFromPassword password DefaultCost salt with
  | .error e => (u, some e)
  | .ok hashedPassword => ({ u with Password := hashedPassword }, none)

/-- Method `User.BeforeCreate` (the hook that runs before a user is stored); `len` of a
Go string counts its bytes. -/
def User.BeforeCreate (bc : Bcrypt) (u : User) (salt : List Nat) : User × Option Error :=
  if u.Password ≠ "" ∧ (utf8 u.Password).length < 60 then
    match bc.GenerateFromPassword u.Password DefaultCost salt with
    | .error e => (u, some e)
    | .ok hashedPassword => ({ u with Password := hashedPassword }, none)
  else (u, none)

/-! ## Request gates (`internal/api/middlewares`) and the login handler -/

/-- Outcome of `AuthMiddleware`: what it does with the request, the values it stores in
the context under `"user"` and `"userID"` (`c.Set`), and the identifiers with which it
called `GetUserByID`, in order. -/
structure AuthOutcome where
  gate : Gate
  user : Option User
  userID : Option Nat
  lookups : List Nat
  deriving DecidableEq, Repr

/-- Middleware `AuthMiddleware(jwtService, authService)` at the clock reading `now`;
`getUserByID` is the method of the service interface, `authHeader` what
`c.GetHeader("Authorization")` returns (the empty string for a missing header). -/
def AuthMiddleware (L : JSONCodec) (j : JWTService) (getUserByID : Nat → Except Error User)
    (now : Int) (authHeader : String) : AuthOutcome :=
  if authHeader = "" then
    ⟨.abort ⟨401, "Authorization header is required"⟩, none, none, []⟩
  else
    match (splitOn ' ' authHeader.data).map String.mk with
    | [p0, p1] =>
      if p0 ≠ "Bearer" then
        ⟨.abort ⟨401, "Authorization header format must be Bearer <token>"⟩, none, none, []⟩
      else
        match ValidateToken L j now p1 with
        | .error _ => ⟨.abort ⟨401, "Invalid or expired token"⟩, none, none, []⟩
        | .ok claims =>
          match getUserByID claims.UserID with
          | .error _ => ⟨.abort ⟨401, "User not found"⟩, none, none, [claims.UserID]⟩
          | .ok user => ⟨.next, some user, some claims.UserID, [claims.UserID]⟩
    | _ => ⟨.abort ⟨401, "Authorization header format must be Bearer <token>"⟩, none, none, []⟩

/-- Middleware `RequirePermission(authService, resource, action)`; `hasPermission` is the
method of the service, `ctxUserID` what `c.Get("userID")` finds. -/
def RequirePermission (hasPermission : Nat → String → String → Bool × Option Error)
    (resource action : String) (ctxUserID : Option Nat) : Gate :=
  match ctxUserID with
  | none => .abort ⟨401, "Unauthorized"⟩
  | some userID =>
    match hasPermission userID resource action with
    | (_, some _) => .abort ⟨500, "Failed to check permissions"⟩
    | (has, none) =>
      if !has then .abort ⟨403, "Permission denied"⟩
      else .next

/-- Answer of the login handler: an error answer, or a status with the login result as
its body. -/
inductive LoginReply where
  | failure (r : Response)
  | success (status : Nat) (body : LoginResponse)
  deriving DecidableEq, Repr

/-- Handler `AuthHandler.Login`; `bind` is what `c.ShouldBindJSON(&loginReq)` gives: the
request read from the body, or the binding error. -/
def AuthHandler.Login (L : JSONCodec) (bc : Bcrypt) (db : DB) (j : JWTService)
    (now1 now2 : Int) (bind : Except Error LoginRequest) : LoginReply :=
  match bind with
  | .error e => .failure ⟨400, e.message⟩
  | .ok loginReq =>
    match AuthApi.Login L bc db j now1 now2 loginReq with
    | .error e => .failure ⟨401, e.message⟩
    | .ok resp => .success 200 resp

/-! ## Reference JSON codec

The text that `json.Marshal` writes for a token header and for a claim set of the
service, and a reader for JSON objects of that shape: members whose values are
strings, integers or arrays of strings. The general statements below hold for every
codec; this one serves to evaluate them on concrete tokens. -/

/-- Lower-case hexadecimal digit. -/
def hexDigit (n : Nat) : Char :=
  if n < 10 then Char.ofNat (48 + n) else Char.ofNat (87 + n)

/-- Escape of one character inside a JSON string, as `json.Marshal` writes it (with
HTML escaping, its default). -/
def jsonEscapeChar (c : Char) : List Char :=
  if c = '"' then ['\\', '"']
  else if c = '\\' then ['\\', '\\']
  else if c = '\n' then ['\\', 'n']
  else if c = '\r' then ['\\', 'r']
  else if c = '\t' then ['\\', 't']
  else if c.toNat < 0x20 ∨ c = '<' ∨ c = '>' ∨ c = '&' ∨ c.toNat = 0x2028 ∨ c.toNat = 0x2029 then
    ['\\', 'u', hexDigit (c.toNat / 4096), hexDigit (c.toNat / 256 % 16),
      hexDigit (c.toNat / 16 % 16), hexDigit (c.toNat % 16)]
  else [c]

/-- JSON string literal for a text. -/
def jsonString (s : String) : String :=
  "\"" ++ String.mk (s.data.flatMap jsonEscapeChar) ++ "\""

/-- JSON number of a date: its Unix time in seconds (`NumericDate.MarshalJSON`). -/
def jsonDate (t : Int) : String := toString (t / 1000000000)

/-- Member `,"name":value` of a JSON object. -/
def jsonMember (name value : String) : String := ",\"" ++ name ++ "\":" ++ value

/-- Text of `json.Marshal` for a claim set: the fields in declaration order, the
registered claims left out when empty (`omitempty`). -/
def marshalClaims (c : Claims) : String :=
  "\x7b\"user_id\":" ++ toString c.UserID ++ jsonMember "email" (jsonString c.Email) ++
  (if c.Issuer = "" then "" else jsonMember "iss" (jsonString c.Issuer)) ++
  (if c.Subject = "" then "" else jsonMember "sub" (jsonString c.Subject)) ++
  (if c.Audience = [] then ""
    else jsonMember "aud" ("[" ++ ",".intercalate (c.Audience.map jsonString) ++ "]")) ++
  (match c.ExpiresAt with | none => "" | some t => jsonMember "exp" (jsonDate t)) ++
  (match c.NotBefore with | none => "" | some t => jsonMember "nbf" (jsonDate t)) ++
  (match c.IssuedAt with | none => "" | some t => jsonMember "iat" (jsonDate t)) ++
  (if c.ID = "" then "" else jsonMember "jti" (jsonString c.ID)) ++ "\x7d"

/-- Text of `json.Marshal` for a header map: its keys in sorted order. -/
def marshalHeader (h : Header) : String :=
  match h.alg, h.typ with
  | some a, some t => "\x7b\"alg\":" ++ jsonString a ++ jsonMember "typ" (jsonString t) ++ "\x7d"
  | some a, none => "\x7b\"alg\":" ++ jsonString a ++ "\x7d"
  | none, some t => "\x7b\"typ\":" ++ jsonString t ++ "\x7d"
  | none, none => "\x7b\x7d"

/-- Characters of a UTF-8 byte sequence, or none when it is not well formed. -/
def utf8Decode : Nat → List Nat → Option (List Char)
  | 0, _ => none
  | _ + 1, [] => some []
  | fuel + 1, b0 :: rest =>
    if b0 < 0x80 then (utf8Decode fuel rest).map (fun cs => Char.ofNat b0 :: cs)
    else if 0xC2 ≤ b0 ∧ b0 < 0xE0 then
      match rest with
      | b1 :: rest1 =>
        if 0x80 ≤ b1 ∧ b1 < 0xC0 then
          (utf8Decode fuel rest1).map (fun cs => Char.ofNat ((b0 - 0xC0) * 64 + (b1 - 0x80)) :: cs)
        else none
      | _ => none
    else if 0xE0 ≤ b0 ∧ b0 < 0xF0 then
      match rest with
      | b1 :: b2 :: rest2 =>
        let n := (b0 - 0xE0) * 4096 + (b1 - 0x80) * 64 + (b2 - 0x80)
        if 0x80 ≤ b1 ∧ b1 < 0xC0 ∧ 0x80 ≤ b2 ∧ b2 < 0xC0 ∧ 0x800 ≤ n ∧ ¬ (0xD800 ≤ n ∧ n < 0xE000) then
          (utf8Decode fuel rest2).map (fun cs => Char.ofNat n :: cs)
        else none
      | _ => none
    else if 0xF0 ≤ b0 ∧ b0 < 0xF5 then
      match rest with
      | b1 :: b2 :: b3 :: rest3 =>
        let n := (b0 - 0xF0) * 262144 + (b1 - 0x80) * 4096 + (b2 - 0x80) * 64 + (b3 - 0x80)
        if 0x80 ≤ b1 ∧ b1 < 0xC0 ∧ 0x80 ≤ b2 ∧ b2 < 0xC0 ∧ 0x80 ≤ b3 ∧ b3 < 0xC0 ∧
            0x10000 ≤ n ∧ n < 0x110000 then
          (utf8Decode fuel rest3).map (fun cs => Char.ofNat n :: cs)
        else none
      | _ => none
    else none

/-- Values that the reference reader accepts in an object. -/
inductive JValue where
  | str (s : String)
  | num (n : Int)
  | strs (xs : List String)
  deriving DecidableEq, Repr

/-- The input after its leading JSON white space. -/
def skipWs : List Char → List Char
  | [] => []
  | c :: rest =>
    if c = ' ' ∨ c = '\n' ∨ c = '\r' ∨ c = '\t' then skipWs rest else c :: rest

/-- Value of a hexadecimal digit. -/
def hexVal (c : Char) : Option Nat :=
  let n := c.toNat
  if 48 ≤ n ∧ n ≤ 57 then some (n - 48)
  else if 97 ≤ n ∧ n ≤ 102 then some (n - 87)
  else if 65 ≤ n ∧ n ≤ 70 then some (n - 55)
  else none

/-- Character named by a one-letter escape. -/
def unescape (c : Char) : Option Char :=
  if c = '"' then some '"'
  else if c = '\\' then some '\\'
  else if c = '/' then some '/'
  else if c = 'n' then some '\n'
  else if c = 'r' then some '\r'
  else if c = 't' then some '\t'
  else if c = 'b' then some (Char.ofNat 8)
  else if c = 'f' then some (Char.ofNat 12)
  else none

/-- Reads a string literal after its opening quote: its characters and the input
after its closing quote. -/
def readString : Nat → List Char → Option (List Char × List Char)
  | 0, _ => none
  | _ + 1, [] => none
  | fuel + 1, c :: rest =>
    if c = '"' then some ([], rest)
    else if c = '\\' then
      match rest with
      | 'u' :: h3 :: h2 :: h1 :: h0 :: rest1 =>
        match hexVal h3, hexVal h2, hexVal h1, hexVal h0, readString fuel rest1 with
        | some a, some b, some c1, some d, some (cs, out) =>
          some (Char.ofNat (a * 4096 + b * 256 + c1 * 16 + d) :: cs, out)
        | _, _, _, _, _ => none
      | e :: rest1 =>
        match unescape e, readString fuel rest1 with
        | some x, some (cs, out) => some (x :: cs, out)
        | _, _ => none
      | [] => none
    else if c.toNat < 0x20 then none
    else
      match readString fuel rest with
      | some (cs, out) => some (c :: cs, out)
      | none => none

/-- Reads decimal digits onto the number `acc`: the number, how many digits were read,
and the rest of the input. -/
def readDigits (acc count : Nat) : List Char → Nat × Nat × List Char
  | [] => (acc, count, [])
  | c :: rest =>
    if 48 ≤ c.toNat ∧ c.toNat ≤ 57 then readDigits (acc * 10 + (c.toNat - 48)) (count + 1) rest
    else (acc, count, c :: rest)

/-- Reads the strings of an array after its opening bracket. -/
def readStrings : Nat → List Char → Option (List String × List Char)
  | 0, _ => none
  | fuel + 1, input =>
    match skipWs input with
    | ']' :: rest => some ([], rest)
    | '"' :: rest =>
      match readString (rest.length + 1) rest with
      | none => none
      | some (cs, out) =>
        match skipWs out with
        | ',' :: out1 =>
          match readStrings fuel out1 with
          | some (xs, out2) => some (String.mk cs :: xs, out2)
          | none => none
        | ']' :: out1 => some ([String.mk cs], out1)
        | _ => none
    | _ => none

/-- Reads a value: a string, an integer, or an array of strings. -/
def readValue (input : List Char) : Option (JValue × List Char) :=
  match skipWs input with
  | '"' :: rest =>
    match readString (rest.length + 1) rest with
    | some (cs, out) => some (.str (String.mk cs), out)
    | none => none
  | '[' :: rest =>
    match readStrings (rest.length + 1) rest with
    | some (xs, out) => some (.strs xs, out)
    | none => none
  | '-' :: rest =>
    match readDigits 0 0 rest with
    | (_, 0, _) => none
    | (n, _, out) => some (.num (-(n : Int)), out)
  | c :: rest =>
    match readDigits 0 0 (c :: rest) with
    | (_, 0, _) => none
    | (n, _, out) => some (.num (n : Int), out)
  | [] => none

/-- Reads the members of an object after its opening brace. -/
def readMembers : Nat → List Char → Option (List (String × JValue))
  | 0, _ => none
  | fuel + 1, input =>
    match skipWs input with
    | '"' :: rest =>
      match readString (rest.length + 1) rest with
      | none => none
      | some (key, out) =>
        match skipWs out with
        | ':' :: out1 =>
          match readValue out1 with
          | none => none
          | some (v, out2) =>
            match skipWs out2 with
            | ',' :: out3 =>
              match readMembers fuel out3 with
              | some ms => some ((String.mk key, v) :: ms)
              | none => none
            | '\x7d' :: out3 => if skipWs out3 = [] then some [(String.mk key, v)] else none
            | _ => none
        | _ => none
    | _ => none

/-- Reads a JSON object from the bytes of a segment. -/
def readObject (bytes : List Nat) : Option (List (String × JValue)) :=
  match utf8Decode (bytes.length + 1) bytes with
  | none => none
  | some cs =>
    match skipWs cs with
    | '\x7b' :: rest =>
      match skipWs rest with
      | '\x7d' :: out => if skipWs out = [] then some [] else none
      | _ => readMembers (rest.length + 1) rest
    | _ => none

/-- Member of an object that must be a string when present. -/
def memberString (ms : List (String × JValue)) (name : String) : Option (Option String) :=
  match ms.lookup name with
  | none => some none
  | some (.str s) => some (some s)
  | some _ => none

/-- Member of an object that must be an integer when present. -/
def memberInt (ms : List (String × JValue)) (name : String) : Option (Option Int) :=
  match ms.lookup name with
  | none => some none
  | some (.num n) => some (some n)
  | some _ => none

/-- Member of an object that must be a date in seconds when present. -/
def memberDate (ms : List (String × JValue)) (name : String) : Option (Option Int) :=
  (memberInt ms name).map (fun o => o.map (fun n => n * 1000000000))

/-- Reads a token header. -/
def unmarshalHeader (bytes : List Nat) : Option Header :=
  match readObject bytes with
  | none => none
  | some ms =>
    some ⟨(match ms.lookup "alg" with | some (.str s) => some s | _ => none),
      (match ms.lookup "typ" with | some (.str s) => some s | _ => none)⟩

/-- Reads a claim set of the service. -/
def unmarshalClaims (bytes : List Nat) : Option Claims :=
  match readObject bytes with
  | none => none
  | some ms =>
    match memberInt ms "user_id", memberString ms "email", memberString ms "iss",
      memberString ms "sub", memberDate ms "exp", memberDate ms "nbf",
      memberDate ms "iat", memberString ms "jti" with
    | some uid, some email, some iss, some sub, some exp, some nbf, some iat, some jti =>
      let aud : Option (List String) :=
        match ms.lookup "aud" with
        | none => some []
        | some (.str s) => some [s]
        | some (.strs xs) => some xs
        | some _ => none
      match aud, uid.getD 0 with
      | some audience, .ofNat n =>
        some { UserID := n, Email := email.getD "", Issuer := iss.getD "",
               Subject := sub.getD "", Audience := audience, ExpiresAt := exp,
               NotBefore := nbf, IssuedAt := iat, ID := jti.getD "" }
      | _, _ => none
    | _, _, _, _, _, _, _, _ => none

/-- The reference codec. -/
def goJSON : JSONCodec := ⟨marshalHeader, unmarshalHeader, marshalClaims, unmarshalClaims⟩

/-- Stand-in for the password hasher in examples: the digest records the password after
a `$2a$` prefix with the cost, and a password matches the digest made from it. It has
the interface of bcrypt, not its strength. -/
def sampleBcrypt : Bcrypt :=
  ⟨fun password cost _ => .ok ("$2a$" ++ toString cost ++ "$" ++ password),
   fun digest password => decide (digest = "$2a$10$" ++ password)⟩

/-- Token service of the examples: one hour of validity. -/
def sampleJWT : JWTService := NewJWTService "test-secret-key" "test-issuer" 3600000000000

/-- The codec reads back what it writes for the header of an HS256 token and for the
claim set `c`. -/
def JSONCodec.RoundTrips (L : JSONCodec) (c : Claims) : Prop :=
  L.unmarshalHeader (utf8 (L.marshalHeader ⟨some "HS256", some "JWT"⟩)) =
      some ⟨some "HS256", some "JWT"⟩ ∧
    L.unmarshalClaims (utf8 (L.marshalClaims c)) = some c

instance instDecidableRoundTrips (L : JSONCodec) (c : Claims) : Decidable (L.RoundTrips c) := by
  unfold JSONCodec.RoundTrips
  infer_instance

/-! ## The tables (`gorm.DB` on PostgreSQL, as the handlers and the seeding use it)

The rows of the three tables, the two join tables, and for each table the last value
that its id sequence has handed out. A user row carries no roles and a role row no
permissions: those are in the join tables. The primary keys and the unique indexes of
the models (`users.username`, `users.email`, `roles.name`) are enforced by the writes.
The time-stamp columns are carried and not maintained. -/

/-- State of the database. -/
structure Tables where
  users : List User
  roles : List Role
  permissions : List Permission
  userRoles : List (Nat × Nat)
  rolePermissions : List (Nat × Nat)
  userSeq : Nat
  roleSeq : Nat
  permissionSeq : Nat
  fault : Option String
  deriving DecidableEq, Repr

/-- The database after the migration, before any row is written. -/
def Tables.empty : Tables := ⟨[], [], [], [], [], 0, 0, 0, none⟩

/-- Row with the smallest primary key among `rows` (`ORDER BY id LIMIT 1`). -/
def firstRow {α : Type} (key : α → Nat) : List α → Option α
  | [] => none
  | a :: rest =>
    match firstRow key rest with
    | none => some a
    | some b => if key b < key a then some b else some a

/-- Query `db.Where(cond).First(&dest)` on the rows of one table: the fault of the
store if it has one, `gorm.ErrRecordNotFound` when no row satisfies `cond`, else the
first such row in primary-key order. -/
def queryFirst {α : Type} (fault : Option String) (key : α → Nat) (rows : List α)
    (cond : α → Bool) : Except Error α :=
  match fault with
  | some msg => .error (.store msg)
  | none =>
    match firstRow key (rows.filter cond) with
    | none => .error .recordNotFound
    | some a => .ok a

/-- Field `RowsAffected` of the result of a `First` query. -/
def RowsAffected {α : Type} (result : Except Error α) : Nat :=
  match result with
  | .ok _ => 1
  | .error _ => 0

/-- A `First` query on the permissions. -/
def Tables.firstPermission (t : Tables) (cond : Permission → Bool) : Except Error Permission :=
  queryFirst t.fault Permission.ID t.permissions cond

/-- A `First` query on the roles. -/
def Tables.firstRole (t : Tables) (cond : Role → Bool) : Except Error Role :=
  queryFirst t.fault Role.ID t.roles cond

/-- A `First` query on the users, without preloading. -/
def Tables.firstUser (t : Tables) (cond : User → Bool) : Except Error User :=
  queryFirst t.fault User.ID t.users cond

/-- Error of PostgreSQL for a row that breaks a primary key or a unique index. -/
def duplicateKey : Error := .store "duplicate key value violates unique constraint"

/-- Largest value of an `id` column: the columns are of type `bigint`. -/
def maxID : Nat := 9223372036854775807

/-- Error of PostgreSQL for an `ID` that the column cannot hold. -/
def outOfRange : Error := .store "bigint out of range"

/-- Call `db.Create(&permission)`: a zero `ID` is replaced by the next value of the
sequence, which is used up even when the insert fails; the call fails when the `ID` is
more than the column can hold, and the insert fails when the `ID` is taken. -/
def Tables.createPermission (t : Tables) (p : Permission) : Tables × Except Error Permission :=
  match t.fault with
  | some msg => (t, .error (.store msg))
  | none =>
    let id := if p.ID = 0 then t.permissionSeq + 1 else p.ID
    if id > maxID then (t, .error outOfRange)
    else
      let t1 := if p.ID = 0 then { t with permissionSeq := t.permissionSeq + 1 } else t
      if t.permissions.any (fun q => q.ID == id) then (t1, .error duplicateKey)
      else ({ t1 with permissions := t.permissions ++ [{ p with ID := id }] },
        .ok { p with ID := id })

/-- Call `db.Create(&role)`: as for a permission, and the name must be new. -/
def Tables.createRole (t : Tables) (r : Role) : Tables × Except Error Role :=
  match t.fault with
  | some msg => (t, .error (.store msg))
  | none =>
    let id := if r.ID = 0 then t.roleSeq + 1 else r.ID
    if id > maxID then (t, .error outOfRange)
    else
      let t1 := if r.ID = 0 then { t with roleSeq := t.roleSeq + 1 } else t
      if t.roles.any (fun q => q.ID == id || q.Name == r.Name) then (t1, .error duplicateKey)
      else ({ t1 with roles := t.roles ++ [{ r with ID := id }] }, .ok { r with ID := id })

/-- Call `db.Create(&user)`: the hook `BeforeCreate` runs first and its error ends the
call; then as for a permission, and the user name and the e-mail address must be new. -/
def Tables.createUser (bc : Bcrypt) (salt : List Nat) (t : Tables) (u : User) :
    Tables × Except Error User :=
  match t.fault with
  | some msg => (t, .error (.store msg))
  | none =>
    match u.BeforeCreate bc salt with
    | (_, some e) => (t, .error e)
    | (u1, none) =>
      let id := if u1.ID = 0 then t.userSeq + 1 else u1.ID
      if id > maxID then (t, .error outOfRange)
      else
        let t1 := if u1.ID = 0 then { t with userSeq := t.userSeq + 1 } else t
        if t.users.any (fun v =>
            v.ID == id || v.Username == u1.Username || v.Email == u1.Email)
        then (t1, .error duplicateKey)
        else ({ t1 with users := t.users ++ [{ u1 with ID := id }] },
          .ok { u1 with ID := id })

/-- The columns of a `db.Model(&permission).Updates(updates)`, by the keys of the map. -/
structure PermissionUpdates where
  resource : Option String
  action : Option String
  description : Option String
  deriving DecidableEq, Repr

/-- The columns of a `db.Model(&user).Updates(updates)`, by the keys of the map. -/
structure UserUpdates where
  username : Option String
  email : Option String
  password : Option String
  full_name : Option String
  deriving DecidableEq, Repr

/-- The row `p` with the columns of `ups` written into it. -/
def PermissionUpdates.apply (ups : PermissionUpdates) (p : Permission) : Permission :=
  { p with
    Resource := ups.resource.getD p.Resource
    Action := ups.action.getD p.Action
    Description := ups.description.getD p.Description }

/-- The row `u` with the columns of `ups` written into it. -/
def UserUpdates.apply (ups : UserUpdates) (u : User) : User :=
  { u with
    Username := ups.username.getD u.Username
    Email := ups.email.getD u.Email
    Password := ups.password.getD u.Password
    FullName := ups.full_name.getD u.FullName }

/-- Call `db.Model(&permission).Updates(updates)` for a permission with the given `ID`:
`UPDATE permissions SET ... WHERE id = ?`. -/
def Tables.updatePermission (t : Tables) (id : Nat) (ups : PermissionUpdates) :
    Tables × Option Error :=
  match t.fault with
  | some msg => (t, some (.store msg))
  | none =>
    ({ t with permissions := t.permissions.map (fun p => if p.ID = id then ups.apply p else p) },
      none)

/-- Call `db.Model(&user).Updates(updates)` for a user with the given `ID`:
`UPDATE users SET ... WHERE id = ?`, which fails when a row to write would have the user
name or the e-mail address of another row. -/
def Tables.updateUser (t : Tables) (id : Nat) (ups : UserUpdates) : Tables × Option Error :=
  match t.fault with
  | some msg => (t, some (.store msg))
  | none =>
    if t.users.any (fun u => u.ID == id &&
        t.users.any (fun v => v.ID != id &&
          (v.Username == (ups.apply u).Username || v.Email == (ups.apply u).Email)))
    then (t, some duplicateKey)
    else ({ t with users := t.users.map (fun u => if u.ID = id then ups.apply u else u) }, none)

/-- The permissions of a role, by the join table (`Preload("Permissions")`). -/
def Tables.permissionsOf (t : Tables) (roleID : Nat) : List Permission :=
  t.permissions.filter (fun p => t.rolePermissions.any (fun rp => rp.1 == roleID && rp.2 == p.ID))

/-- The roles of a user, by the join table, each with its permissions when `deep`
(`Preload("Roles.Permissions")`) and without them otherwise (`Preload("Roles")`). -/
def Tables.rolesOf (t : Tables) (deep : Bool) (userID : Nat) : List Role :=
  (t.roles.filter (fun r => t.userRoles.any (fun ur => ur.1 == userID && ur.2 == r.ID))).map
    (fun r => { r with Permissions := if deep then t.permissionsOf r.ID else [] })

/-- The users as the authorization service loads them: each with its roles and their
permissions. -/
def Tables.toDB (t : Tables) : DB :=
  ⟨t.users.map (fun u => { u with Roles := t.rolesOf true u.ID }), t.fault⟩

/-- Call `db.Model(&role).Association("Permissions").Append(permissions)`: the pairs that
the join table does not hold yet are added to it. -/
def Tables.appendPermissions (t : Tables) (roleID : Nat) (ps : List Permission) : Tables :=
  match t.fault with
  | some _ => t
  | none =>
    { t with
      rolePermissions :=
        ps.foldl
          (fun rows p =>
            if rows.any (fun rp => rp.1 == roleID && rp.2 == p.ID) then rows
            else rows ++ [(roleID, p.ID)])
          t.rolePermissions }

/-- Call `db.Model(&user).Association("Roles").Append(&role)` for a role that was found:
the pair is added to the join table unless it is there. -/
def Tables.appendRole (t : Tables) (userID : Nat) (roleID : Nat) : Tables :=
  match t.fault with
  | some _ => t
  | none =>
    if t.userRoles.any (fun ur => ur.1 == userID && ur.2 == roleID) then t
    else { t with userRoles := t.userRoles ++ [(userID, roleID)] }

/-! ## Requests (`gin`, `encoding/json`, `strconv`) -/

/-- What a handler writes: an error answer with its status and text, or an answer with a
status and a body. -/
inductive Reply (α : Type) where
  | failure (r : Response)
  | success (status : Nat) (body : α)
  deriving DecidableEq, Repr

/-- Function `strconv.ParseUint(s, 10, 32)`: decimal digits only, at least one, and a
value below `2^32`. -/
def ParseUint32 (s : String) : Option Nat :=
  if s.data = [] then none
  else if s.data.all (fun c => 48 ≤ c.toNat ∧ c.toNat ≤ 57) then
    let n := s.data.foldl (fun acc c => acc * 10 + (c.toNat - 48)) 0
    if n < 4294967296 then some n else none
  else none

/-- Error of `c.ShouldBindJSON` for a member whose value is not of the kind of its
field; the text of the library, which names the field, is cut short. -/
def bindError : Error := .new "json: cannot unmarshal value into Go struct field"

/-- What `json.Unmarshal` puts into a string field with the key `key` from the members
of a request body: the value of the last member with that key, letters compared without
case, and the empty string when there is none. -/
def bindString (body : List (String × JValue)) (key : String) : Except Error String :=
  body.foldl
    (fun acc m =>
      match acc with
      | .error e => .error e
      | .ok cur =>
        if String.mk (m.1.data.map Char.toLower) = key then
          match m.2 with
          | .str s => .ok s
          | _ => .error bindError
        else .ok cur)
    (.ok "")

/-- What `json.Unmarshal` puts into a `uint` field with the key `key`: as for a string
field, for a number from 0 to `2^64 - 1`, and zero when there is none. -/
def bindUint (body : List (String × JValue)) (key : String) : Except Error Nat :=
  body.foldl
    (fun acc m =>
      match acc with
      | .error e => .error e
      | .ok cur =>
        if String.mk (m.1.data.map Char.toLower) = key then
          match m.2 with
          | .num n => if 0 ≤ n ∧ n < 18446744073709551616 then .ok n.toNat else .error bindError
          | _ => .error bindError
        else .ok cur)
    (.ok 0)

/-- What `json.Unmarshal` puts into a `time.Time` field with the key `key`: as for a
string field, for a string that `parseTime` reads as a time, and the zero time, written
0, when there is none. The function `parseTime` is `Time.UnmarshalJSON` of the library
on the text of the string: the time in nanoseconds, or none for a text that is not a
time. -/
def bindTime (parseTime : String → Option Int) (body : List (String × JValue))
    (key : String) : Except Error Int :=
  body.foldl
    (fun acc m =>
      match acc with
      | .error e => .error e
      | .ok cur =>
        if String.mk (m.1.data.map Char.toLower) = key then
          match m.2 with
          | .str s =>
            match parseTime s with
            | some time => .ok time
            | none => .error bindError
          | _ => .error bindError
        else .ok cur)
    (.ok 0)

/-- Binding of a request body to a `models.Permission`, by the keys `id`, `resource`,
`action`, `description`, `created_at` and `updated_at` of its fields. -/
def bindPermission (parseTime : String → Option Int) (body : List (String × JValue)) :
    Except Error Permission :=
  match bindUint body "id", bindString body "resource", bindString body "action",
    bindString body "description", bindTime parseTime body "created_at",
    bindTime parseTime body "updated_at" with
  | .ok id, .ok resource, .ok action, .ok description, .ok createdAt, .ok updatedAt =>
    .ok ⟨id, resource, action, description, createdAt, updatedAt⟩
  | .error e, _, _, _, _, _ => .error e
  | _, .error e, _, _, _, _ => .error e
  | _, _, .error e, _, _, _ => .error e
  | _, _, _, .error e, _, _ => .error e
  | _, _, _, _, .error e, _ => .error e
  | _, _, _, _, _, .error e => .error e

/-- Binding of a request body to a `models.User`, by the keys `id`, `username`, `email`
and `full_name` of its fields. The field `Password` has the key `-`, which takes it out
of the fields that a body can reach: it stays empty. The member `roles` and the time
stamps are left out. -/
def bindUser (body : List (String × JValue)) : Except Error User :=
  match bindUint body "id", bindString body "username", bindString body "email",
    bindString body "full_name" with
  | .ok id, .ok username, .ok email, .ok fullName =>
    .ok ⟨id, username, email, "", fullName, [], 0, 0⟩
  | .error e, _, _, _ => .error e
  | _, .error e, _, _ => .error e
  | _, _, .error e, _ => .error e
  | _, _, _, .error e => .error e

/-- The struct `updateData` of `UpdatePermission`. -/
structure PermissionUpdateData where
  Resource : String
  Action : String
  Description : String
  deriving DecidableEq, Repr

/-- Binding of a request body to the `updateData` of `UpdatePermission`. -/
def bindPermissionUpdate (body : List (String × JValue)) : Except Error PermissionUpdateData :=
  match bindString body "resource", bindString body "action",
    bindString body "description" with
  | .ok resource, .ok action, .ok description => .ok ⟨resource, action, description⟩
  | .error e, _, _ => .error e
  | _, .error e, _ => .error e
  | _, _, .error e => .error e

/-- The struct `updateData` of `UpdateUser`. -/
structure UserUpdateData where
  Username : String
  Email : String
  Password : String
  FullName : String
  deriving DecidableEq, Repr

/-- Binding of a request body to the `updateData` of `UpdateUser`. -/
def bindUserUpdate (body : List (String × JValue)) : Except Error UserUpdateData :=
  match bindString body "username", bindString body "email", bindString body "password",
    bindString body "full_name" with
  | .ok username, .ok email, .ok password, .ok fullName =>
    .ok ⟨username, email, password, fullName⟩
  | .error e, _, _, _ => .error e
  | _, .error e, _, _ => .error e
  | _, _, .error e, _ => .error e
  | _, _, _, .error e => .error e

/-! ## Handlers of permissions and users (`internal/api/handlers`) -/

/-- Handler `PermissionHandler.CreatePermission`; `parseTime` is the reading of a time
stamp in the body. -/
def PermissionHandler.CreatePermission (parseTime : String → Option Int) (t : Tables)
    (body : List (String × JValue)) : Tables × Reply Permission :=
  match bindPermission parseTime body with
  | .error e => (t, .failure ⟨400, e.message⟩)
  | .ok permission =>
    if RowsAffected (t.firstPermission (fun p =>
        p.Resource == permission.Resource && p.Action == permission.Action)) > 0 then
      (t, .failure ⟨400, "Permission already exists"⟩)
    else
      match t.createPermission permission with
      | (t1, .error _) => (t1, .failure ⟨500, "Failed to create permission"⟩)
      | (t1, .ok created) => (t1, .success 201 created)

/-- Handler `PermissionHandler.UpdatePermission`; `idParam` is `c.Param("id")`. -/
def PermissionHandler.UpdatePermission (t : Tables) (idParam : String)
    (body : List (String × JValue)) : Tables × Reply Permission :=
  match ParseUint32 idParam with
  | none => (t, .failure ⟨400, "Invalid permission ID"⟩)
  | some permissionID =>
    match t.firstPermission (fun p => p.ID == permissionID) with
    | .error _ => (t, .failure ⟨404, "Permission not found"⟩)
    | .ok permission =>
      match bindPermissionUpdate body with
      | .error e => (t, .failure ⟨400, e.message⟩)
      | .ok updateData =>
        let resourceToCheck :=
          if updateData.Resource ≠ "" then updateData.Resource else permission.Resource
        let actionToCheck :=
          if updateData.Action ≠ "" then updateData.Action else permission.Action
        if ((updateData.Resource ≠ "" ∧ updateData.Resource ≠ permission.Resource) ∨
            (updateData.Action ≠ "" ∧ updateData.Action ≠ permission.Action)) ∧
            RowsAffected (t.firstPermission (fun p =>
              p.Resource == resourceToCheck && p.Action == actionToCheck &&
                p.ID != permission.ID)) > 0 then
          (t, .failure ⟨400, "Permission already exists"⟩)
        else
          let updates : PermissionUpdates :=
            ⟨if updateData.Resource ≠ "" then some updateData.Resource else none,
             if updateData.Action ≠ "" then some updateData.Action else none,
             if updateData.Description ≠ "" then some updateData.Description else none⟩
          match t.updatePermission permission.ID updates with
          | (t1, some _) => (t1, .failure ⟨500, "Failed to update permission"⟩)
          | (t1, none) =>
            match t1.firstPermission (fun p => p.ID == permissionID) with
            | .error _ => (t1, .success 200 permission)
            | .ok updated => (t1, .success 200 updated)

/-- Handler `UserHandler.CreateUser`. -/
def UserHandler.CreateUser (bc : Bcrypt) (salt : List Nat) (t : Tables)
    (body : List (String × JValue)) : Tables × Reply (List (String × Value)) :=
  match bindUser body with
  | .error e => (t, .failure ⟨400, e.message⟩)
  | .ok user =>
    if RowsAffected (t.firstUser (fun u =>
        u.Username == user.Username || u.Email == user.Email)) > 0 then
      (t, .failure ⟨400, "Username or email already exists"⟩)
    else
      match t.createUser bc salt user with
      | (t1, .error _) => (t1, .failure ⟨500, "Failed to create user"⟩)
      | (t1, .ok created) => (t1, .success 201 created.ToResponse)

/-- Handler `UserHandler.UpdateUser`; `idParam` is `c.Param("id")`. -/
def UserHandler.UpdateUser (bc : Bcrypt) (salt : List Nat) (t : Tables) (idParam : String)
    (body : List (String × JValue)) : Tables × Reply (List (String × Value)) :=
  match ParseUint32 idParam with
  | none => (t, .failure ⟨400, "Invalid user ID"⟩)
  | some userID =>
    match t.firstUser (fun u => u.ID == userID) with
    | .error _ => (t, .failure ⟨404, "User not found"⟩)
    | .ok user =>
      match bindUserUpdate body with
      | .error e => (t, .failure ⟨400, e.message⟩)
      | .ok updateData =>
        if updateData.Username ≠ "" ∧ updateData.Username ≠ user.Username ∧
            RowsAffected (t.firstUser (fun u => u.Username == updateData.Username)) > 0 then
          (t, .failure ⟨400, "Username already exists"⟩)
        else if updateData.Email ≠ "" ∧ updateData.Email ≠ user.Email ∧
            RowsAffected (t.firstUser (fun u => u.Email == updateData.Email)) > 0 then
          (t, .failure ⟨400, "Email already exists"⟩)
        else
          match (if updateData.Password ≠ "" then user.SetPassword bc updateData.Password salt
              else (user, none)) with
          | (_, some _) => (t, .failure ⟨500, "Failed to update password"⟩)
          | (user1, none) =>
            let updates : UserUpdates :=
              ⟨if updateData.Username ≠ "" then some updateData.Username else none,
               if updateData.Email ≠ "" then some updateData.Email else none,
               if updateData.Password ≠ "" then some user1.Password else none,
               if updateData.FullName ≠ "" then some updateData.FullName else none⟩
            match t.updateUser user1.ID updates with
            | (t1, some _) => (t1, .failure ⟨500, "Failed to update user"⟩)
            | (t1, none) =>
              match t1.firstUser (fun u => u.ID == userID) with
              | .error _ => (t1, .success 200 user1.ToResponse)
              | .ok updated =>
                (t1, .success 200
                  (User.ToResponse { updated with Roles := t1.rolesOf false updated.ID }))

/-! ## The default data (`database.SeedDefaultData`) -/

/-- The permissions that the seeding creates, in its order. -/
def seedPermissions : List Permission :=
  [⟨0, "users", "read", "อ่านข้อมูลผู้ใช้", 0, 0⟩,
   ⟨0, "users", "write", "แก้ไขข้อมูลผู้ใช้", 0, 0⟩,
   ⟨0, "roles", "read", "อ่านข้อมูลบทบาท", 0, 0⟩,
   ⟨0, "roles", "write", "แก้ไขข้อมูลบทบาท", 0, 0⟩,
   ⟨0, "permissions", "read", "อ่านข้อมูลสิทธิ์", 0, 0⟩,
   ⟨0, "permissions", "write", "แก้ไขข้อมูลสิทธิ์", 0, 0⟩]

/-- One turn of the loop over the permissions: the permission is created unless one
with its resource and action is found. -/
def seedPermission (t : Tables) (perm : Permission) : Tables :=
  if RowsAffected (t.firstPermission (fun p =>
      p.Resource == perm.Resource && p.Action == perm.Action)) = 0 then
    (t.createPermission perm).1
  else t

/-- One of the four blocks that create a role: the role is looked up by its name into
the variable `existingRole`, which the blocks share (a query into a record that holds a
primary key asks for that key as well); when no row is found the role is created and,
when that succeeds, given the permissions that `pick` selects. The result is the tables
and the variable afterwards. -/
def seedRole (name description : String) (pick : Permission → Bool)
    (state : Tables × Role) : Tables × Role :=
  let t := state.1
  let existingRole := state.2
  match t.firstRole (fun r =>
      r.Name == name && (existingRole.ID == 0 || r.ID == existingRole.ID)) with
  | .ok found => (t, found)
  | .error _ =>
    match t.createRole ⟨0, name, description, [], 0, 0⟩ with
    | (t1, .error _) => (t1, existingRole)
    | (t1, .ok role) =>
      (t1.appendPermissions role.ID (if t1.fault.isSome then [] else t1.permissions.filter pick),
        existingRole)

/-- The last block: the user `admin` is created unless one with that user name is found
and, when the creation succeeds, given the role named `admin`. When that role is not
found the tables stay as they are. -/
def seedAdminUser (bc : Bcrypt) (salt : List Nat) (t : Tables) : Tables :=
  if RowsAffected (t.firstUser (fun u => u.Username == "admin")) = 0 then
    match t.createUser bc salt
      ⟨0, "admin", "admin@example.com", "adminpassword", "System Administrator", [], 0, 0⟩ with
    | (t1, .error _) => t1
    | (t1, .ok adminUser) =>
      match t1.firstRole (fun r => r.Name == "admin") with
      | .error _ => t1
      | .ok adminRoleModel => t1.appendRole adminUser.ID adminRoleModel.ID
  else t

/-- The part of `SeedDefaultData` before its last block: the loop over the permissions
and the four blocks that create the roles. -/
def seedRoles (t : Tables) : Tables :=
  let t1 := seedPermissions.foldl seedPermission t
  let s0 : Tables × Role := (t1, ⟨0, "", "", [], 0, 0⟩)
  let s1 := seedRole "admin" "ผู้ดูแลระบบ" (fun _ => true) s0
  let s2 := seedRole "supervisor" "ผู้ควบคุม" (fun p => p.Action == "read") s1
  let s3 := seedRole "editor" "ผู้แก้ไข"
    (fun p => (p.Resource == "users" && p.Action == "read") ||
      (p.Resource == "users" && p.Action == "write")) s2
  let s4 := seedRole "viewer" "ผู้ดู" (fun p => p.Action == "read") s3
  s4.1

/-- Function `database.SeedDefaultData`; `salt` is what the entropy source gives to the
hasher. -/
def SeedDefaultData (bc : Bcrypt) (salt : List Nat) (t : Tables) : Tables :=
  seedAdminUser bc salt (seedRoles t)

/-! ## What the tables keep -/

/-- The primary key of the permissions: no two rows have the same `ID`. -/
def Tables.permissionKeysUnique (t : Tables) : Prop :=
  t.permissions.Pairwise (fun p q => p.ID ≠ q.ID)

/-- No two permissions have the same resource and the same action. -/
def Tables.permissionPairsUnique (t : Tables) : Prop :=
  t.permissions.Pairwise (fun p q => ¬ (p.Resource = q.Resource ∧ p.Action = q.Action))

/-- The primary key of the users: no two rows have the same `ID`. -/
def Tables.userKeysUnique (t : Tables) : Prop :=
  t.users.Pairwise (fun u v => u.ID ≠ v.ID)

/-- No two users have the same user name. -/
def Tables.usernamesUnique (t : Tables) : Prop :=
  t.users.Pairwise (fun u v => u.Username ≠ v.Username)

/-- No two users have the same e-mail address. -/
def Tables.emailsUnique (t : Tables) : Prop :=
  t.users.Pairwise (fun u v => u.Email ≠ v.Email)

instance instDecidablePermissionKeysUnique (t : Tables) : Decidable t.permissionKeysUnique := by
  unfold Tables.permissionKeysUnique
  infer_instance

instance instDecidablePermissionPairsUnique (t : Tables) :
    Decidable t.permissionPairsUnique := by
  unfold Tables.permissionPairsUnique
  infer_instance

instance instDecidableUserKeysUnique (t : Tables) : Decidable t.userKeysUnique := by
  unfold Tables.userKeysUnique
  infer_instance

instance instDecidableUsernamesUnique (t : Tables) : Decidable t.usernamesUnique := by
  unfold Tables.usernamesUnique
  infer_instance

instance instDecidableEmailsUnique (t : Tables) : Decidable t.emailsUnique := by
  unfold Tables.emailsUnique
  infer_instance

/-! ## Sample data -/

/-- Permission `("users", "read")`. -/
def usersRead : Permission := ⟨1, "users", "read", "Read users", 0, 0⟩

/-- Permission `("users", "write")`. -/
def usersWrite : Permission := ⟨2, "users", "write", "Write users", 0, 0⟩

/-- Role `admin`, holding both sample permissions. -/
def adminRole : Role := ⟨1, "admin", "Administrator", [usersRead, usersWrite], 0, 0⟩

/-- Role `viewer`, holding no permission. -/
def viewerRole : Role := ⟨2, "viewer", "Viewer", [], 0, 0⟩

/-- User `admin` with the roles `viewer` and `admin`. -/
def adminUser : User :=
  ⟨1, "admin", "admin@example.com", "$2a$10$admin123", "Admin", [viewerRole, adminRole], 0, 0⟩

/-- User `guest` without roles. -/
def guestUser : User :=
  ⟨2, "guest", "guest@example.com", "$2a$10$guest123", "Guest", [], 0, 0⟩

/-- Store holding the two sample users. -/
def sampleDB : DB := ⟨[adminUser, guestUser], none⟩

/-- Clock reading of the examples: 14 November 2023, 22:13:20 UTC and a fraction. -/
def sampleNow : Int := 1700000000123456789

/-- Claim set of the sample token: user 1, issued at `sampleNow` for one hour. -/
def sampleClaims : Claims :=
  { UserID := 1
    Email := "test@example.com"
    Issuer := "test-issuer"
    Subject := ""
    Audience := []
    ExpiresAt := some 1700003600000000000
    NotBefore := none
    IssuedAt := some 1700000000000000000
    ID := "" }

/-- Signing string of the sample token: the base64url text of
`{"alg":"HS256","typ":"JWT"}`, a dot, and the base64url text of
`{"user_id":1,"email":"test@example.com","iss":"test-issuer","exp":1700003600,"iat":1700000000}`. -/
def sampleSigningString : String :=
  "eyJhbGciOiJIUzI1NiIsInR5cCI6IkpXVCJ9" ++ "." ++
  "eyJ1c2VyX2lkIjoxLCJlbWFpbCI6InRlc3RAZXhhbXBsZS5jb20iLCJpc3MiOiJ0" ++
  "ZXN0LWlzc3VlciIsImV4cCI6MTcwMDAwMzYwMCwiaWF0IjoxNzAwMDAwMDAwfQ"

/-- Claim set of the sample token with a not-before date half an hour after its issue. -/
def notYetValidClaims : Claims := { sampleClaims with NotBefore := some 1700001800000000000 }

/-- Header segment of the sample tokens: the base64url text of
`{"alg":"HS256","typ":"JWT"}`. -/
def sampleHeaderSegment : String := "eyJhbGciOiJIUzI1NiIsInR5cCI6IkpXVCJ9"

/-- Claims segment of the sample token: the base64url text of the JSON object written
for `sampleClaims`. -/
def sampleClaimsSegment : String :=
  "eyJ1c2VyX2lkIjoxLCJlbWFpbCI6InRlc3RAZXhhbXBsZS5jb20iLCJpc3MiOiJ0" ++
  "ZXN0LWlzc3VlciIsImV4cCI6MTcwMDAwMzYwMCwiaWF0IjoxNzAwMDAwMDAwfQ"

/-- Claims segment for `notYetValidClaims`: the base64url text of
`{"user_id":1,"email":"test@example.com","iss":"test-issuer","exp":1700003600,"nbf":1700001800,"iat":1700000000}`. -/
def notYetValidClaimsSegment : String :=
  "eyJ1c2VyX2lkIjoxLCJlbWFpbCI6InRlc3RAZXhhbXBsZS5jb20iLCJpc3MiOiJ0" ++
  "ZXN0LWlzc3VlciIsImV4cCI6MTcwMDAwMzYwMCwibmJmIjoxNzAwMDAxODAwLCJp" ++
  "YXQiOjE3MDAwMDAwMDB9"

/-- Salt of the examples. -/
def sampleSalt : List Nat := [1, 2, 3, 4, 5, 6, 7, 8, 9, 10, 11, 12, 13, 14, 15, 16]

/-- A password of 72 bytes. -/
def longPassword : String := String.mk (List.replicate 72 'a')

/-- A raw password of 64 bytes. -/
def longRawPassword : String :=
  "correct horse battery staple, correct horse battery staple, 2024"

/-- A user about to be created with the raw password of 64 bytes. -/
def longRawUser : User :=
  ⟨0, "carol", "carol@example.com", longRawPassword, "Carol", [], 0, 0⟩

/-- The tables after the seeding of an empty database, with the stand-in hasher. -/
def seededTables : Tables := SeedDefaultData sampleBcrypt [] Tables.empty

/-- Body of the request that creates the user of the integration test. -/
def createUserBody : List (String × JValue) :=
  [("username", .str "testuser"), ("email", .str "test@example.com"),
   ("password", .str "password123"), ("full_name", .str "Test User")]

/-- Stand-in for the reading of time stamps in examples: it knows one text. -/
def sampleParseTime (s : String) : Option Int :=
  if s = "2023-11-14T22:13:20Z" then some 1700000000000000000 else none

/-- Body of a request that creates the permission to read articles. -/
def createPermissionBody : List (String × JValue) :=
  [("resource", .str "articles"), ("action", .str "read")]

/-! ## Properties -/

/-! ### Store lookups -/

theorem firstByID_eq_none {us : List User} : firstByID us = none ↔ us = [] := by
  cases us with
  | nil => simp [firstByID]
  | cons u rest =>
    simp only [firstByID]
    cases firstByID rest with
    | none => simp
    | some v => by_cases h : v.ID < u.ID <;> simp [h]

theorem firstByID_mem {us : List User} {u : User} (h : firstByID us = some u) : u ∈ us := by
  induction us generalizing u with
  | nil => simp [firstByID] at h
  | cons w rest ih =>
    simp only [firstByID] at h
    cases hr : firstByID rest with
    | none =>
      rw [hr] at h
      simp only [Option.some.injEq] at h
      simp [h]
    | some v =>
      rw [hr] at h
      by_cases hlt : v.ID < w.ID
      · simp only [hlt, if_true, Option.some.injEq] at h
        subst h
        exact List.mem_cons_of_mem _ (ih hr)
      · simp only [hlt, if_false, Option.some.injEq] at h
        simp [h]

/-- A query on a store without fault returns a stored row that satisfies the condition,
or `gorm.ErrRecordNotFound` when no stored row satisfies it. -/
theorem First_ok_mem {db : DB} {cond : User → Bool} {u : User}
    (h : db.First cond = .ok u) : db.fault = none ∧ u ∈ db.users ∧ cond u = true := by
  unfold DB.First at h
  cases hf : db.fault with
  | some msg => simp [hf] at h
  | none =>
    simp only [hf] at h
    cases hq : firstByID (db.users.filter cond) with
    | none => simp [hq] at h
    | some v =>
      simp only [hq, Except.ok.injEq] at h
      subst h
      have := firstByID_mem hq
      simpa using this

theorem First_notFound {db : DB} {cond : User → Bool} (hf : db.fault = none)
    (hno : ∀ u ∈ db.users, cond u = false) : db.First cond = .error .recordNotFound := by
  have : db.users.filter cond = [] := by
    simpa [List.filter_eq_nil_iff] using hno
  simp [DB.First, hf, this, firstByID]

theorem First_fault {db : DB} {cond : User → Bool} {msg : String}
    (hf : db.fault = some msg) : db.First cond = .error (.store msg) := by
  simp [DB.First, hf]

/-- The error of a failed query is the store's fault or `gorm.ErrRecordNotFound`. -/
theorem First_error {db : DB} {cond : User → Bool} {e : Error}
    (h : db.First cond = .error e) :
    (db.fault = none ∧ e = .recordNotFound ∧ ∀ u ∈ db.users, cond u = false) ∨
      (∃ msg, db.fault = some msg ∧ e = .store msg) := by
  unfold DB.First at h
  cases hf : db.fault with
  | some msg =>
    simp only [hf, Except.error.injEq] at h
    exact Or.inr ⟨msg, rfl, h.symm⟩
  | none =>
    simp only [hf] at h
    cases hq : firstByID (db.users.filter cond) with
    | some v => simp [hq] at h
    | none =>
      simp only [hq, Except.error.injEq] at h
      refine Or.inl ⟨rfl, h.symm, ?_⟩
      have hnil := firstByID_eq_none.mp hq
      intro u hu
      by_contra hc
      have : u ∈ db.users.filter cond := by
        simp only [List.mem_filter]
        exact ⟨hu, by simpa using hc⟩
      rw [hnil] at this
      simp at this

/-- A stored row that alone satisfies the condition is what the query loads. -/
theorem First_of_unique {db : DB} {cond : User → Bool} {u : User} (hf : db.fault = none)
    (hu : u ∈ db.users) (hcond : cond u = true)
    (huniq : ∀ v ∈ db.users, cond v = true → v = u) : db.First cond = .ok u := by
  unfold DB.First
  simp only [hf]
  cases hq : firstByID (db.users.filter cond) with
  | none =>
    have hnil := firstByID_eq_none.mp hq
    have : u ∈ db.users.filter cond := by
      simp [List.mem_filter, hu, hcond]
    rw [hnil] at this
    simp at this
  | some v =>
    have hm := firstByID_mem hq
    simp only [List.mem_filter] at hm
    rw [huniq v hm.1 hm.2]

/-- A stored row whose primary key no other row shares is what a query by that key
loads. -/
theorem First_of_stored {db : DB} {u : User} (hf : db.fault = none) (hu : u ∈ db.users)
    (hkey : ∀ v ∈ db.users, v.ID = u.ID → v = u) :
    db.First (fun v => v.ID == u.ID) = .ok u :=
  First_of_unique hf hu (by simp) (fun v hv hc => hkey v hv (by simpa using hc))

/-! ### Permission resolution -/

theorem permLoop_iff (resource action : String) (ps : List Permission) :
    permLoop resource action ps = true ↔
      ∃ p ∈ ps, p.Resource = resource ∧ p.Action = action := by
  induction ps with
  | nil => simp [permLoop]
  | cons q rest ih =>
    simp only [permLoop, List.mem_cons, exists_eq_or_imp]
    by_cases h : q.Resource = resource ∧ q.Action = action
    · simp [h]
    · have hb : (q.Resource == resource && q.Action == action) = false := by
        simpa [Bool.and_eq_false_iff] using h
      simp only [hb, h, false_or]
      simpa using ih

theorem roleLoop_iff (resource action : String) (rs : List Role) :
    roleLoop resource action rs = true ↔
      ∃ role ∈ rs, ∃ p ∈ role.Permissions, p.Resource = resource ∧ p.Action = action := by
  induction rs with
  | nil => simp [roleLoop]
  | cons r rest ih =>
    simp only [roleLoop, List.mem_cons, exists_eq_or_imp]
    by_cases h : permLoop resource action r.Permissions = true
    · simp only [h, if_true, true_iff]
      exact Or.inl ((permLoop_iff _ _ _).mp h)
    · simp only [h]
      rw [permLoop_iff] at h
      simp only [h, false_or]
      simpa using ih

/-- Extending a user's roles, or the permissions of its roles, keeps every grant: if
each permission pair reachable from `rs` is reachable from `rs2`, a positive answer
of the role loop on `rs` is a positive answer on `rs2`. -/
theorem roleLoop_mono (resource action : String) {rs rs2 : List Role}
    (hext : ∀ role ∈ rs, ∀ p ∈ role.Permissions, ∃ role2 ∈ rs2, ∃ q ∈ role2.Permissions,
      q.Resource = p.Resource ∧ q.Action = p.Action)
    (h : roleLoop resource action rs = true) : roleLoop resource action rs2 = true := by
  rw [roleLoop_iff] at h ⊢
  obtain ⟨role, hrole, p, hp, hres, hact⟩ := h
  obtain ⟨role2, hrole2, q, hq, hqr, hqa⟩ := hext role hrole p hp
  exact ⟨role2, hrole2, q, hq, hqr.trans hres, hqa.trans hact⟩

theorem HasPermission_of_load {db : DB} {userID : Nat} {u : User} (resource action : String)
    (hload : db.First (fun v => v.ID == userID) = .ok u) :
    HasPermission db userID resource action = (roleLoop resource action u.Roles, none) := by
  simp [HasPermission, hload]

theorem HasPermission_of_error {db : DB} {userID : Nat} {e : Error} (resource action : String)
    (hload : db.First (fun v => v.ID == userID) = .error e) :
    HasPermission db userID resource action = (false, some e) := by
  simp [HasPermission, hload]

/-- C1. For a stored user `u` (the store answers, and `u` is the only row with its
primary key), `HasPermission(u.ID, resource, action)` returns no error, and returns
`true` exactly when some role of `u` has a permission whose `Resource` equals
`resource` and whose `Action` equals `action`, as strings. -/
theorem hasPermission_iff_exists (db : DB) (u : User) (resource action : String)
    (hf : db.fault = none) (hu : u ∈ db.users)
    (hkey : ∀ v ∈ db.users, v.ID = u.ID → v = u) :
    (HasPermission db u.ID resource action).2 = none ∧
    ((HasPermission db u.ID resource action).1 = true ↔
      ∃ role ∈ u.Roles, ∃ p ∈ role.Permissions,
        p.Resource = resource ∧ p.Action = action) := by
  rw [HasPermission_of_load resource action (First_of_stored hf hu hkey)]
  exact ⟨rfl, roleLoop_iff resource action u.Roles⟩

theorem hasPermission_iff_exists_witness :
    sampleDB.fault = none ∧ adminUser ∈ sampleDB.users ∧
    (∀ v ∈ sampleDB.users, v.ID = adminUser.ID → v = adminUser) ∧
    ((HasPermission sampleDB adminUser.ID "users" "read").2 = none ∧
    ((HasPermission sampleDB adminUser.ID "users" "read").1 = true ↔
      ∃ role ∈ adminUser.Roles, ∃ p ∈ role.Permissions,
        p.Resource = "users" ∧ p.Action = "read")) :=
  ⟨rfl, by decide, by decide,
    hasPermission_iff_exists sampleDB adminUser "users" "read" rfl (by decide) (by decide)⟩

/-- C2. `HasPermission` returns an error exactly when loading the user fails; then the
boolean is `false` and the error is the store's own (`gorm.ErrRecordNotFound` for an
unknown id, the fault's error for a storage fault). Whenever the user loads the error
is nil, also when the user has no roles or no matching permission (`false`, nil). -/
theorem hasPermission_error_iff_load_fails (db : DB) (userID : Nat)
    (resource action : String) :
    ((HasPermission db userID resource action).2 ≠ none ↔
      ∃ e, db.First (fun u => u.ID == userID) = .error e) ∧
    (∀ e, db.First (fun u => u.ID == userID) = .error e →
      HasPermission db userID resource action = (false, some e)) ∧
    (db.fault = none → (∀ u ∈ db.users, u.ID ≠ userID) →
      HasPermission db userID resource action = (false, some .recordNotFound)) ∧
    (∀ msg, db.fault = some msg →
      HasPermission db userID resource action = (false, some (.store msg))) ∧
    (∀ u, db.First (fun u => u.ID == userID) = .ok u →
      (HasPermission db userID resource action).2 = none) ∧
    (∀ u, db.First (fun u => u.ID == userID) = .ok u →
      (u.Roles = [] ∨ ∀ role ∈ u.Roles, ∀ p ∈ role.Permissions,
        ¬ (p.Resource = resource ∧ p.Action = action)) →
      HasPermission db userID resource action = (false, none)) := by
  refine ⟨?_, ?_, ?_, ?_, ?_, ?_⟩
  · cases hl : db.First (fun u => u.ID == userID) with
    | error e => simp [HasPermission_of_error resource action hl]
    | ok u => simp [HasPermission_of_load resource action hl]
  · intro e hl
    exact HasPermission_of_error resource action hl
  · intro hf hno
    apply HasPermission_of_error
    apply First_notFound hf
    intro u hu
    simpa using hno u hu
  · intro msg hf
    exact HasPermission_of_error resource action (First_fault hf)
  · intro u hl
    rw [HasPermission_of_load resource action hl]
  · intro u hl hno
    rw [HasPermission_of_load resource action hl]
    have : roleLoop resource action u.Roles = false := by
      rw [Bool.eq_false_iff, Ne, roleLoop_iff]
      rintro ⟨role, hrole, p, hp, hm⟩
      rcases hno with hnil | hno
      · rw [hnil] at hrole
        simp at hrole
      · exact hno role hrole p hp hm
    rw [this]

/-- C3. Authorization is additive. For a user `u` that the store loads: with exactly two
roles of which one carries `(resource, action)`, `HasPermission` is `true` whatever the
other role holds; and a `true` answer stays `true` when a role is added to the user
(anywhere among its roles) or a permission is added to one of its roles (anywhere
among that role's permissions). -/
theorem hasPermission_additive (db : DB) (u : User) (resource action : String)
    (hload : db.First (fun v => v.ID == u.ID) = .ok u) :
    (∀ R1 R2 : Role, (u.Roles = [R1, R2] ∨ u.Roles = [R2, R1]) →
      (∃ p ∈ R1.Permissions, p.Resource = resource ∧ p.Action = action) →
      HasPermission db u.ID resource action = (true, none)) ∧
    (∀ (db2 : DB) (u2 : User) (before after : List Role) (added : Role),
      u.Roles = before ++ after → u2.Roles = before ++ added :: after →
      db2.First (fun v => v.ID == u.ID) = .ok u2 →
      HasPermission db u.ID resource action = (true, none) →
      HasPermission db2 u.ID resource action = (true, none)) ∧
    (∀ (db2 : DB) (u2 : User) (before after : List Role) (role role2 : Role)
      (pbefore pafter : List Permission) (added : Permission),
      u.Roles = before ++ role :: after → role.Permissions = pbefore ++ pafter →
      role2.Permissions = pbefore ++ added :: pafter →
      u2.Roles = before ++ role2 :: after →
      db2.First (fun v => v.ID == u.ID) = .ok u2 →
      HasPermission db u.ID resource action = (true, none) →
      HasPermission db2 u.ID resource action = (true, none)) := by
  refine ⟨?_, ?_, ?_⟩
  · intro R1 R2 hroles hcarry
    rw [HasPermission_of_load resource action hload]
    have : roleLoop resource action u.Roles = true := by
      rw [roleLoop_iff]
      obtain ⟨p, hp, hm⟩ := hcarry
      refine ⟨R1, ?_, p, hp, hm⟩
      rcases hroles with h | h <;> simp [h]
    rw [this]
  · intro db2 u2 before after added hroles hroles2 hload2 h
    rw [HasPermission_of_load resource action hload] at h
    rw [HasPermission_of_load resource action hload2]
    have h1 : roleLoop resource action u.Roles = true := by
      simpa using congrArg Prod.fst h
    have : roleLoop resource action u2.Roles = true := by
      apply roleLoop_mono resource action ?_ h1
      intro role hrole p hp
      refine ⟨role, ?_, p, hp, rfl, rfl⟩
      rw [hroles] at hrole
      rw [hroles2]
      simp only [List.mem_append, List.mem_cons] at hrole ⊢
      tauto
    rw [this]
  · intro db2 u2 before after role role2 pbefore pafter added hroles hperms hperms2
      hroles2 hload2 h
    rw [HasPermission_of_load resource action hload] at h
    rw [HasPermission_of_load resource action hload2]
    have h1 : roleLoop resource action u.Roles = true := by
      simpa using congrArg Prod.fst h
    have : roleLoop resource action u2.Roles = true := by
      apply roleLoop_mono resource action ?_ h1
      intro r hr p hp
      rw [hroles] at hr
      simp only [List.mem_append, List.mem_cons] at hr
      rcases hr with hr | hr | hr
      · exact ⟨r, by rw [hroles2]; simp [hr], p, hp, rfl, rfl⟩
      · subst hr
        refine ⟨role2, by rw [hroles2]; simp, p, ?_, rfl, rfl⟩
        rw [hperms] at hp
        rw [hperms2]
        simp only [List.mem_append, List.mem_cons] at hp ⊢
        tauto
      · exact ⟨r, by rw [hroles2]; simp [hr], p, hp, rfl, rfl⟩
    rw [this]

theorem hasPermission_additive_witness :
    sampleDB.First (fun v => v.ID == adminUser.ID) = .ok adminUser ∧
    HasPermission sampleDB adminUser.ID "users" "read" = (true, none) :=
  ⟨by decide,
    (hasPermission_additive sampleDB adminUser "users" "read" (by decide)).1
      adminRole viewerRole (Or.inr rfl) ⟨usersRead, by decide, rfl, rfl⟩⟩

theorem hasRoleLoop_iff (roleName : String) (rs : List Role) :
    hasRoleLoop roleName rs = true ↔ ∃ role ∈ rs, role.Name = roleName := by
  induction rs with
  | nil => simp [hasRoleLoop]
  | cons r rest ih =>
    simp only [hasRoleLoop, List.mem_cons, exists_eq_or_imp]
    by_cases h : r.Name = roleName
    · simp [h]
    · have hb : (r.Name == roleName) = false := by simpa using h
      simp only [hb, h, false_or]
      simpa using ih

/-- C4. For a user in the request context, `RequireRole(roleName)` lets the request
proceed exactly when one of the user's roles is named `roleName`; otherwise it
answers 403. A user without roles (nil or empty `Roles`) gets 403. -/
theorem requireRole_next_iff (user : User) (roleName : String) :
    (RequireRole roleName (some user) = .next ↔
      ∃ role ∈ user.Roles, role.Name = roleName) ∧
    ((¬ ∃ role ∈ user.Roles, role.Name = roleName) →
      RequireRole roleName (some user) =
        .abort ⟨403, "Role required: " ++ roleName⟩) ∧
    (user.Roles = [] →
      RequireRole roleName (some user) =
        .abort ⟨403, "Role required: " ++ roleName⟩) := by
  have key : ∀ b : Bool, hasRoleLoop roleName user.Roles = b →
      RequireRole roleName (some user) =
        if b then .next else .abort ⟨403, "Role required: " ++ roleName⟩ := by
    intro b hb
    cases b <;> simp [RequireRole, hb]
  refine ⟨?_, ?_, ?_⟩
  · rw [← hasRoleLoop_iff]
    cases hb : hasRoleLoop roleName user.Roles
    · rw [key false hb]; simp
    · rw [key true hb]; simp
  · intro hno
    rw [← hasRoleLoop_iff] at hno
    rw [key false (by simpa using hno)]
    rfl
  · intro hnil
    rw [key false (by rw [hnil]; rfl)]
    rfl

/-! ### Bytes, base64 and HMAC -/

theorem utf8Char_lt (c : Char) : ∀ b ∈ utf8Char c, b < 256 := by
  have hc : c.toNat < 1114112 := by
    have := c.valid
    simp only [UInt32.isValidChar, Nat.isValidChar] at this
    show c.val.toNat < 1114112
    omega
  intro b hb
  unfold utf8Char at hb
  simp only at hb
  split_ifs at hb <;> simp only [List.mem_cons, List.mem_singleton, List.not_mem_nil, or_false] at hb <;>
    omega

theorem utf8_lt (s : String) : ∀ b ∈ utf8 s, b < 256 := by
  intro b hb
  simp only [utf8, List.mem_flatMap] at hb
  obtain ⟨c, _, hc⟩ := hb
  exact utf8Char_lt c b hc

theorem beBytes_lt (len n : Nat) : ∀ b ∈ beBytes len n, b < 256 := by
  intro b hb
  simp only [beBytes, List.mem_map] at hb
  obtain ⟨i, _, rfl⟩ := hb
  exact Nat.mod_lt _ (by norm_num)

theorem sum_lt (p : SHA2) (msg : List Nat) : ∀ b ∈ p.sum msg, b < 256 := by
  intro b hb
  simp only [SHA2.sum] at hb
  have hb2 := List.mem_of_mem_take hb
  simp only [List.mem_flatten, List.mem_map] at hb2
  obtain ⟨l, ⟨x, _, rfl⟩, hbl⟩ := hb2
  exact beBytes_lt _ _ b hbl

theorem hmac_lt (p : SHA2) (key msg : List Nat) : ∀ b ∈ hmac p key msg, b < 256 := by
  intro b hb
  exact sum_lt p _ b hb

theorem b64Val_b64Char : ∀ v < 64, b64Val (b64Char v) = some v := by decide

theorem b64Char_plain : ∀ v < 64,
    b64Char v ≠ '.' ∧ b64Char v ≠ '\r' ∧ b64Char v ≠ '\n' := by decide

theorem b64Sextets_lt : ∀ (bs : List Nat), (∀ b ∈ bs, b < 256) →
    ∀ v ∈ b64Sextets bs, v < 64
  | b0 :: b1 :: b2 :: rest, h => by
    intro v hv
    have h0 := h b0 (by simp)
    have h1 := h b1 (by simp)
    have h2 := h b2 (by simp)
    simp only [b64Sextets, List.mem_cons] at hv
    rcases hv with rfl | rfl | rfl | rfl | hv
    · omega
    · omega
    · omega
    · omega
    · exact b64Sextets_lt rest (fun b hb => h b (by simp [hb])) v hv
  | [b0, b1], h => by
    intro v hv
    have h0 := h b0 (by simp)
    have h1 := h b1 (by simp)
    simp only [b64Sextets, List.mem_cons, List.mem_singleton, List.not_mem_nil, or_false] at hv
    rcases hv with rfl | rfl | rfl <;> omega
  | [b0], h => by
    intro v hv
    have h0 := h b0 (by simp)
    simp only [b64Sextets, List.mem_cons, List.mem_singleton, List.not_mem_nil, or_false] at hv
    rcases hv with rfl | rfl <;> omega
  | [], _ => by simp [b64Sextets]

theorem b64Bytes_b64Sextets : ∀ (bs : List Nat), (∀ b ∈ bs, b < 256) →
    b64Bytes (b64Sextets bs) = some bs
  | b0 :: b1 :: b2 :: rest, h => by
    have h0 := h b0 (by simp)
    have h1 := h b1 (by simp)
    have h2 := h b2 (by simp)
    have ih := b64Bytes_b64Sextets rest (fun b hb => h b (by simp [hb]))
    simp only [b64Sextets, b64Bytes, ih, Option.some.injEq, List.cons.injEq, and_true]
    refine ⟨?_, ?_, ?_⟩ <;> omega
  | [b0, b1], h => by
    have h0 := h b0 (by simp)
    have h1 := h b1 (by simp)
    simp only [b64Sextets, b64Bytes, Option.some.injEq, List.cons.injEq, and_true]
    refine ⟨?_, ?_⟩ <;> omega
  | [b0], h => by
    have h0 := h b0 (by simp)
    simp only [b64Sextets, b64Bytes, Option.some.injEq, List.cons.injEq, and_true]
    omega
  | [], _ => by simp [b64Sextets, b64Bytes]

theorem b64Vals_map_b64Char (vs : List Nat) (h : ∀ v ∈ vs, v < 64) :
    b64Vals (vs.map b64Char) = some vs := by
  induction vs with
  | nil => simp [b64Vals]
  | cons v rest ih =>
    have hv := b64Val_b64Char v (h v (by simp))
    have hrest := ih (fun x hx => h x (by simp [hx]))
    simp [b64Vals, hv, hrest]

theorem filter_newlines_map_b64Char (vs : List Nat) (h : ∀ v ∈ vs, v < 64) :
    (vs.map b64Char).filter (fun c => c != '\r' && c != '\n') = vs.map b64Char := by
  rw [List.filter_eq_self]
  intro c hc
  simp only [List.mem_map] at hc
  obtain ⟨v, hv, rfl⟩ := hc
  have := b64Char_plain v (h v hv)
  simp [this.2.1, this.2.2]

/-- Decoding a segment gives back the bytes that were encoded. -/
theorem DecodeSegment_EncodeSegment (bs : List Nat) (h : ∀ b ∈ bs, b < 256) :
    DecodeSegment (EncodeSegment bs) = some bs := by
  have hs := b64Sextets_lt bs h
  simp only [DecodeSegment, EncodeSegment]
  rw [filter_newlines_map_b64Char _ hs, b64Vals_map_b64Char _ hs]
  exact b64Bytes_b64Sextets bs h

theorem EncodeSegment_no_dot (bs : List Nat) (h : ∀ b ∈ bs, b < 256) :
    '.' ∉ (EncodeSegment bs).data := by
  simp only [EncodeSegment, List.mem_map, not_exists, not_and]
  intro v hv
  exact (b64Char_plain v (b64Sextets_lt bs h v hv)).1

/-! ### Splitting a token string -/

theorem splitOn_ne_nil (sep : Char) (cs : List Char) : splitOn sep cs ≠ [] := by
  cases cs with
  | nil => simp [splitOn]
  | cons c rest =>
    simp only [splitOn]
    split_ifs
    · simp
    · cases splitOn sep rest <;> simp

theorem splitOn_no_sep (sep : Char) (cs : List Char) (h : sep ∉ cs) :
    splitOn sep cs = [cs] := by
  induction cs with
  | nil => simp [splitOn]
  | cons c rest ih =>
    have hc : c ≠ sep := fun e => h (by simp [e])
    have hrest : sep ∉ rest := fun e => h (by simp [e])
    simp [splitOn, hc, ih hrest]

theorem splitOn_append (sep : Char) (cs rest : List Char) (h : sep ∉ cs) :
    splitOn sep (cs ++ sep :: rest) = cs :: splitOn sep rest := by
  induction cs with
  | nil => simp [splitOn]
  | cons c tail ih =>
    have hc : c ≠ sep := fun e => h (by simp [e])
    have htail : sep ∉ tail := fun e => h (by simp [e])
    simp [splitOn, hc, ih htail]

theorem splitOn_three (sep : Char) (a b c : List Char) (ha : sep ∉ a) (hb : sep ∉ b)
    (hc : sep ∉ c) : splitOn sep (a ++ sep :: (b ++ sep :: c)) = [a, b, c] := by
  rw [splitOn_append sep a _ ha, splitOn_append sep b _ hb, splitOn_no_sep sep c hc]

/-! ### Issuing and validating tokens -/

theorem GenerateToken_eq (L : JSONCodec) (j : JWTService) (now1 now2 : Int) (userID : Nat)
    (email : String) :
    GenerateToken L j now1 now2 userID email =
      .ok (SigningString L (NewWithClaims .HS256 (j.claimsFor now1 now2 userID email)) ++ "." ++
        EncodeSegment (hmac sha256 (utf8 j.secretKey)
          (utf8 (SigningString L (NewWithClaims .HS256 (j.claimsFor now1 now2 userID email)))))) := by
  rfl

/-- Parsing a token made of the signing string of an HS256 token and any third segment
without a dot gives back its header, claims and method, when the codec reads back what
it wrote. -/
theorem ParseUnverified_signed (L : JSONCodec) (c : Claims) (sig : String)
    (hjson : L.RoundTrips c) (hsig : '.' ∉ sig.data) :
    ParseUnverified L (SigningString L (NewWithClaims .HS256 c) ++ "." ++ sig) =
      .ok (NewWithClaims .HS256 c,
        EncodeSegment (utf8 (L.marshalHeader ⟨some "HS256", some "JWT"⟩)),
        EncodeSegment (utf8 (L.marshalClaims c)), sig) := by
  have h0 := EncodeSegment_no_dot _ (utf8_lt (L.marshalHeader ⟨some "HS256", some "JWT"⟩))
  have h1 := EncodeSegment_no_dot _ (utf8_lt (L.marshalClaims c))
  have hd0 := DecodeSegment_EncodeSegment _ (utf8_lt (L.marshalHeader ⟨some "HS256", some "JWT"⟩))
  have hd1 := DecodeSegment_EncodeSegment _ (utf8_lt (L.marshalClaims c))
  have hdata : (SigningString L (NewWithClaims .HS256 c) ++ "." ++ sig).data =
      (EncodeSegment (utf8 (L.marshalHeader ⟨some "HS256", some "JWT"⟩))).data ++ '.' ::
        ((EncodeSegment (utf8 (L.marshalClaims c))).data ++ '.' :: sig.data) := by
    simp [SigningString, NewWithClaims, SigningMethod.Alg, String.data_append]
  unfold ParseUnverified
  rw [hdata, splitOn_three '.' _ _ _ h0 h1 hsig]
  simp only [hd0, hd1, hjson.1, hjson.2]
  rfl

/-- Validation of such a token: accepted with its claims when the claims are valid at
`now` and the third segment decodes to the HMAC-SHA256 tag of the signing string under
the service's key, rejected with a validation error otherwise. -/
theorem ValidateToken_signed (L : JSONCodec) (j : JWTService) (now : Int) (c : Claims)
    (sig : String) (hjson : L.RoundTrips c) (hsig : '.' ∉ sig.data) :
    ValidateToken L j now (SigningString L (NewWithClaims .HS256 c) ++ "." ++ sig) =
      if c.toRegisteredClaims.Valid now = 0 ∧
          DecodeSegment sig = some (hmac sha256 (utf8 j.secretKey)
            (utf8 (SigningString L (NewWithClaims .HS256 c)))) then .ok c
      else .error (.validation (c.toRegisteredClaims.Valid now +
        if DecodeSegment sig = some (hmac sha256 (utf8 j.secretKey)
            (utf8 (SigningString L (NewWithClaims .HS256 c)))) then 0
        else ValidationErrorSignatureInvalid)) := by
  have hss : EncodeSegment (utf8 (L.marshalHeader ⟨some "HS256", some "JWT"⟩)) ++ "." ++
      EncodeSegment (utf8 (L.marshalClaims c)) = SigningString L (NewWithClaims .HS256 c) := rfl
  unfold ValidateToken ParseWithClaims
  rw [ParseUnverified_signed L c sig hjson hsig]
  simp only [JWTService.keyFunc, NewWithClaims, SigningMethod.isHMAC, SigningMethod.hash,
    Option.isSome_some, Bool.not_true, Bool.false_eq_true, if_false, SigningMethod.Verify,
    SigningMethod.Alg]
  rw [hss]
  simp only [NewWithClaims, SigningMethod.Alg]
  cases hdec : DecodeSegment sig with
  | none =>
    simp [ValidationErrorSignatureInvalid]
  | some tag =>
    by_cases htag : tag = hmac sha256 (utf8 j.secretKey)
        (utf8 (SigningString L ⟨⟨some "HS256", some "JWT"⟩, c, .HS256, "", false⟩))
    · by_cases hv : c.toRegisteredClaims.Valid now = 0
      · simp [htag, hv]
      · simp [htag, hv]
    · simp [htag, ValidationErrorSignatureInvalid]

theorem Valid_eq_zero_iff (c : RegisteredClaims) (now : Int) :
    c.Valid now = 0 ↔
      verifyExp c.ExpiresAt now = true ∧ verifyIat c.IssuedAt now = true ∧
        verifyNbf c.NotBefore now = true := by
  unfold RegisteredClaims.Valid ValidationErrorExpired ValidationErrorIssuedAt
    ValidationErrorNotValidYet
  cases verifyExp c.ExpiresAt now <;> cases verifyIat c.IssuedAt now <;>
    cases verifyNbf c.NotBefore now <;> simp

theorem claimsFor_Valid_iff (j : JWTService) (now1 now2 now : Int) (userID : Nat)
    (email : String) :
    (j.claimsFor now1 now2 userID email).toRegisteredClaims.Valid now = 0 ↔
      now < NewNumericDate (now1 + j.tokenDuration) ∧ NewNumericDate now2 ≤ now := by
  rw [Valid_eq_zero_iff]
  simp [JWTService.claimsFor, verifyExp, verifyIat, verifyNbf]

theorem NewNumericDate_le (t : Int) : NewNumericDate t ≤ t := by
  unfold NewNumericDate
  omega

/-- The token that `GenerateToken` returns is accepted by the same service, with the
claim set that was signed, from the second clock reading of its issue on and before
its expiry. -/
theorem GenerateToken_validates (L : JSONCodec) (j : JWTService) (now1 now2 now : Int)
    (userID : Nat) (email : String)
    (hjson : L.RoundTrips (j.claimsFor now1 now2 userID email))
    (hissued : now2 ≤ now) (hlive : now < NewNumericDate (now1 + j.tokenDuration)) :
    ∃ tok, GenerateToken L j now1 now2 userID email = .ok tok ∧
      ValidateToken L j now tok = .ok (j.claimsFor now1 now2 userID email) := by
  refine ⟨_, GenerateToken_eq L j now1 now2 userID email, ?_⟩
  rw [ValidateToken_signed L j now _ _ hjson (EncodeSegment_no_dot _ (hmac_lt _ _ _))]
  have hvalid := (claimsFor_Valid_iff j now1 now2 now userID email).mpr
    ⟨hlive, le_trans (NewNumericDate_le now2) hissued⟩
  rw [if_pos ⟨hvalid, DecodeSegment_EncodeSegment _ (hmac_lt _ _ _)⟩]

/-! ### Login -/

/-- C5. Anti-enumeration. On a store that answers, a login with a user name that no
stored user has (any password) and a login with the name of a stored user and a
password that does not verify against its digest both return no response and the
same error, made by `errors.New` with the text "invalid username or password". -/
theorem login_failures_indistinguishable (L : JSONCodec) (bc : Bcrypt) (db : DB)
    (j : JWTService) (now1 now2 : Int) (ghost anyPassword wrongPassword : String) (u : User)
    (hf : db.fault = none) (hghost : ∀ v ∈ db.users, v.Username ≠ ghost)
    (hu : u ∈ db.users) (hname : ∀ v ∈ db.users, v.Username = u.Username → v = u)
    (hwrong : u.CheckPassword bc wrongPassword = false) :
    Login L bc db j now1 now2 ⟨ghost, anyPassword⟩ =
        .error (.new "invalid username or password") ∧
    Login L bc db j now1 now2 ⟨u.Username, wrongPassword⟩ =
        .error (.new "invalid username or password") ∧
    Login L bc db j now1 now2 ⟨ghost, anyPassword⟩ =
        Login L bc db j now1 now2 ⟨u.Username, wrongPassword⟩ := by
  have h1 : Login L bc db j now1 now2 ⟨ghost, anyPassword⟩ =
      .error (.new "invalid username or password") := by
    have hq : db.First (fun v => v.Username == ghost) = .error .recordNotFound :=
      First_notFound hf (fun v hv => by simpa using hghost v hv)
    simp [Login, hq]
  have h2 : Login L bc db j now1 now2 ⟨u.Username, wrongPassword⟩ =
      .error (.new "invalid username or password") := by
    have hq : db.First (fun v => v.Username == u.Username) = .ok u :=
      First_of_unique hf hu (by simp) (fun v hv hc => hname v hv (by simpa using hc))
    simp [Login, hq, hwrong]
  exact ⟨h1, h2, h1.trans h2.symm⟩

theorem login_failures_indistinguishable_witness :
    sampleDB.fault = none ∧ (∀ v ∈ sampleDB.users, v.Username ≠ "ghost") ∧
    adminUser ∈ sampleDB.users ∧
    (∀ v ∈ sampleDB.users, v.Username = adminUser.Username → v = adminUser) ∧
    adminUser.CheckPassword sampleBcrypt "wrong_password" = false ∧
    (Login goJSON sampleBcrypt sampleDB sampleJWT sampleNow sampleNow ⟨"ghost", "x"⟩ =
        .error (.new "invalid username or password") ∧
    Login goJSON sampleBcrypt sampleDB sampleJWT sampleNow sampleNow
        ⟨adminUser.Username, "wrong_password"⟩ =
        .error (.new "invalid username or password") ∧
    Login goJSON sampleBcrypt sampleDB sampleJWT sampleNow sampleNow ⟨"ghost", "x"⟩ =
        Login goJSON sampleBcrypt sampleDB sampleJWT sampleNow sampleNow
          ⟨adminUser.Username, "wrong_password"⟩) :=
  ⟨rfl, by decide, by decide, by decide, by decide,
    login_failures_indistinguishable goJSON sampleBcrypt sampleDB sampleJWT sampleNow sampleNow
      "ghost" "x" "wrong_password" adminUser rfl (by decide) (by decide) (by decide)
      (by decide)⟩

/-- C7. Token round trip. When the codec reads back the claim set it wrote, the token
that `GenerateToken(id, email)` returns is accepted by `ValidateToken` of the same
service at every clock reading `now` from its issue on and before its expiry, with
claims that hold `UserID = id`, `Email = email` and the configured issuer. -/
theorem validateToken_generateToken (L : JSONCodec) (j : JWTService) (now1 now2 now : Int)
    (userID : Nat) (email : String)
    (hjson : L.RoundTrips (j.claimsFor now1 now2 userID email))
    (hissued : now2 ≤ now) (hlive : now < NewNumericDate (now1 + j.tokenDuration)) :
    ∃ tok claims, GenerateToken L j now1 now2 userID email = .ok tok ∧
      ValidateToken L j now tok = .ok claims ∧
      claims.UserID = userID ∧ claims.Email = email ∧ claims.Issuer = j.issuer := by
  obtain ⟨tok, hgen, hval⟩ := GenerateToken_validates L j now1 now2 now userID email hjson
    hissued hlive
  exact ⟨tok, j.claimsFor now1 now2 userID email, hgen, hval, rfl, rfl, rfl⟩

set_option maxRecDepth 1000000 in
theorem validateToken_generateToken_witness :
    goJSON.RoundTrips (sampleJWT.claimsFor sampleNow sampleNow 1 "test@example.com") ∧
    sampleNow ≤ sampleNow + 1000000000 ∧
    sampleNow + 1000000000 < NewNumericDate (sampleNow + sampleJWT.tokenDuration) ∧
    ∃ tok claims, GenerateToken goJSON sampleJWT sampleNow sampleNow 1 "test@example.com" = .ok tok ∧
      ValidateToken goJSON sampleJWT (sampleNow + 1000000000) tok = .ok claims ∧
      claims.UserID = 1 ∧ claims.Email = "test@example.com" ∧
      claims.Issuer = sampleJWT.issuer :=
  ⟨by decide, by decide, by decide,
    validateToken_generateToken goJSON sampleJWT sampleNow sampleNow (sampleNow + 1000000000)
      1 "test@example.com" (by decide) (by decide) (by decide)⟩

/-- C6. Successful login. For a stored user `u` (the only one with its user name) and a
password that verifies against its digest, `Login` returns no error and a response
whose `User` is `u.ToResponse()` and whose `AccessToken`, validated by the same token
service from its issue on and before its expiry, yields claims with `UserID = u.ID`
and `Email = u.Email` (the codec reading back the claim set it wrote). -/
theorem login_success (L : JSONCodec) (bc : Bcrypt) (db : DB) (j : JWTService)
    (now1 now2 now : Int) (u : User) (password : String)
    (hf : db.fault = none) (hu : u ∈ db.users)
    (hname : ∀ v ∈ db.users, v.Username = u.Username → v = u)
    (hpw : u.CheckPassword bc password = true)
    (hjson : L.RoundTrips (j.claimsFor now1 now2 u.ID u.Email))
    (hissued : now2 ≤ now) (hlive : now < NewNumericDate (now1 + j.tokenDuration)) :
    ∃ resp claims, Login L bc db j now1 now2 ⟨u.Username, password⟩ = .ok resp ∧
      resp.User = u.ToResponse ∧
      ValidateToken L j now resp.AccessToken = .ok claims ∧
      claims.UserID = u.ID ∧ claims.Email = u.Email := by
  obtain ⟨tok, hgen, hval⟩ :=
    GenerateToken_validates L j now1 now2 now u.ID u.Email hjson hissued hlive
  have hq : db.First (fun v => v.Username == u.Username) = .ok u :=
    First_of_unique hf hu (by simp) (fun v hv hc => hname v hv (by simpa using hc))
  refine ⟨⟨tok, u.ToResponse⟩, j.claimsFor now1 now2 u.ID u.Email, ?_, rfl, hval, rfl, rfl⟩
  simp [Login, hq, hpw, hgen]

set_option maxRecDepth 1000000 in
theorem login_success_witness :
    sampleDB.fault = none ∧ adminUser ∈ sampleDB.users ∧
    (∀ v ∈ sampleDB.users, v.Username = adminUser.Username → v = adminUser) ∧
    adminUser.CheckPassword sampleBcrypt "admin123" = true ∧
    goJSON.RoundTrips (sampleJWT.claimsFor sampleNow sampleNow adminUser.ID adminUser.Email) ∧
    sampleNow ≤ sampleNow + 1 ∧
    sampleNow + 1 < NewNumericDate (sampleNow + sampleJWT.tokenDuration) ∧
    ∃ resp claims, Login goJSON sampleBcrypt sampleDB sampleJWT sampleNow sampleNow
        ⟨adminUser.Username, "admin123"⟩ = .ok resp ∧
      resp.User = adminUser.ToResponse ∧
      ValidateToken goJSON sampleJWT (sampleNow + 1) resp.AccessToken = .ok claims ∧
      claims.UserID = adminUser.ID ∧ claims.Email = adminUser.Email :=
  ⟨rfl, by decide, by decide, by decide, by decide, by decide, by decide,
    login_success goJSON sampleBcrypt sampleDB sampleJWT sampleNow sampleNow (sampleNow + 1)
      adminUser "admin123" rfl (by decide) (by decide) (by decide) (by decide) (by decide)
      (by decide)⟩

/-- C8. Expiry. For a service whose token duration is zero or negative, the token that
`GenerateToken` returns is rejected by `ValidateToken` of that service with a
validation error, at the moment of issue and at every later clock reading (the codec
reading back the claim set it wrote). -/
theorem nonpositive_duration_rejected (L : JSONCodec) (j : JWTService) (now1 now2 now : Int)
    (userID : Nat) (email : String)
    (hjson : L.RoundTrips (j.claimsFor now1 now2 userID email))
    (hduration : j.tokenDuration ≤ 0) (hlater : now1 ≤ now) :
    ∃ tok errors, GenerateToken L j now1 now2 userID email = .ok tok ∧
      ValidateToken L j now tok = .error (.validation errors) := by
  have hexpired : ¬ (j.claimsFor now1 now2 userID email).toRegisteredClaims.Valid now = 0 := by
    rw [claimsFor_Valid_iff]
    intro h
    have := NewNumericDate_le (now1 + j.tokenDuration)
    omega
  have hval := ValidateToken_signed L j now (j.claimsFor now1 now2 userID email) _ hjson
    (EncodeSegment_no_dot _ (hmac_lt sha256 (utf8 j.secretKey)
      (utf8 (SigningString L (NewWithClaims .HS256 (j.claimsFor now1 now2 userID email))))))
  rw [if_neg (fun h => hexpired h.1)] at hval
  exact ⟨_, _, GenerateToken_eq L j now1 now2 userID email, hval⟩

set_option maxRecDepth 1000000 in
theorem nonpositive_duration_rejected_witness :
    goJSON.RoundTrips ((NewJWTService "test-secret-key" "test-issuer" (-3600000000000)).claimsFor
      sampleNow sampleNow 1 "test@example.com") ∧
    (NewJWTService "test-secret-key" "test-issuer" (-3600000000000)).tokenDuration ≤ 0 ∧
    sampleNow ≤ sampleNow ∧
    ∃ tok errors, GenerateToken goJSON (NewJWTService "test-secret-key" "test-issuer" (-3600000000000))
        sampleNow sampleNow 1 "test@example.com" = .ok tok ∧
      ValidateToken goJSON (NewJWTService "test-secret-key" "test-issuer" (-3600000000000))
        sampleNow tok = .error (.validation errors) :=
  ⟨by decide, by decide, by decide,
    nonpositive_duration_rejected goJSON (NewJWTService "test-secret-key" "test-issuer" (-3600000000000))
      sampleNow sampleNow sampleNow 1 "test@example.com" (by decide) (by decide) (by decide)⟩

theorem round_length (p : SHA2) (s : List Nat) (kw : Nat × Nat) :
    (p.round s kw).length = s.length := by
  unfold SHA2.round
  split <;> simp

theorem foldl_round_length (p : SHA2) (kws : List (Nat × Nat)) (s : List Nat) :
    (kws.foldl p.round s).length = s.length := by
  induction kws generalizing s with
  | nil => rfl
  | cons kw rest ih => simp [List.foldl, ih, round_length]

theorem compress_length (p : SHA2) (H block : List Nat) :
    (p.compress H block).length = H.length := by
  simp [SHA2.compress, foldl_round_length]

theorem foldl_compress_length (p : SHA2) (blocks : List (List Nat)) (H : List Nat) :
    (blocks.foldl p.compress H).length = H.length := by
  induction blocks generalizing H with
  | nil => rfl
  | cons b rest ih => simp [List.foldl, ih, compress_length]

theorem beBytes_length (len n : Nat) : (beBytes len n).length = len := by
  simp [beBytes]

theorem flatten_beBytes_length (len : Nat) (H : List Nat) :
    ((H.map (beBytes len)).flatten).length = H.length * len := by
  induction H with
  | nil => simp
  | cons x rest ih =>
    simp only [List.map_cons, List.flatten_cons, List.length_append, ih, beBytes_length,
      List.length_cons]
    ring

/-- A SHA-256 digest has 32 bytes. -/
theorem sha256_sum_length (msg : List Nat) : (sha256.sum msg).length = 32 := by
  simp only [SHA2.sum, List.length_take, flatten_beBytes_length, foldl_compress_length]
  decide

theorem hmac_sha256_length (key msg : List Nat) : (hmac sha256 key msg).length = 32 :=
  sha256_sum_length _

/-! ### Validation under another key -/

theorem hmac_congr_keyBlock (p : SHA2) (k1 k2 msg : List Nat)
    (h : hmacKeyBlock p k1 = hmacKeyBlock p k2) : hmac p k1 msg = hmac p k2 msg := by
  simp only [hmac, h]

theorem utf8Char_ascii : ∀ b < 128, utf8Char (Char.ofNat b) = [b] := by decide

theorem utf8_asciiString (bs : List Nat) (h : ∀ b ∈ bs, b < 128) :
    utf8 (asciiString bs) = bs := by
  induction bs with
  | nil => rfl
  | cons b rest ih =>
    have hb := utf8Char_ascii b (h b (by simp))
    have ih2 := ih (fun c hc => h c (by simp [hc]))
    simp only [utf8, asciiString, List.map_cons, List.flatMap_cons] at ih2 ⊢
    rw [hb, ih2]
    rfl

/-- Two lists of the same length with the same entries are equal. -/
theorem list_eq_of_getD (n : Nat) (a b : List Nat) (ha : a.length = n) (hb : b.length = n)
    (h : ∀ i < n, a.getD i 0 = b.getD i 0) : a = b := by
  apply List.ext_getElem (by rw [ha, hb])
  intro i h1 h2
  have := h i (by omega)
  simpa [List.getD_eq_getElem?_getD, List.getElem?_eq_getElem h1, List.getElem?_eq_getElem h2]
    using this

/-- A key of 64 ASCII characters is its own key block for HMAC-SHA256. -/
theorem hmacKeyBlock_ascii64 (bs : List Nat) (hlen : bs.length = 64) (hlt : ∀ b ∈ bs, b < 128) :
    hmacKeyBlock sha256 (utf8 (asciiString bs)) = bs := by
  rw [utf8_asciiString bs hlt]
  simp [hmacKeyBlock, SHA2.blockSize, sha256, hlen]

/-- Among the keys of 64 printable ASCII characters, two with different key blocks give
one message the same HMAC-SHA256 tag: there are more such keys than tags. -/
theorem exists_keys_same_tag (msg : List Nat) :
    ∃ k1 k2 : String, k1 ≠ k2 ∧
      hmacKeyBlock sha256 (utf8 k1) ≠ hmacKeyBlock sha256 (utf8 k2) ∧
      hmac sha256 (utf8 k1) msg = hmac sha256 (utf8 k2) msg := by
  let bytes : (Fin 64 → Fin 64) → List Nat := fun g => List.ofFn (fun i => (g i).val + 32)
  let tagOf : (Fin 64 → Fin 64) → (Fin 32 → Fin 256) := fun g i =>
    ⟨(hmac sha256 (utf8 (asciiString (bytes g))) msg).getD i.val 0 % 256, Nat.mod_lt _ (by decide)⟩
  have hcard : Fintype.card (Fin 32 → Fin 256) < Fintype.card (Fin 64 → Fin 64) := by
    simp only [Fintype.card_fun, Fintype.card_fin]
    norm_num
  obtain ⟨g1, g2, hne, heq⟩ := Fintype.exists_ne_map_eq_of_card_lt tagOf hcard
  have hlen : ∀ g, (bytes g).length = 64 := fun g => by simp [bytes]
  have hlt : ∀ g, ∀ b ∈ bytes g, b < 128 := by
    intro g b hb
    simp only [bytes, List.mem_ofFn] at hb
    obtain ⟨i, rfl⟩ := hb
    have := (g i).isLt
    show (g i).val + 32 < 128
    omega
  have hbytes : bytes g1 ≠ bytes g2 := by
    intro h
    apply hne
    funext i
    have := congrFun (List.ofFn_injective h) i
    apply Fin.ext
    simpa using this
  have hblock : hmacKeyBlock sha256 (utf8 (asciiString (bytes g1))) ≠
      hmacKeyBlock sha256 (utf8 (asciiString (bytes g2))) := by
    rw [hmacKeyBlock_ascii64 _ (hlen g1) (hlt g1), hmacKeyBlock_ascii64 _ (hlen g2) (hlt g2)]
    exact hbytes
  refine ⟨asciiString (bytes g1), asciiString (bytes g2), ?_, hblock, ?_⟩
  · intro h
    exact hblock (by rw [h])
  · apply list_eq_of_getD 32 _ _ (hmac_sha256_length _ _) (hmac_sha256_length _ _)
    intro i hi
    have h1 := congrArg (fun f => (f ⟨i, hi⟩).val) heq
    simp only [tagOf] at h1
    have hb1 : (hmac sha256 (utf8 (asciiString (bytes g1))) msg).getD i 0 < 256 := by
      rw [List.getD_eq_getElem _ _ (by rw [hmac_sha256_length]; exact hi)]
      exact hmac_lt _ _ _ _ (List.getElem_mem _)
    have hb2 : (hmac sha256 (utf8 (asciiString (bytes g2))) msg).getD i 0 < 256 := by
      rw [List.getD_eq_getElem _ _ (by rw [hmac_sha256_length]; exact hi)]
      exact hmac_lt _ _ _ _ (List.getElem_mem _)
    rw [Nat.mod_eq_of_lt hb1, Nat.mod_eq_of_lt hb2] at h1
    exact h1


/-- C10, as the code has it. A token issued by a service with key `K1` is rejected by a
service with key `K2` whenever the HMAC-SHA256 tags of the token's signing string under
the two keys differ, and it is accepted by the service with `K2` exactly when the two
tags are equal and the claims are valid at the time of the validation. The tags are
equal whenever the two keys have the same HMAC key block (the key followed by zero bytes
up to the block length, a key longer than a block hashed first): then the service with
`K2` answers exactly as the issuing service does. -/
theorem cross_key_validation (L : JSONCodec) (j1 j2 : JWTService) (now1 now2 now : Int)
    (userID : Nat) (email : String)
    (hjson : L.RoundTrips (j1.claimsFor now1 now2 userID email)) :
    ∃ tok, GenerateToken L j1 now1 now2 userID email = .ok tok ∧
      (hmac sha256 (utf8 j2.secretKey)
          (utf8 (SigningString L (NewWithClaims .HS256 (j1.claimsFor now1 now2 userID email)))) ≠
        hmac sha256 (utf8 j1.secretKey)
          (utf8 (SigningString L (NewWithClaims .HS256 (j1.claimsFor now1 now2 userID email)))) →
        ∃ errors, ValidateToken L j2 now tok = .error (.validation errors)) ∧
      ((∃ claims, ValidateToken L j2 now tok = .ok claims) ↔
        hmac sha256 (utf8 j2.secretKey)
            (utf8 (SigningString L (NewWithClaims .HS256 (j1.claimsFor now1 now2 userID email)))) =
          hmac sha256 (utf8 j1.secretKey)
            (utf8 (SigningString L (NewWithClaims .HS256 (j1.claimsFor now1 now2 userID email)))) ∧
        (j1.claimsFor now1 now2 userID email).toRegisteredClaims.Valid now = 0) ∧
      (hmacKeyBlock sha256 (utf8 j2.secretKey) = hmacKeyBlock sha256 (utf8 j1.secretKey) →
        ValidateToken L j2 now tok = ValidateToken L j1 now tok) := by
  have hdot := EncodeSegment_no_dot _ (hmac_lt sha256 (utf8 j1.secretKey)
    (utf8 (SigningString L (NewWithClaims .HS256 (j1.claimsFor now1 now2 userID email)))))
  have hdec := DecodeSegment_EncodeSegment _ (hmac_lt sha256 (utf8 j1.secretKey)
    (utf8 (SigningString L (NewWithClaims .HS256 (j1.claimsFor now1 now2 userID email)))))
  have hval := ValidateToken_signed L j2 now (j1.claimsFor now1 now2 userID email) _ hjson hdot
  rw [hdec] at hval
  refine ⟨_, GenerateToken_eq L j1 now1 now2 userID email, ?_, ?_, ?_⟩
  · intro hne
    rw [if_neg (fun h => hne (Option.some.inj h.2).symm)] at hval
    exact ⟨_, hval⟩
  · constructor
    · rintro ⟨claims, hok⟩
      by_cases hc : (j1.claimsFor now1 now2 userID email).toRegisteredClaims.Valid now = 0 ∧
          some (hmac sha256 (utf8 j1.secretKey) (utf8 (SigningString L (NewWithClaims .HS256
            (j1.claimsFor now1 now2 userID email))))) =
          some (hmac sha256 (utf8 j2.secretKey) (utf8 (SigningString L (NewWithClaims .HS256
            (j1.claimsFor now1 now2 userID email)))))
      · exact ⟨(Option.some.inj hc.2).symm, hc.1⟩
      · rw [if_neg hc, hok] at hval
        cases hval
    · rintro ⟨htag, hvalid⟩
      rw [if_pos ⟨hvalid, by rw [htag]⟩] at hval
      exact ⟨_, hval⟩
  · intro hblock
    rw [ValidateToken_signed L j2 now _ _ hjson hdot, ValidateToken_signed L j1 now _ _ hjson hdot,
      hmac_congr_keyBlock sha256 _ _ _ hblock]

set_option maxRecDepth 1000000 in
theorem cross_key_validation_witness :
    goJSON.RoundTrips ((NewJWTService "secret-key-1" "test-issuer" 3600000000000).claimsFor
      sampleNow sampleNow 1 "test@example.com") ∧
    ∃ errors, ValidateToken goJSON (NewJWTService "secret-key-2" "test-issuer" 3600000000000)
      sampleNow (sampleSigningString ++ ".3otZHKQAUxcgIoBYgjh_IvTxRsSJ1OELbqEFR9LMJFc") =
        .error (.validation errors) :=
  ⟨by decide, by
    obtain ⟨tok, hgen, hreject, _⟩ := cross_key_validation goJSON
      (NewJWTService "secret-key-1" "test-issuer" 3600000000000)
      (NewJWTService "secret-key-2" "test-issuer" 3600000000000)
      sampleNow sampleNow sampleNow 1 "test@example.com" (by decide)
    have htok : tok = sampleSigningString ++ ".3otZHKQAUxcgIoBYgjh_IvTxRsSJ1OELbqEFR9LMJFc" := by
      have hlit : GenerateToken goJSON (NewJWTService "secret-key-1" "test-issuer" 3600000000000)
          sampleNow sampleNow 1 "test@example.com" =
            .ok (sampleSigningString ++ ".3otZHKQAUxcgIoBYgjh_IvTxRsSJ1OELbqEFR9LMJFc") := by
        decide
      rw [hlit] at hgen
      exact (Except.ok.inj hgen).symm
    rw [← htok]
    exact hreject (by decide)⟩

set_option maxRecDepth 1000000 in
/-- C10 fails as stated. The keys "secret-key-1" and "secret-key-1" followed by a zero
byte are distinct, and the token that the service with the first key issues is
accepted by the service with the second: the two keys have the same key block. And
there are two keys with different key blocks, of 64 printable characters each, such that the
token of the example issued under the first is accepted under the second: there are
more such keys than tags. -/
theorem cross_key_counterexample :
    ("secret-key-1" ≠ "secret-key-1\x00" ∧
      GenerateToken goJSON (NewJWTService "secret-key-1" "test-issuer" 3600000000000)
        sampleNow sampleNow 1 "test@example.com" =
          .ok (sampleSigningString ++ ".3otZHKQAUxcgIoBYgjh_IvTxRsSJ1OELbqEFR9LMJFc") ∧
      ValidateToken goJSON (NewJWTService "secret-key-1\x00" "test-issuer" 3600000000000)
        sampleNow (sampleSigningString ++ ".3otZHKQAUxcgIoBYgjh_IvTxRsSJ1OELbqEFR9LMJFc") =
          .ok sampleClaims) ∧
    ∃ k1 k2 : String, k1 ≠ k2 ∧
      hmacKeyBlock sha256 (utf8 k1) ≠ hmacKeyBlock sha256 (utf8 k2) ∧
      ∃ tok, GenerateToken goJSON (NewJWTService k1 "test-issuer" 3600000000000)
          sampleNow sampleNow 1 "test@example.com" = .ok tok ∧
        ValidateToken goJSON (NewJWTService k2 "test-issuer" 3600000000000) sampleNow tok =
          .ok sampleClaims := by
  refine ⟨by decide, ?_⟩
  obtain ⟨k1, k2, hne, hblock, htag⟩ := exists_keys_same_tag
    (utf8 (SigningString goJSON (NewWithClaims .HS256 sampleClaims)))
  have hjson : goJSON.RoundTrips sampleClaims := by decide
  have hvalid : sampleClaims.toRegisteredClaims.Valid sampleNow = 0 := by decide
  have hc1 : (NewJWTService k1 "test-issuer" 3600000000000).claimsFor sampleNow sampleNow 1
      "test@example.com" = sampleClaims := by
    simp only [JWTService.claimsFor, NewJWTService, sampleClaims, sampleNow]
    decide
  refine ⟨k1, k2, hne, hblock, _, GenerateToken_eq goJSON _ sampleNow sampleNow 1 _, ?_⟩
  rw [hc1]
  have hdot := EncodeSegment_no_dot _ (hmac_lt sha256 (utf8 k1)
    (utf8 (SigningString goJSON (NewWithClaims .HS256 sampleClaims))))
  have hdec := DecodeSegment_EncodeSegment _ (hmac_lt sha256 (utf8 k1)
    (utf8 (SigningString goJSON (NewWithClaims .HS256 sampleClaims))))
  have hval := ValidateToken_signed goJSON (NewJWTService k2 "test-issuer" 3600000000000)
    sampleNow sampleClaims _ hjson hdot
  rw [hdec, if_pos ⟨hvalid, by rw [htag]; rfl⟩] at hval
  exact hval

/-! ### Changing one character of a token -/

theorem b64Sextets_length : ∀ (bs : List Nat), (b64Sextets bs).length = (4 * bs.length + 2) / 3
  | b0 :: b1 :: b2 :: rest => by
    simp only [b64Sextets, List.length_cons, b64Sextets_length rest]
    omega
  | [b0, b1] => by simp [b64Sextets]
  | [b0] => by simp [b64Sextets]
  | [] => by simp [b64Sextets]

theorem b64Bytes_length : ∀ (vs bs : List Nat), b64Bytes vs = some bs →
    bs.length = 3 * vs.length / 4 ∧ vs.length % 4 ≠ 1
  | v0 :: v1 :: v2 :: v3 :: rest, bs, h => by
    simp only [b64Bytes] at h
    cases hr : b64Bytes rest with
    | none => simp [hr] at h
    | some bs2 =>
      simp only [hr, Option.some.injEq] at h
      have ih := b64Bytes_length rest bs2 hr
      subst h
      simp only [List.length_cons]
      omega
  | [v0, v1, v2], bs, h => by
    simp only [b64Bytes, Option.some.injEq] at h
    subst h
    simp
  | [v0, v1], bs, h => by
    simp only [b64Bytes, Option.some.injEq] at h
    subst h
    simp
  | [_], bs, h => by simp [b64Bytes] at h
  | [], bs, h => by
    simp only [b64Bytes, Option.some.injEq] at h
    subst h
    simp

/-! ### The decode map -/

theorem b64Char_b64Val (c : Char) (v : Nat) (h : b64Val c = some v) :
    v < 64 ∧ b64Char v = c := by
  have hc : Char.ofNat c.toNat = c := Char.ofNat_toNat c
  unfold b64Val at h
  simp only at h
  split_ifs at h with h1 h2 h3 h4 h5 <;> simp only [Option.some.injEq] at h <;> subst h
  · refine ⟨by omega, ?_⟩
    have : 65 + (c.toNat - 65) = c.toNat := by omega
    simp only [b64Char, this, hc]
    rw [if_pos (by omega)]
  · refine ⟨by omega, ?_⟩
    have e : 97 + (c.toNat - 97 + 26 - 26) = c.toNat := by omega
    simp only [b64Char]
    rw [if_neg (by omega), if_pos (by omega), e, hc]
  · refine ⟨by omega, ?_⟩
    have e : 48 + (c.toNat - 48 + 52 - 52) = c.toNat := by omega
    simp only [b64Char]
    rw [if_neg (by omega), if_neg (by omega), if_pos (by omega), e, hc]
  · exact ⟨by omega, by rw [h4]; rfl⟩
  · exact ⟨by omega, by rw [h5]; rfl⟩

theorem b64Val_inj (c d : Char) (v : Nat) (hc : b64Val c = some v) (hd : b64Val d = some v) :
    c = d := by
  rw [← (b64Char_b64Val c v hc).2, ← (b64Char_b64Val d v hd).2]

theorem b64Vals_append (xs ys : List Char) :
    b64Vals (xs ++ ys) =
      match b64Vals xs, b64Vals ys with
      | some vs, some ws => some (vs ++ ws)
      | _, _ => none := by
  induction xs with
  | nil =>
    simp only [List.nil_append, b64Vals]
    cases b64Vals ys <;> rfl
  | cons x rest ih =>
    show b64Vals (x :: (rest ++ ys)) = _
    simp only [b64Vals]
    rw [ih]
    cases b64Val x <;> cases b64Vals rest <;> cases b64Vals ys <;> rfl

theorem b64Vals_lt : ∀ (cs : List Char) (vs : List Nat), b64Vals cs = some vs →
    ∀ v ∈ vs, v < 64 := by
  intro cs
  induction cs with
  | nil =>
    intro vs h v hv
    simp only [b64Vals, Option.some.injEq] at h
    subst h
    simp at hv
  | cons c rest ih =>
    intro vs h v hv
    simp only [b64Vals] at h
    cases hc : b64Val c with
    | none => simp [hc] at h
    | some x =>
      cases hr : b64Vals rest with
      | none => simp [hc, hr] at h
      | some xs =>
        simp only [hc, hr, Option.some.injEq] at h
        subst h
        simp only [List.mem_cons] at hv
        rcases hv with rfl | hv
        · exact (b64Char_b64Val c _ hc).1
        · exact ih xs hr v hv

theorem b64Vals_length : ∀ (cs : List Char) (vs : List Nat), b64Vals cs = some vs →
    vs.length = cs.length := by
  intro cs
  induction cs with
  | nil =>
    intro vs h
    simp only [b64Vals, Option.some.injEq] at h
    subst h
    rfl
  | cons c rest ih =>
    intro vs h
    simp only [b64Vals] at h
    cases hc : b64Val c with
    | none => simp [hc] at h
    | some x =>
      cases hr : b64Vals rest with
      | none => simp [hc, hr] at h
      | some xs =>
        simp only [hc, hr, Option.some.injEq] at h
        subst h
        simp [ih xs hr]

/-- Two sequences of 6-bit values that differ in one place decode to the same bytes
only when that place is the last one and the two values agree outside the bits that
the last group leaves unused. -/
theorem b64Bytes_change : ∀ (vpre vpost : List Nat) (v w : Nat) (bs : List Nat),
    v < 64 → w < 64 → v ≠ w →
    b64Bytes (vpre ++ v :: vpost) = some bs → b64Bytes (vpre ++ w :: vpost) = some bs →
    vpost = [] ∧ ((vpre.length % 4 = 2 ∧ v / 4 = w / 4) ∨ (vpre.length % 4 = 1 ∧ v / 16 = w / 16))
  | a :: b :: c :: d :: rest, vpost, v, w, bs, hv, hw, hne, h1, h2 => by
    simp only [List.cons_append, b64Bytes, List.append_eq] at h1 h2
    cases hr1 : b64Bytes (rest ++ v :: vpost) with
    | none => simp [hr1] at h1
    | some bs1 =>
      cases hr2 : b64Bytes (rest ++ w :: vpost) with
      | none => simp [hr2] at h2
      | some bs2 =>
        simp only [hr1, Option.some.injEq] at h1
        simp only [hr2, Option.some.injEq] at h2
        have hbs : bs1 = bs2 := by
          rw [← h2] at h1
          simp only [List.cons.injEq, true_and] at h1
          exact h1
        subst hbs
        have ih := b64Bytes_change rest vpost v w bs1 hv hw hne hr1 hr2
        refine ⟨ih.1, ?_⟩
        simp only [List.length_cons]
        rcases ih.2 with h | h
        · exact Or.inl ⟨by omega, h.2⟩
        · exact Or.inr ⟨by omega, h.2⟩
  | [a, b, c], vpost, v, w, bs, hv, hw, hne, h1, h2 => by
    exfalso
    simp only [List.cons_append, List.nil_append, b64Bytes] at h1 h2
    cases hr : b64Bytes vpost with
    | none => simp [hr] at h1
    | some bs1 =>
      simp only [hr, Option.some.injEq] at h1 h2
      rw [← h2] at h1
      simp only [List.cons.injEq, true_and, and_true] at h1
      omega
  | [a, b], vpost, v, w, bs, hv, hw, hne, h1, h2 => by
    cases vpost with
    | nil =>
      simp only [List.cons_append, List.nil_append, b64Bytes, Option.some.injEq] at h1 h2
      rw [← h2] at h1
      simp only [List.cons.injEq, true_and, and_true] at h1
      exact ⟨rfl, Or.inl ⟨rfl, by omega⟩⟩
    | cons d rest =>
      exfalso
      simp only [List.cons_append, List.nil_append, b64Bytes] at h1 h2
      cases hr : b64Bytes rest with
      | none => simp [hr] at h1
      | some bs1 =>
        simp only [hr, Option.some.injEq] at h1 h2
        rw [← h2] at h1
        simp only [List.cons.injEq, true_and, and_true] at h1
        omega
  | [a], vpost, v, w, bs, hv, hw, hne, h1, h2 => by
    cases vpost with
    | nil =>
      simp only [List.cons_append, List.nil_append, b64Bytes, Option.some.injEq] at h1 h2
      rw [← h2] at h1
      simp only [List.cons.injEq, and_true] at h1
      exact ⟨rfl, Or.inr ⟨rfl, by omega⟩⟩
    | cons c rest =>
      exfalso
      cases rest with
      | nil =>
        simp only [List.cons_append, List.nil_append, b64Bytes, Option.some.injEq] at h1 h2
        rw [← h2] at h1
        simp only [List.cons.injEq, and_true] at h1
        omega
      | cons d rest2 =>
        simp only [List.cons_append, List.nil_append, b64Bytes] at h1 h2
        cases hr : b64Bytes rest2 with
        | none => simp [hr] at h1
        | some bs1 =>
          simp only [hr, Option.some.injEq] at h1 h2
          rw [← h2] at h1
          simp only [List.cons.injEq, true_and, and_true] at h1
          omega
  | [], vpost, v, w, bs, hv, hw, hne, h1, h2 => by
    exfalso
    cases vpost with
    | nil => simp [b64Bytes] at h1
    | cons b rest =>
      cases rest with
      | nil =>
        simp only [List.nil_append, b64Bytes, Option.some.injEq] at h1 h2
        rw [← h2] at h1
        simp only [List.cons.injEq, and_true] at h1
        omega
      | cons c rest2 =>
        cases rest2 with
        | nil =>
          simp only [List.nil_append, b64Bytes, Option.some.injEq] at h1 h2
          rw [← h2] at h1
          simp only [List.cons.injEq, and_true] at h1
          omega
        | cons d rest3 =>
          simp only [List.nil_append, b64Bytes] at h1 h2
          cases hr : b64Bytes rest3 with
          | none => simp [hr] at h1
          | some bs1 =>
            simp only [hr, Option.some.injEq] at h1 h2
            rw [← h2] at h1
            simp only [List.cons.injEq, true_and, and_true] at h1
            omega

/-- Replacing the last of `4 k + 3` six-bit values by one with the same upper four bits
does not change the decoded bytes. -/
theorem b64Bytes_last : ∀ (vpre : List Nat) (v w : Nat), vpre.length % 4 = 2 → v / 4 = w / 4 →
    b64Bytes (vpre ++ [w]) = b64Bytes (vpre ++ [v])
  | a :: b :: c :: d :: rest, v, w, hlen, h => by
    simp only [List.cons_append, b64Bytes, List.append_eq]
    rw [b64Bytes_last rest v w (by simp only [List.length_cons] at hlen; omega) h]
  | [a, b, c], v, w, hlen, h => by simp at hlen
  | [a, b], v, w, hlen, h => by
    simp only [List.cons_append, List.nil_append, b64Bytes, h]
  | [a], v, w, hlen, h => by simp at hlen
  | [], v, w, hlen, h => by simp at hlen

theorem ParseUnverified_ok_inv {L : JSONCodec} {tokenString : String} {token : Token}
    {s0 s1 s2 : String} (h : ParseUnverified L tokenString = .ok (token, s0, s1, s2)) :
    splitOn '.' tokenString.data = [s0.data, s1.data, s2.data] ∧
    (∃ hb alg, DecodeSegment s0 = some hb ∧ L.unmarshalHeader hb = some token.Header ∧
      token.Header.alg = some alg ∧ GetSigningMethod alg = some token.Method) ∧
    (∃ cb, DecodeSegment s1 = some cb ∧ L.unmarshalClaims cb = some token.Claims) := by
  unfold ParseUnverified at h
  split at h
  · rename_i p0 p1 p2 hsplit
    cases hd0 : DecodeSegment (String.mk p0) with
    | none => simp [hd0] at h
    | some hb =>
      cases hu0 : L.unmarshalHeader hb with
      | none => simp [hd0, hu0] at h
      | some hdr =>
        cases hd1 : DecodeSegment (String.mk p1) with
        | none => simp [hd0, hu0, hd1] at h
        | some cb =>
          cases hu1 : L.unmarshalClaims cb with
          | none => simp [hd0, hu0, hd1, hu1] at h
          | some cl =>
            cases halg : hdr.alg with
            | none => simp [hd0, hu0, hd1, hu1, halg] at h
            | some alg =>
              cases hm : GetSigningMethod alg with
              | none => simp [hd0, hu0, hd1, hu1, halg, hm] at h
              | some method =>
                simp only [hd0, hu0, hd1, hu1, halg, hm, Except.ok.injEq, Prod.mk.injEq] at h
                obtain ⟨ht, h0, h1, h2⟩ := h
                subst ht h0 h1 h2
                exact ⟨hsplit, ⟨hb, alg, hd0, hu0, halg, hm⟩, ⟨cb, hd1, hu1⟩⟩
  · simp at h

/-- Every token that `ValidateToken` accepts has three segments, a header that names an
HMAC method, claims that are valid at `now`, and a third segment that decodes to the
HMAC tag, under the service's key, of the first two segments joined by a dot. -/
theorem ValidateToken_ok_inv {L : JSONCodec} {j : JWTService} {now : Int} {tokenString : String}
    {claims : Claims} (h : ValidateToken L j now tokenString = .ok claims) :
    ∃ (s0 s1 s2 : String) (method : SigningMethod) (p : SHA2),
      splitOn '.' tokenString.data = [s0.data, s1.data, s2.data] ∧
      method.hash = some p ∧
      (∃ hb hdr alg, DecodeSegment s0 = some hb ∧ L.unmarshalHeader hb = some hdr ∧
        hdr.alg = some alg ∧ GetSigningMethod alg = some method) ∧
      (∃ cb, DecodeSegment s1 = some cb ∧ L.unmarshalClaims cb = some claims) ∧
      claims.toRegisteredClaims.Valid now = 0 ∧
      DecodeSegment s2 = some (hmac p (utf8 j.secretKey) (utf8 (s0 ++ "." ++ s1))) := by
  unfold ValidateToken ParseWithClaims at h
  cases hp : ParseUnverified L tokenString with
  | error e => simp [hp] at h
  | ok r =>
    obtain ⟨token, s0, s1, s2⟩ := r
    obtain ⟨hsplit, ⟨hb, alg, hd0, hu0, halg, hm⟩, ⟨cb, hd1, hu1⟩⟩ := ParseUnverified_ok_inv hp
    simp only [hp] at h
    cases hhash : token.Method.hash with
    | none =>
      simp [JWTService.keyFunc, SigningMethod.isHMAC, hhash] at h
    | some p =>
      simp only [JWTService.keyFunc, SigningMethod.isHMAC, hhash, Option.isSome_some,
        Bool.not_true, Bool.false_eq_true, if_false, SigningMethod.Verify] at h
      cases hd2 : DecodeSegment s2 with
      | none =>
        simp [hd2, ValidationErrorSignatureInvalid] at h
      | some sig =>
        simp only [hd2] at h
        by_cases hsig : sig = hmac p (utf8 j.secretKey) (utf8 (s0 ++ "." ++ s1))
        · by_cases hv : token.Claims.toRegisteredClaims.Valid now = 0
          · simp only [hsig, decide_True, if_true, hv] at h
            simp only [Bool.not_true, Bool.false_eq_true, if_false, Except.ok.injEq] at h
            subst h
            exact ⟨s0, s1, s2, token.Method, p, hsplit, hhash, ⟨hb, token.Header, alg, hd0, hu0, halg, hm⟩,
              ⟨cb, hd1, hu1⟩, hv, by rw [hd2, hsig]⟩
          · simp [hsig, hv] at h
        · simp [hsig, ValidationErrorSignatureInvalid] at h

theorem hash_mem {method : SigningMethod} {p : SHA2} (h : method.hash = some p) :
    p = sha256 ∨ p = sha384 ∨ p = sha512 := by
  cases method <;> simp [SigningMethod.hash] at h <;> simp [← h]

/-- Where a changed character of `xs ++ d :: ys` lies: in `xs`, at `d`, or in `ys`. -/
theorem append_cons_cases {α : Type} (pre post xs ys : List α) (c d : α)
    (h : pre ++ c :: post = xs ++ d :: ys) :
    (∃ xs2, xs = pre ++ c :: xs2 ∧ post = xs2 ++ d :: ys) ∨
    (pre = xs ∧ c = d ∧ post = ys) ∨
    (∃ pre2, pre = xs ++ d :: pre2 ∧ ys = pre2 ++ c :: post) := by
  rw [List.append_eq_append_iff] at h
  rcases h with ⟨a, hxs, hpost⟩ | ⟨a, hpre, hys⟩
  · cases a with
    | nil =>
      simp only [List.nil_append, List.cons.injEq] at hpost
      simp only [List.append_nil] at hxs
      exact Or.inr (Or.inl ⟨hxs.symm, hpost.1, hpost.2⟩)
    | cons x a2 =>
      simp only [List.cons_append, List.cons.injEq] at hpost
      obtain ⟨rfl, hpost⟩ := hpost
      exact Or.inl ⟨a2, hxs, hpost⟩
  · cases a with
    | nil =>
      simp only [List.nil_append, List.cons.injEq] at hys
      simp only [List.append_nil] at hpre
      exact Or.inr (Or.inl ⟨hpre, hys.1.symm, hys.2.symm⟩)
    | cons x a2 =>
      simp only [List.cons_append, List.cons.injEq] at hys
      obtain ⟨rfl, hys⟩ := hys
      exact Or.inr (Or.inr ⟨a2, hpre, hys⟩)

theorem filter_newlines_append (xs ys : List Nat) (c : Char)
    (hx : ∀ v ∈ xs, v < 64) (hy : ∀ v ∈ ys, v < 64) :
    (xs.map b64Char ++ c :: ys.map b64Char).filter (fun c => c != '\r' && c != '\n') =
      xs.map b64Char ++ ([c].filter (fun c => c != '\r' && c != '\n')) ++ ys.map b64Char := by
  rw [List.filter_append, filter_newlines_map_b64Char xs hx]
  rw [show c :: ys.map b64Char = [c] ++ ys.map b64Char from rfl, List.filter_append,
    filter_newlines_map_b64Char ys hy]
  simp

/-- A signature segment changed in one character still decodes to the 32-byte tag only
when the character is the last one and the old and new characters stand for 6-bit
values with the same upper four bits. -/
theorem sig_change (tag : List Nat) (hlen : tag.length = 32) (hlt : ∀ b ∈ tag, b < 256)
    (pre post : List Char) (c c2 : Char)
    (hseg : (EncodeSegment tag).data = pre ++ c :: post) (hne : c2 ≠ c)
    (hdec : DecodeSegment (String.mk (pre ++ c2 :: post)) = some tag) :
    post = [] ∧ ∃ v v2, b64Val c = some v ∧ b64Val c2 = some v2 ∧ v / 4 = v2 / 4 := by
  have hs := b64Sextets_lt tag hlt
  have hslen : (b64Sextets tag).length = 43 := by rw [b64Sextets_length, hlen]
  have hbytes := b64Bytes_b64Sextets tag hlt
  simp only [EncodeSegment] at hseg
  obtain ⟨vpre, vrest, hsplit, hpre, hrest⟩ := List.map_eq_append_iff.mp hseg
  obtain ⟨v, vpost, hrest2, hc, hpost⟩ := List.map_eq_cons_iff.mp hrest
  subst hrest2
  have hvpre : ∀ x ∈ vpre, x < 64 := fun x hx => hs x (by rw [hsplit]; simp [hx])
  have hv : v < 64 := hs v (by rw [hsplit]; simp)
  have hvpost : ∀ x ∈ vpost, x < 64 := fun x hx => hs x (by rw [hsplit]; simp [hx])
  have hcval : b64Val c = some v := by rw [← hc]; exact b64Val_b64Char v hv
  rw [hsplit] at hbytes hslen
  simp only [List.length_append, List.length_cons] at hslen
  subst hpre hpost
  simp only [DecodeSegment] at hdec
  rw [filter_newlines_append vpre vpost c2 hvpre hvpost] at hdec
  by_cases hnl : (c2 != '\r' && c2 != '\n') = true
  · simp only [List.filter_cons, hnl, if_true, List.filter_nil, List.append_assoc,
      List.singleton_append] at hdec
    rw [b64Vals_append, b64Vals_map_b64Char vpre hvpre] at hdec
    simp only [b64Vals, b64Vals_map_b64Char vpost hvpost] at hdec
    cases hc2 : b64Val c2 with
    | none => simp [hc2] at hdec
    | some v2 =>
      simp only [hc2] at hdec
      have hv2 : v2 < 64 := (b64Char_b64Val c2 v2 hc2).1
      have hvne : v ≠ v2 := by
        intro e
        subst e
        exact hne (b64Val_inj c2 c v hc2 hcval)
      have key := b64Bytes_change vpre vpost v v2 tag hv hv2 hvne hbytes hdec
      obtain ⟨hnil, hcase⟩ := key
      subst hnil
      simp only [List.length_nil] at hslen
      refine ⟨rfl, v, v2, hcval, rfl, ?_⟩
      rcases hcase with h | h
      · exact h.2
      · omega
  · exfalso
    simp only [List.filter_cons, hnl, List.filter_nil, List.append_nil] at hdec
    simp only [Bool.false_eq_true, if_false, List.append_nil] at hdec
    rw [b64Vals_append, b64Vals_map_b64Char vpre hvpre, b64Vals_map_b64Char vpost hvpost] at hdec
    simp only at hdec
    have h1 := b64Bytes_length _ _ hdec
    simp only [List.length_append] at h1
    omega

/-- Replacing the last character of a signature segment by a character whose 6-bit value
has the same upper four bits leaves the decoded tag unchanged. -/
theorem sig_last_change (tag : List Nat) (hlen : tag.length = 32) (hlt : ∀ b ∈ tag, b < 256)
    (pre : List Char) (c c2 : Char) (v v2 : Nat)
    (hseg : (EncodeSegment tag).data = pre ++ [c])
    (hv : b64Val c = some v) (hv2 : b64Val c2 = some v2) (hsame : v / 4 = v2 / 4) :
    DecodeSegment (String.mk (pre ++ [c2])) = some tag := by
  have hs := b64Sextets_lt tag hlt
  have hslen : (b64Sextets tag).length = 43 := by rw [b64Sextets_length, hlen]
  have hbytes := b64Bytes_b64Sextets tag hlt
  simp only [EncodeSegment] at hseg
  obtain ⟨vpre, vrest, hsplit, hpre, hrest⟩ := List.map_eq_append_iff.mp hseg
  obtain ⟨w, vpost, hrest2, hc, hpost⟩ := List.map_eq_cons_iff.mp hrest
  subst hrest2
  have hnil : vpost = [] := by simpa using hpost
  subst hnil
  have hvpre : ∀ x ∈ vpre, x < 64 := fun x hx => hs x (by rw [hsplit]; simp [hx])
  have hw : w < 64 := hs w (by rw [hsplit]; simp)
  have hwv : w = v := by
    have := b64Val_b64Char w hw
    rw [hc, hv] at this
    exact (Option.some.inj this).symm
  subst hwv
  rw [hsplit] at hbytes hslen
  simp only [List.length_append, List.length_cons, List.length_nil] at hslen
  have hc2 := b64Char_b64Val c2 v2 hv2
  subst hpre
  have hfilter := filter_newlines_map_b64Char (vpre ++ [v2]) (by
    intro x hx
    simp only [List.mem_append, List.mem_singleton] at hx
    rcases hx with hx | rfl
    · exact hvpre x hx
    · exact hc2.1)
  have hvals := b64Vals_map_b64Char (vpre ++ [v2]) (by
    intro x hx
    simp only [List.mem_append, List.mem_singleton] at hx
    rcases hx with hx | rfl
    · exact hvpre x hx
    · exact hc2.1)
  simp only [List.map_append, List.map_cons, List.map_nil, hc2.2] at hfilter hvals
  simp only [DecodeSegment]
  rw [hfilter, hvals]
  simp only
  rw [b64Bytes_last vpre w v2 (by omega) hsame]
  exact hbytes

theorem splitOn_two (sep : Char) (a b : List Char) (ha : sep ∉ a) (hb : sep ∉ b) :
    splitOn sep (a ++ sep :: b) = [a, b] := by
  rw [splitOn_append sep a _ ha, splitOn_no_sep sep b hb]

theorem splitOn_four (sep : Char) (a b c d : List Char) (ha : sep ∉ a) (hb : sep ∉ b)
    (hc : sep ∉ c) (hd : sep ∉ d) :
    splitOn sep (a ++ sep :: (b ++ sep :: (c ++ sep :: d))) = [a, b, c, d] := by
  rw [splitOn_append sep a _ ha, splitOn_append sep b _ hb, splitOn_append sep c _ hc,
    splitOn_no_sep sep d hd]

/-- A token string that does not split into three segments is rejected. -/
theorem ValidateToken_error_of_split {L : JSONCodec} {j : JWTService} {now : Int}
    {tokenString : String} (h : (splitOn '.' tokenString.data).length ≠ 3) :
    ∃ e, ValidateToken L j now tokenString = .error e := by
  cases hv : ValidateToken L j now tokenString with
  | error e => exact ⟨e, rfl⟩
  | ok claims =>
    obtain ⟨s0, s1, s2, _, _, hsplit, _⟩ := ValidateToken_ok_inv hv
    rw [hsplit] at h
    simp at h

/-- A change in the header or claims segment: the changed token is rejected, or its
signing string has the original tag under one of the HMAC hash functions. -/
theorem signing_string_change (L : JSONCodec) (j : JWTService) (now : Int)
    (seg0 seg1 : List Char) (sig : String) (tag : List Nat)
    (h0 : '.' ∉ seg0) (h1 : '.' ∉ seg1) (hsig : '.' ∉ sig.data)
    (hdec : DecodeSegment sig = some tag) :
    (∃ e, ValidateToken L j now (String.mk (seg0 ++ '.' :: (seg1 ++ '.' :: sig.data))) = .error e) ∨
    ∃ p, (p = sha256 ∨ p = sha384 ∨ p = sha512) ∧
      hmac p (utf8 j.secretKey) (utf8 (String.mk seg0 ++ "." ++ String.mk seg1)) = tag := by
  cases hv : ValidateToken L j now (String.mk (seg0 ++ '.' :: (seg1 ++ '.' :: sig.data))) with
  | error e => exact Or.inl ⟨e, rfl⟩
  | ok claims =>
    right
    obtain ⟨s0, s1, s2, method, p, hsplit, hhash, _, _, _, hd2⟩ := ValidateToken_ok_inv hv
    rw [show (String.mk (seg0 ++ '.' :: (seg1 ++ '.' :: sig.data))).data =
      seg0 ++ '.' :: (seg1 ++ '.' :: sig.data) from rfl, splitOn_three '.' _ _ _ h0 h1 hsig] at hsplit
    simp only [List.cons.injEq, and_true] at hsplit
    obtain ⟨e0, e1, e2⟩ := hsplit
    have hs0 : s0 = String.mk seg0 := String.ext e0.symm
    have hs1 : s1 = String.mk seg1 := String.ext e1.symm
    have hs2 : s2 = sig := String.ext e2.symm
    subst hs0 hs1 hs2
    rw [hdec] at hd2
    exact ⟨p, hash_mem hhash, (Option.some.inj hd2).symm⟩

/-- The pieces of a split are one more than the separators. -/
theorem splitOn_length (sep : Char) (cs : List Char) :
    (splitOn sep cs).length = cs.count sep + 1 := by
  induction cs with
  | nil => simp [splitOn]
  | cons c rest ih =>
    by_cases hc : c = sep
    · simp [splitOn, hc, ih]
    · have hne := splitOn_ne_nil sep rest
      cases hs : splitOn sep rest with
      | nil => exact absurd hs hne
      | cons seg segs =>
        rw [hs] at ih
        simp only [splitOn, if_neg hc, hs, List.length_cons] at ih ⊢
        rw [List.count_cons_of_ne (fun e => hc e.symm)]
        exact ih

/-- A character other than the separator lies in one of the pieces of the split. -/
theorem mem_splitOn (sep : Char) (cs : List Char) (x : Char) (hx : x ∈ cs) (hne : x ≠ sep) :
    ∃ seg ∈ splitOn sep cs, x ∈ seg := by
  induction cs with
  | nil => simp at hx
  | cons c rest ih =>
    by_cases hc : c = sep
    · have hxr : x ∈ rest := by
        rcases List.mem_cons.1 hx with e | e
        · exact absurd (e.trans hc) hne
        · exact e
      obtain ⟨seg, hseg, hmem⟩ := ih hxr
      exact ⟨seg, by simp [splitOn, hc, hseg], hmem⟩
    · have hnil := splitOn_ne_nil sep rest
      cases hs : splitOn sep rest with
      | nil => exact absurd hs hnil
      | cons seg segs =>
        simp only [splitOn, if_neg hc, hs]
        rcases List.mem_cons.1 hx with e | e
        · exact ⟨c :: seg, by simp, by simp [e]⟩
        · obtain ⟨seg2, hseg2, hmem⟩ := ih e
          rw [hs] at hseg2
          rcases List.mem_cons.1 hseg2 with e2 | e2
          · exact ⟨c :: seg, by simp, by simp [← e2, hmem]⟩
          · exact ⟨seg2, by simp [e2], hmem⟩

theorem b64Vals_none_of_mem (cs : List Char) (x : Char) (hx : x ∈ cs) (hval : b64Val x = none) :
    b64Vals cs = none := by
  induction cs with
  | nil => simp at hx
  | cons c rest ih =>
    rcases List.mem_cons.1 hx with e | e
    · subst e
      simp [b64Vals, hval]
    · simp only [b64Vals, ih e]
      cases b64Val c <;> rfl

/-- A segment with a character outside the alphabet, other than a carriage return and a
line feed, does not decode. -/
theorem DecodeSegment_none_of_mem (seg : String) (x : Char) (hx : x ∈ seg.data)
    (hval : b64Val x = none) (hcr : x ≠ '\r') (hlf : x ≠ '\n') : DecodeSegment seg = none := by
  have hmem : x ∈ seg.data.filter (fun c => c != '\r' && c != '\n') := by
    simp [List.mem_filter, hx, hcr, hlf]
  simp only [DecodeSegment, b64Vals_none_of_mem _ x hmem hval]

/-- A token that `ValidateToken` accepts has exactly two dots, and each character of it
other than a dot is a character of the alphabet, a carriage return or a line feed. -/
theorem ValidateToken_ok_chars {L : JSONCodec} {j : JWTService} {now : Int}
    {tokenString : String} {claims : Claims}
    (h : ValidateToken L j now tokenString = .ok claims) :
    tokenString.data.count '.' = 2 ∧
    ∀ x ∈ tokenString.data, x ≠ '.' → b64Val x = none → x = '\r' ∨ x = '\n' := by
  obtain ⟨s0, s1, s2, method, p, hsplit, _, ⟨hb, _, _, hd0, _⟩, ⟨cb, hd1, _⟩, _, hd2⟩ :=
    ValidateToken_ok_inv h
  constructor
  · have := splitOn_length '.' tokenString.data
    rw [hsplit] at this
    simpa using this.symm
  · intro x hx hdot hval
    by_contra hnot
    rw [not_or] at hnot
    obtain ⟨seg, hseg, hmem⟩ := mem_splitOn '.' tokenString.data x hx hdot
    rw [hsplit] at hseg
    simp only [List.mem_cons, List.mem_singleton, List.not_mem_nil, or_false] at hseg
    rcases hseg with e | e | e
    · rw [DecodeSegment_none_of_mem s0 x (by rw [← e]; exact hmem) hval hnot.1 hnot.2] at hd0
      cases hd0
    · rw [DecodeSegment_none_of_mem s1 x (by rw [← e]; exact hmem) hval hnot.1 hnot.2] at hd1
      cases hd1
    · rw [DecodeSegment_none_of_mem s2 x (by rw [← e]; exact hmem) hval hnot.1 hnot.2] at hd2
      cases hd2


/-- C9, as the code has it. Let `tok` be the token that `GenerateToken` returns and let one
character `c` of it be replaced by another character `c2`. `ValidateToken` rejects the
changed token when `c` is a character of the signature segment, unless `c` is the last
character and `c2` is a character of the alphabet whose 6-bit value has the same upper
four bits (the decoder ignores the two unused bits of the last character): then the
changed token gets the same answer as the original token. It rejects the changed token
when `c` or `c2` is a dot, and when `c2` is outside the alphabet and is neither a
carriage return nor a line feed, wherever the change is. -/
theorem tampered_token_rejected (L : JSONCodec) (j : JWTService) (now1 now2 now : Int)
    (userID : Nat) (email : String) (tok : String) (pre post : List Char) (c c2 : Char)
    (hjson : L.RoundTrips (j.claimsFor now1 now2 userID email))
    (hgen : GenerateToken L j now1 now2 userID email = .ok tok)
    (hpos : tok.data = pre ++ c :: post) (hne : c2 ≠ c) :
    ('.' ∉ post → c ≠ '.' →
      (∃ e, ValidateToken L j now (String.mk (pre ++ c2 :: post)) = .error e) ∨
      (post = [] ∧ ∃ v v2, b64Val c = some v ∧ b64Val c2 = some v2 ∧ v / 4 = v2 / 4)) ∧
    (c = '.' ∨ c2 = '.' →
      ∃ e, ValidateToken L j now (String.mk (pre ++ c2 :: post)) = .error e) ∧
    (b64Val c2 = none → c2 ≠ '\r' → c2 ≠ '\n' →
      ∃ e, ValidateToken L j now (String.mk (pre ++ c2 :: post)) = .error e) ∧
    (post = [] → ∀ v v2, b64Val c = some v → b64Val c2 = some v2 → v / 4 = v2 / 4 →
      ValidateToken L j now (String.mk (pre ++ c2 :: post)) = ValidateToken L j now tok) := by
  -- the three segments of the token
  generalize hc0 : j.claimsFor now1 now2 userID email = c0 at hjson hgen ⊢
  have htok : tok = SigningString L (NewWithClaims .HS256 c0) ++ "." ++
      EncodeSegment (hmac sha256 (utf8 j.secretKey)
        (utf8 (SigningString L (NewWithClaims .HS256 c0)))) := by
    rw [GenerateToken_eq, hc0] at hgen
    exact (Except.ok.inj hgen).symm
  generalize htag : hmac sha256 (utf8 j.secretKey)
    (utf8 (SigningString L (NewWithClaims .HS256 c0))) = tag at htok ⊢
  have htaglen : tag.length = 32 := by rw [← htag]; exact hmac_sha256_length _ _
  have htaglt : ∀ b ∈ tag, b < 256 := by rw [← htag]; exact hmac_lt _ _ _
  have hsstr : SigningString L (NewWithClaims .HS256 c0) =
      EncodeSegment (utf8 (L.marshalHeader ⟨some "HS256", some "JWT"⟩)) ++ "." ++
        EncodeSegment (utf8 (L.marshalClaims c0)) := rfl
  generalize hseg0 : EncodeSegment (utf8 (L.marshalHeader ⟨some "HS256", some "JWT"⟩)) = seg0
    at hsstr
  generalize hseg1 : EncodeSegment (utf8 (L.marshalClaims c0)) = seg1 at hsstr
  have h0 : '.' ∉ seg0.data := by rw [← hseg0]; exact EncodeSegment_no_dot _ (utf8_lt _)
  have h1 : '.' ∉ seg1.data := by rw [← hseg1]; exact EncodeSegment_no_dot _ (utf8_lt _)
  have h2 : '.' ∉ (EncodeSegment tag).data := EncodeSegment_no_dot _ htaglt
  have hdec : DecodeSegment (EncodeSegment tag) = some tag := DecodeSegment_EncodeSegment _ htaglt
  have hdata : tok.data = seg0.data ++ '.' :: (seg1.data ++ '.' :: (EncodeSegment tag).data) := by
    rw [htok, hsstr]
    simp [String.data_append]
  have hsdata : (SigningString L (NewWithClaims .HS256 c0)).data = seg0.data ++ '.' :: seg1.data := by
    rw [hsstr]
    simp [String.data_append]
  have hcount : (pre ++ c :: post).count '.' = 2 := by
    rw [← hpos, hdata]
    simp [List.count_append, List.count_cons, List.count_eq_zero.2 h0, List.count_eq_zero.2 h1,
      List.count_eq_zero.2 h2]
  have hB : c = '.' ∨ c2 = '.' →
      ∃ e, ValidateToken L j now (String.mk (pre ++ c2 :: post)) = .error e := by
    intro hdots
    apply ValidateToken_error_of_split
    rw [show (String.mk (pre ++ c2 :: post)).data = pre ++ c2 :: post from rfl, splitOn_length]
    simp only [List.count_append, List.count_cons] at hcount ⊢
    rcases hdots with e | e
    · have hc2 : ¬ (c2 == '.') = true := by
        simp only [beq_iff_eq]
        exact fun h => hne (h.trans e.symm)
      have hc : (c == '.') = true := by simp [e]
      rw [if_pos hc] at hcount
      rw [if_neg hc2]
      omega
    · have hc : ¬ (c == '.') = true := by
        simp only [beq_iff_eq]
        exact fun h => hne (e.trans h.symm)
      have hc2 : (c2 == '.') = true := by simp [e]
      rw [if_neg hc] at hcount
      rw [if_pos hc2]
      omega
  have hC : b64Val c2 = none → c2 ≠ '\r' → c2 ≠ '\n' →
      ∃ e, ValidateToken L j now (String.mk (pre ++ c2 :: post)) = .error e := by
    intro hval hcr hlf
    by_cases hdot : c2 = '.'
    · exact hB (Or.inr hdot)
    · cases hv : ValidateToken L j now (String.mk (pre ++ c2 :: post)) with
      | error e => exact ⟨e, rfl⟩
      | ok claims =>
        rcases (ValidateToken_ok_chars hv).2 c2 (by simp) hdot hval with e | e
        · exact absurd e hcr
        · exact absurd e hlf
  suffices hAD : ('.' ∉ post → c ≠ '.' →
      (∃ e, ValidateToken L j now (String.mk (pre ++ c2 :: post)) = .error e) ∨
      (post = [] ∧ ∃ v v2, b64Val c = some v ∧ b64Val c2 = some v2 ∧ v / 4 = v2 / 4)) ∧
    (post = [] → ∀ v v2, b64Val c = some v → b64Val c2 = some v2 → v / 4 = v2 / 4 →
      ValidateToken L j now (String.mk (pre ++ c2 :: post)) = ValidateToken L j now tok) from
    ⟨hAD.1, hB, hC, hAD.2⟩
  rw [hdata] at hpos
  rcases append_cons_cases pre post seg0.data (seg1.data ++ '.' :: (EncodeSegment tag).data) c '.'
    hpos.symm with ⟨xs2, hx0, hpost⟩ | ⟨hpre, hc, hpost⟩ | ⟨pre2, hpre, hrest⟩
  · -- the change is in the header segment
    exact ⟨fun hpd _ => absurd (by rw [hpost]; simp) hpd,
      fun hnil => by rw [hpost] at hnil; simp at hnil⟩
  · -- the first dot is changed
    exact ⟨fun _ hcd => absurd hc hcd, fun hnil => by rw [hpost] at hnil; simp at hnil⟩
  · rcases append_cons_cases pre2 post seg1.data (EncodeSegment tag).data c '.' hrest.symm with
      ⟨xs2, hx1, hpost⟩ | ⟨hpre2, hc, hpost⟩ | ⟨pre3, hpre3, hsig⟩
    · -- the change is in the claims segment
      exact ⟨fun hpd _ => absurd (by rw [hpost]; simp) hpd,
        fun hnil => by rw [hpost] at hnil; simp at hnil⟩
    · -- the second dot is changed
      exact ⟨fun _ hcd => absurd hc hcd, fun hnil => by
        rw [hpost] at hnil
        have := congrArg List.length hnil
        have hl : (EncodeSegment tag).data.length = 43 := by
          simp [EncodeSegment, b64Sextets_length, htaglen]
        rw [hl] at this
        simp at this⟩
    · -- the change is in the signature segment
      have hpre3n : '.' ∉ pre3 := fun h => h2 (by rw [hsig]; simp [h])
      have hpostn : '.' ∉ post := fun h => h2 (by rw [hsig]; simp [h])
      have hform : pre ++ c2 :: post =
          seg0.data ++ '.' :: (seg1.data ++ '.' :: (pre3 ++ c2 :: post)) := by
        rw [hpre, hpre3]; simp
      have hstr : String.mk (pre ++ c2 :: post) =
          SigningString L (NewWithClaims .HS256 c0) ++ "." ++ String.mk (pre3 ++ c2 :: post) := by
        apply String.ext
        rw [hform, hsstr]
        simp [String.data_append]
      constructor
      · intro _ _
        by_cases hdot : c2 = '.'
        · left
          apply ValidateToken_error_of_split
          rw [show (String.mk (pre ++ c2 :: post)).data = pre ++ c2 :: post from rfl, hform, hdot,
            splitOn_append '.' _ _ h0, splitOn_append '.' _ _ h1, splitOn_two '.' _ _ hpre3n hpostn]
          simp
        · have hnew : '.' ∉ (String.mk (pre3 ++ c2 :: post)).data := by
            show '.' ∉ pre3 ++ c2 :: post
            simp only [List.mem_append, List.mem_cons, not_or]
            exact ⟨hpre3n, fun h => hdot h.symm, hpostn⟩
          by_cases hd : DecodeSegment (String.mk (pre3 ++ c2 :: post)) = some tag
          · right
            exact sig_change tag htaglen htaglt pre3 post c c2 hsig hne hd
          · left
            rw [hstr, ValidateToken_signed L j now c0 _ hjson hnew, htag, if_neg (fun h => hd h.2)]
            exact ⟨_, rfl⟩
      · intro hnil v v2 hv hv2 hsame
        subst hnil
        have hd := sig_last_change tag htaglen htaglt pre3 c c2 v v2 hsig hv hv2 hsame
        have hnew : '.' ∉ (String.mk (pre3 ++ [c2])).data := by
          show '.' ∉ pre3 ++ [c2]
          simp only [List.mem_append, List.mem_singleton, not_or]
          refine ⟨hpre3n, fun h => ?_⟩
          have hnone : b64Val '.' = none := by decide
          rw [← h, hnone] at hv2
          cases hv2
        rw [hstr, htok, ValidateToken_signed L j now c0 _ hjson hnew,
          ValidateToken_signed L j now c0 _ hjson h2, htag, hd, hdec]

set_option maxRecDepth 1000000 in
theorem tampered_token_rejected_witness :
    goJSON.RoundTrips (sampleJWT.claimsFor sampleNow sampleNow 1 "test@example.com") ∧
    GenerateToken goJSON sampleJWT sampleNow sampleNow 1 "test@example.com" =
      .ok (sampleSigningString ++ ".S_L35zTQp_LV5V2kcXwNvXmyhIqPmfgkjLlMy-dHp5g") ∧
    (sampleSigningString ++ ".S_L35zTQp_LV5V2kcXwNvXmyhIqPmfgkjLlMy-dHp5g").data =
      (sampleSigningString ++ ".").data ++ 'S' :: "_L35zTQp_LV5V2kcXwNvXmyhIqPmfgkjLlMy-dHp5g".data ∧
    'T' ≠ 'S' ∧
    (∃ e, ValidateToken goJSON sampleJWT sampleNow (String.mk ((sampleSigningString ++ ".").data ++
      'T' :: "_L35zTQp_LV5V2kcXwNvXmyhIqPmfgkjLlMy-dHp5g".data)) = .error e) ∧
    ValidateToken goJSON sampleJWT sampleNow (sampleHeaderSegment ++ "." ++
      "eyJ1c2VyX2lkIjoyLCJlbWFpbCI6InRlc3RAZXhhbXBsZS5jb20iLCJpc3MiOiJ0" ++
      "ZXN0LWlzc3VlciIsImV4cCI6MTcwMDAwMzYwMCwiaWF0IjoxNzAwMDAwMDAwfQ" ++
      ".S_L35zTQp_LV5V2kcXwNvXmyhIqPmfgkjLlMy-dHp5g") =
        .error (.validation ValidationErrorSignatureInvalid) :=
  ⟨by decide, by decide, by decide, by decide,
    ((tampered_token_rejected goJSON sampleJWT sampleNow sampleNow sampleNow 1 "test@example.com"
      (sampleSigningString ++ ".S_L35zTQp_LV5V2kcXwNvXmyhIqPmfgkjLlMy-dHp5g") (sampleSigningString ++ ".").data
      "_L35zTQp_LV5V2kcXwNvXmyhIqPmfgkjLlMy-dHp5g".data 'S' 'T' (by decide) (by decide) (by decide)
      (by decide)).1 (by decide) (by decide)).resolve_right (fun h => absurd h.1 (by decide)),
    by decide⟩

set_option maxRecDepth 1000000 in
/-- C9 fails as stated: the first token below is the one `GenerateToken` returns, and
the second, which is the first with its last character `g` replaced by `h`, is accepted
by `ValidateToken` under the same key, with the claims of the first. -/
theorem tampered_last_character_accepted :
    GenerateToken goJSON sampleJWT sampleNow sampleNow 1 "test@example.com" =
      .ok (sampleSigningString ++ ".S_L35zTQp_LV5V2kcXwNvXmyhIqPmfgkjLlMy-dHp5g") ∧
    ValidateToken goJSON sampleJWT sampleNow
      (sampleSigningString ++ ".S_L35zTQp_LV5V2kcXwNvXmyhIqPmfgkjLlMy-dHp5h") = .ok sampleClaims := by
  decide

/-! ### Rejected tokens -/

theorem GetSigningMethod_hmac {alg : String} {m : SigningMethod} {p : SHA2}
    (h : GetSigningMethod alg = some m) (hp : m.hash = some p) :
    alg = "HS256" ∨ alg = "HS384" ∨ alg = "HS512" := by
  unfold GetSigningMethod at h
  split_ifs at h with h1 h2 h3 h4
  · exact Or.inl h1
  · exact Or.inr (Or.inl h2)
  · exact Or.inr (Or.inr h3)
  · simp only [Option.some.injEq] at h
    subst h
    simp [SigningMethod.hash] at hp

/-- Every error of `ValidateToken` is a validation error of the token library. -/
theorem ValidateToken_error_validation {L : JSONCodec} {j : JWTService} {now : Int}
    {tokenString : String} {e : Error} (h : ValidateToken L j now tokenString = .error e) :
    ∃ errors, e = .validation errors := by
  unfold ValidateToken at h
  cases hp : ParseWithClaims L tokenString j.keyFunc now with
  | error e2 =>
    simp only [hp, Except.error.injEq] at h
    subst h
    unfold ParseWithClaims at hp
    cases hu : ParseUnverified L tokenString with
    | error e3 =>
      simp only [hu, Except.error.injEq] at hp
      subst hp
      unfold ParseUnverified at hu
      split at hu
      · repeat' split at hu
        all_goals first
          | (simp only [Except.error.injEq] at hu; exact ⟨_, hu.symm⟩)
          | simp at hu
      · simp only [Except.error.injEq] at hu
        exact ⟨_, hu.symm⟩
    | ok r =>
      obtain ⟨token, s0, s1, s2⟩ := r
      simp only [hu] at hp
      split at hp
      · simp only [Except.error.injEq] at hp; exact ⟨_, hp.symm⟩
      · simp only [Except.error.injEq] at hp; exact ⟨_, hp.symm⟩
      · split_ifs at hp
        all_goals
          simp only [Except.error.injEq] at hp
          exact ⟨_, hp.symm⟩
  | ok token =>
    simp only [hp] at h
    unfold ParseWithClaims at hp
    cases hu : ParseUnverified L tokenString with
    | error e3 => simp [hu] at hp
    | ok r =>
      obtain ⟨t0, s0, s1, s2⟩ := r
      simp only [hu] at hp
      split at hp
      · simp at hp
      · simp at hp
      · split_ifs at hp
        all_goals
          simp only [Except.ok.injEq] at hp
          subst hp
          simp at h


/-- C11. Signing-method confusion is rejected. A token whose header segment decodes to a
header that declares no HMAC method (an algorithm other than HS256, HS384 and HS512,
such as "none", "RS256" or "ES256", or none at all) is rejected by `ValidateToken`
with a validation error, whatever follows the header segment; and the key function of
`ValidateToken` returns the secret key only for a token whose method is an HMAC
method, so the key is never passed to the verifier of another method. -/
theorem non_hmac_algorithm_rejected (L : JSONCodec) (j : JWTService) (now : Int)
    (s0 rest : String) (headerBytes : List Nat) (header : Header)
    (hs0 : '.' ∉ s0.data) (hdec : DecodeSegment s0 = some headerBytes)
    (hjson : L.unmarshalHeader headerBytes = some header)
    (halg : header.alg ≠ some "HS256" ∧ header.alg ≠ some "HS384" ∧
      header.alg ≠ some "HS512") :
    (∃ errors, ValidateToken L j now (s0 ++ "." ++ rest) = .error (.validation errors)) ∧
    (∀ (token : Token) (key : List Nat), j.keyFunc token = .ok key →
      token.Method = .HS256 ∨ token.Method = .HS384 ∨ token.Method = .HS512) ∧
    (∀ token : Token, GetSigningMethod (header.alg.getD "") = some token.Method →
      ∃ e, j.keyFunc token = .error e) := by
  refine ⟨?_, ?_, ?_⟩
  · cases hv : ValidateToken L j now (s0 ++ "." ++ rest) with
    | error e =>
      obtain ⟨errors, he⟩ := ValidateToken_error_validation hv
      exact ⟨errors, by rw [he]⟩
    | ok claims =>
      exfalso
      obtain ⟨t0, t1, t2, method, p, hsplit, hhash, ⟨hb, hdr, alg, hd0, hu0, ha, hm⟩, _⟩ :=
        ValidateToken_ok_inv hv
      have hdata : (s0 ++ "." ++ rest).data = s0.data ++ '.' :: rest.data := by
        simp [String.data_append]
      rw [hdata, splitOn_append '.' _ _ hs0] at hsplit
      simp only [List.cons.injEq] at hsplit
      have ht0 : t0 = s0 := String.ext hsplit.1.symm
      subst ht0
      rw [hdec] at hd0
      simp only [Option.some.injEq] at hd0
      subst hd0
      rw [hjson] at hu0
      simp only [Option.some.injEq] at hu0
      subst hu0
      rcases GetSigningMethod_hmac hm hhash with h | h | h <;> subst h
      · exact halg.1 ha
      · exact halg.2.1 ha
      · exact halg.2.2 ha
  · intro token key hk
    unfold JWTService.keyFunc at hk
    cases hm : token.Method with
    | HS256 => exact Or.inl rfl
    | HS384 => exact Or.inr (Or.inl rfl)
    | HS512 => exact Or.inr (Or.inr rfl)
    | other alg => simp [hm, SigningMethod.isHMAC, SigningMethod.hash] at hk
  · intro token hm
    have hnot : token.Method.isHMAC = false := by
      cases hh : token.Method.hash with
      | none => simp [SigningMethod.isHMAC, hh]
      | some p =>
        exfalso
        cases ha : header.alg with
        | none =>
          rw [ha] at hm
          simp only [Option.getD_none] at hm
          have : GetSigningMethod "" = none := by decide
          rw [this] at hm
          cases hm
        | some alg =>
          rw [ha] at hm halg
          simp only [Option.getD_some] at hm
          rcases GetSigningMethod_hmac hm hh with h | h | h <;> subst h
          · exact halg.1 rfl
          · exact halg.2.1 rfl
          · exact halg.2.2 rfl
    exact ⟨.new ("unexpected signing method: " ++ token.Header.alg.getD ""),
      by simp [JWTService.keyFunc, hnot]⟩

theorem non_hmac_algorithm_rejected_witness :
    '.' ∉ "eyJhbGciOiJub25lIiwidHlwIjoiSldUIn0".data ∧
    DecodeSegment "eyJhbGciOiJub25lIiwidHlwIjoiSldUIn0" =
      some (utf8 "\x7b\"alg\":\"none\",\"typ\":\"JWT\"\x7d") ∧
    goJSON.unmarshalHeader (utf8 "\x7b\"alg\":\"none\",\"typ\":\"JWT\"\x7d") =
      some ⟨some "none", some "JWT"⟩ ∧
    ((⟨some "none", some "JWT"⟩ : Header).alg ≠ some "HS256" ∧
      (⟨some "none", some "JWT"⟩ : Header).alg ≠ some "HS384" ∧
      (⟨some "none", some "JWT"⟩ : Header).alg ≠ some "HS512") ∧
    ∃ errors, ValidateToken goJSON sampleJWT sampleNow
      ("eyJhbGciOiJub25lIiwidHlwIjoiSldUIn0" ++ "." ++
        "eyJ1c2VyX2lkIjoxfQ.") = .error (.validation errors) :=
  ⟨by decide, by decide, by decide, by decide,
    (non_hmac_algorithm_rejected goJSON sampleJWT sampleNow
      "eyJhbGciOiJub25lIiwidHlwIjoiSldUIn0" "eyJ1c2VyX2lkIjoxfQ."
      (utf8 "\x7b\"alg\":\"none\",\"typ\":\"JWT\"\x7d") ⟨some "none", some "JWT"⟩
      (by decide) (by decide) (by decide) (by decide)).1⟩

/-- C12. A string that is not a well-formed token (it does not split at its dots into
three segments that decode as base64url, the first to bytes that the JSON layer reads
as a header and the second to bytes that it reads as a claim set) is rejected by
`ValidateToken` with a validation error; and every call returns either claims and no
error or an error and no claims, never both and never neither. -/
theorem malformed_token_rejected (L : JSONCodec) (j : JWTService) (now : Int)
    (tokenString : String) :
    ((¬ ∃ (s0 s1 s2 : List Char) (headerBytes claimBytes sig : List Nat) (header : Header)
        (claims : Claims),
        splitOn '.' tokenString.data = [s0, s1, s2] ∧
        DecodeSegment (String.mk s0) = some headerBytes ∧
        L.unmarshalHeader headerBytes = some header ∧
        DecodeSegment (String.mk s1) = some claimBytes ∧
        L.unmarshalClaims claimBytes = some claims ∧
        DecodeSegment (String.mk s2) = some sig) →
      ∃ errors, ValidateToken L j now tokenString = .error (.validation errors)) ∧
    ((∃ claims, ValidateToken L j now tokenString = .ok claims) ↔
      ¬ ∃ e, ValidateToken L j now tokenString = .error e) := by
  constructor
  · intro hnot
    cases hv : ValidateToken L j now tokenString with
    | error e =>
      obtain ⟨errors, he⟩ := ValidateToken_error_validation hv
      exact ⟨errors, by rw [he]⟩
    | ok claims =>
      exfalso
      obtain ⟨t0, t1, t2, method, p, hsplit, hhash, ⟨hb, hdr, alg, hd0, hu0, ha, hm⟩,
        ⟨cb, hd1, hu1⟩, _, hd2⟩ := ValidateToken_ok_inv hv
      exact hnot ⟨t0.data, t1.data, t2.data, hb, cb, _, hdr, claims, hsplit, hd0, hu0, hd1, hu1,
        hd2⟩
  · cases hv : ValidateToken L j now tokenString with
    | error e => simp
    | ok claims => simp

theorem malformed_token_rejected_witness :
    (∃ errors, ValidateToken goJSON sampleJWT sampleNow "invalid.token.string" =
      .error (.validation errors)) ∧
    (∃ errors, ValidateToken goJSON sampleJWT sampleNow "" = .error (.validation errors)) := by
  constructor
  · apply (malformed_token_rejected goJSON sampleJWT sampleNow "invalid.token.string").1
    rintro ⟨s0, s1, s2, hb, cb, sig, hdr, cl, hsplit, hd0, hu0, _⟩
    have h1 : splitOn '.' "invalid.token.string".data =
        ["invalid".data, "token".data, "string".data] := by decide
    rw [h1] at hsplit
    simp only [List.cons.injEq, and_true] at hsplit
    obtain ⟨e0, _, _⟩ := hsplit
    subst e0
    have h2 : DecodeSegment (String.mk "invalid".data) = some [138, 123, 218, 150, 39] := by decide
    rw [h2] at hd0
    simp only [Option.some.injEq] at hd0
    subst hd0
    have h3 : goJSON.unmarshalHeader [138, 123, 218, 150, 39] = none := by decide
    rw [h3] at hu0
    cases hu0
  · apply (malformed_token_rejected goJSON sampleJWT sampleNow "").1
    rintro ⟨s0, s1, s2, hb, cb, sig, hdr, cl, hsplit, _⟩
    have h1 : splitOn '.' "".data = [[]] := by decide
    rw [h1] at hsplit
    simp at hsplit

theorem splitOn_bearer (tok : String) (h : ' ' ∉ tok.data) :
    (splitOn ' ' ("Bearer " ++ tok).data).map String.mk = ["Bearer", tok] := by
  have hdata : ("Bearer " ++ tok).data = "Bearer".data ++ ' ' :: tok.data := by
    simp [String.data_append]
  rw [hdata, splitOn_two ' ' _ _ (by decide) h]
  rfl

/-- The answer of `AuthMiddleware` to a bearer token that `ValidateToken` rejects. -/
theorem AuthMiddleware_rejected (L : JSONCodec) (j : JWTService)
    (getUserByID : Nat → Except Error User) (now : Int) (tok : String) (e : Error)
    (hsp : ' ' ∉ tok.data) (hrej : ValidateToken L j now tok = .error e) :
    AuthMiddleware L j getUserByID now ("Bearer " ++ tok) =
      ⟨.abort ⟨401, "Invalid or expired token"⟩, none, none, []⟩ := by
  have hne : ("Bearer " ++ tok) ≠ "" := by
    intro h
    have := congrArg String.data h
    simp [String.data_append] at this
  unfold AuthMiddleware
  rw [if_neg hne, splitOn_bearer tok hsp]
  simp [hrej]

/-- C13. Uniform answer to a rejected token. For every header `Bearer <token>` whose token
`ValidateToken` rejects, for whatever reason, `AuthMiddleware` aborts with status 401
and the error text "Invalid or expired token", stores nothing in the context, makes
no call of `GetUserByID` and does not hand the request on; two rejected tokens get
the same answer, whatever their errors, the service behind the lookup and the clock. -/
theorem authMiddleware_rejected_uniform (L : JSONCodec) (j : JWTService)
    (getUserByID : Nat → Except Error User) (now : Int) (tok : String) (e : Error)
    (hsp : ' ' ∉ tok.data) (hrej : ValidateToken L j now tok = .error e) :
    AuthMiddleware L j getUserByID now ("Bearer " ++ tok) =
      ⟨.abort ⟨401, "Invalid or expired token"⟩, none, none, []⟩ ∧
    (AuthMiddleware L j getUserByID now ("Bearer " ++ tok)).gate ≠ .next ∧
    (AuthMiddleware L j getUserByID now ("Bearer " ++ tok)).lookups = [] ∧
    (∀ (getUserByID2 : Nat → Except Error User) (now2 : Int) (tok2 : String) (e2 : Error),
      ' ' ∉ tok2.data → ValidateToken L j now2 tok2 = .error e2 →
      AuthMiddleware L j getUserByID2 now2 ("Bearer " ++ tok2) =
        AuthMiddleware L j getUserByID now ("Bearer " ++ tok)) := by
  have h := AuthMiddleware_rejected L j getUserByID now tok e hsp hrej
  refine ⟨h, by rw [h]; simp, by rw [h], ?_⟩
  intro g2 now2 tok2 e2 hsp2 hrej2
  rw [h, AuthMiddleware_rejected L j g2 now2 tok2 e2 hsp2 hrej2]

theorem authMiddleware_rejected_uniform_witness :
    ' ' ∉ "invalid.token.string".data ∧
    ValidateToken goJSON sampleJWT sampleNow "invalid.token.string" =
      .error (.validation ValidationErrorMalformed) ∧
    AuthMiddleware goJSON sampleJWT (GetUserByID sampleDB) sampleNow
        ("Bearer " ++ "invalid.token.string") =
      ⟨.abort ⟨401, "Invalid or expired token"⟩, none, none, []⟩ :=
  ⟨by decide, by decide,
    (authMiddleware_rejected_uniform goJSON sampleJWT (GetUserByID sampleDB) sampleNow
      "invalid.token.string" (.validation ValidationErrorMalformed) (by decide) (by decide)).1⟩

/-! ### What acceptance depends on -/

/-- Validation of a token that parses and names an HMAC method: accepted with the parsed
claims when they are valid at `now` and the signature verifies under the service's
key, rejected with a validation error otherwise. -/
theorem ValidateToken_of_parse {L : JSONCodec} {tokenString : String} {token : Token}
    {s0 s1 s2 : String} (j : JWTService) (now : Int)
    (hparse : ParseUnverified L tokenString = .ok (token, s0, s1, s2))
    (hhmac : token.Method.isHMAC = true) :
    ValidateToken L j now tokenString =
      if token.Claims.toRegisteredClaims.Valid now = 0 ∧
          token.Method.Verify (s0 ++ "." ++ s1) s2 (utf8 j.secretKey) = true then
        .ok token.Claims
      else .error (.validation (token.Claims.toRegisteredClaims.Valid now +
        if token.Method.Verify (s0 ++ "." ++ s1) s2 (utf8 j.secretKey) = true then 0
        else ValidationErrorSignatureInvalid)) := by
  unfold ValidateToken ParseWithClaims
  simp only [hparse, JWTService.keyFunc, hhmac, Bool.not_true, Bool.false_eq_true, if_false]
  by_cases hver : token.Method.Verify (s0 ++ "." ++ s1) s2 (utf8 j.secretKey) = true
  · by_cases hv : token.Claims.toRegisteredClaims.Valid now = 0
    · simp [hver, hv]
    · simp [hver, hv]
  · simp [hver, ValidationErrorSignatureInvalid]

theorem verifyExp_iff (exp : Option Int) (now : Int) :
    verifyExp exp now = true ↔ ∀ t, exp = some t → now < t := by
  cases exp <;> simp [verifyExp]

theorem verifyIat_iff (iat : Option Int) (now : Int) :
    verifyIat iat now = true ↔ ∀ t, iat = some t → t ≤ now := by
  cases iat <;> simp [verifyIat]

theorem verifyNbf_iff (nbf : Option Int) (now : Int) :
    verifyNbf nbf now = true ↔ ∀ t, nbf = some t → t ≤ now := by
  cases nbf <;> simp [verifyNbf]

/-- C14, as the code has it. For a token that parses and names an HMAC method,
`ValidateToken` accepts at the clock reading `now` exactly when the signature verifies
under the service's key and `now` is not before the issued-at date, not before the
not-before date and before the expiry date (a date that the token does not carry is
not checked); the accepted claims are the parsed ones. Nothing else enters: a service
with the same key and any other issuer or duration answers the same, and a token whose
expiry has passed is rejected at every later clock reading. -/
theorem validateToken_accepts_iff (L : JSONCodec) (j : JWTService) (now : Int)
    (tokenString : String) (token : Token) (s0 s1 s2 : String)
    (hparse : ParseUnverified L tokenString = .ok (token, s0, s1, s2))
    (hhmac : token.Method.isHMAC = true) :
    ((∃ claims, ValidateToken L j now tokenString = .ok claims) ↔
      token.Method.Verify (s0 ++ "." ++ s1) s2 (utf8 j.secretKey) = true ∧
      (∀ t, token.Claims.IssuedAt = some t → t ≤ now) ∧
      (∀ t, token.Claims.NotBefore = some t → t ≤ now) ∧
      (∀ t, token.Claims.ExpiresAt = some t → now < t)) ∧
    (∀ claims, ValidateToken L j now tokenString = .ok claims → claims = token.Claims) ∧
    (∀ j2 : JWTService, j2.secretKey = j.secretKey →
      ValidateToken L j2 now tokenString = ValidateToken L j now tokenString) ∧
    (∀ t later, token.Claims.ExpiresAt = some t → t ≤ now → now ≤ later →
      ∃ e, ValidateToken L j later tokenString = .error e) := by
  have hval := ValidateToken_of_parse j now hparse hhmac
  refine ⟨?_, ?_, ?_, ?_⟩
  · rw [hval, ← verifyIat_iff, ← verifyNbf_iff, ← verifyExp_iff]
    by_cases hc : token.Claims.toRegisteredClaims.Valid now = 0 ∧
        token.Method.Verify (s0 ++ "." ++ s1) s2 (utf8 j.secretKey) = true
    · rw [if_pos hc]
      have := (Valid_eq_zero_iff _ _).mp hc.1
      simp [hc.2, this.1, this.2.1, this.2.2]
    · rw [if_neg hc]
      simp only [exists_false, false_iff, reduceCtorEq]
      intro h
      exact hc ⟨(Valid_eq_zero_iff _ _).mpr ⟨h.2.2.2, h.2.1, h.2.2.1⟩, h.1⟩
  · intro claims h
    rw [hval] at h
    split_ifs at h
    exact (Except.ok.inj h).symm
  · intro j2 hk
    rw [hval, ValidateToken_of_parse j2 now hparse hhmac, hk]
  · intro t later hexp hle hlater
    rw [ValidateToken_of_parse j later hparse hhmac]
    have hnv : ¬ token.Claims.toRegisteredClaims.Valid later = 0 := by
      rw [Valid_eq_zero_iff, verifyExp_iff]
      intro h
      have := h.1 t hexp
      omega
    rw [if_neg (fun h => hnv h.1)]
    exact ⟨_, rfl⟩


set_option maxRecDepth 1000000 in
theorem validateToken_accepts_iff_witness :
    ParseUnverified goJSON (sampleHeaderSegment ++ "." ++ sampleClaimsSegment ++ ".S_L35zTQp_LV5V2kcXwNvXmyhIqPmfgkjLlMy-dHp5g") =
      .ok (NewWithClaims .HS256 sampleClaims, sampleHeaderSegment, sampleClaimsSegment,
        "S_L35zTQp_LV5V2kcXwNvXmyhIqPmfgkjLlMy-dHp5g") ∧
    (NewWithClaims .HS256 sampleClaims).Method.isHMAC = true ∧
    ((∃ claims, ValidateToken goJSON sampleJWT sampleNow
        (sampleHeaderSegment ++ "." ++ sampleClaimsSegment ++ ".S_L35zTQp_LV5V2kcXwNvXmyhIqPmfgkjLlMy-dHp5g") = .ok claims) ↔
      (NewWithClaims .HS256 sampleClaims).Method.Verify
        (sampleHeaderSegment ++ "." ++ sampleClaimsSegment) "S_L35zTQp_LV5V2kcXwNvXmyhIqPmfgkjLlMy-dHp5g"
        (utf8 sampleJWT.secretKey) = true ∧
      (∀ t, (NewWithClaims .HS256 sampleClaims).Claims.IssuedAt = some t → t ≤ sampleNow) ∧
      (∀ t, (NewWithClaims .HS256 sampleClaims).Claims.NotBefore = some t → t ≤ sampleNow) ∧
      (∀ t, (NewWithClaims .HS256 sampleClaims).Claims.ExpiresAt = some t → sampleNow < t)) :=
  ⟨by decide, by decide,
    (validateToken_accepts_iff goJSON sampleJWT sampleNow
      (sampleHeaderSegment ++ "." ++ sampleClaimsSegment ++ ".S_L35zTQp_LV5V2kcXwNvXmyhIqPmfgkjLlMy-dHp5g")
      (NewWithClaims .HS256 sampleClaims) sampleHeaderSegment sampleClaimsSegment
      "S_L35zTQp_LV5V2kcXwNvXmyhIqPmfgkjLlMy-dHp5g" (by decide) (by decide)).1⟩

set_option maxRecDepth 1000000 in
/-- C14 fails as stated: the token below parses, names HS256, carries a signature that
verifies under the key of the sample service, and the clock reading is not before its
issued-at date and is before its expiry date; `ValidateToken` rejects it, because the
clock reading is before its not-before date. -/
theorem not_yet_valid_token_rejected :
    ParseUnverified goJSON (sampleHeaderSegment ++ "." ++ notYetValidClaimsSegment ++ ".P0hB1GJ4vJV1XAFK-iAebsCKJobZju-Mmd1pEcMVZdQ") =
      .ok (NewWithClaims .HS256 notYetValidClaims, sampleHeaderSegment,
        notYetValidClaimsSegment, "P0hB1GJ4vJV1XAFK-iAebsCKJobZju-Mmd1pEcMVZdQ") ∧
    SigningMethod.HS256.Verify (sampleHeaderSegment ++ "." ++ notYetValidClaimsSegment)
      "P0hB1GJ4vJV1XAFK-iAebsCKJobZju-Mmd1pEcMVZdQ" (utf8 sampleJWT.secretKey) = true ∧
    notYetValidClaims.IssuedAt = some 1700000000000000000 ∧
    (1700000000000000000 : Int) ≤ sampleNow ∧
    notYetValidClaims.ExpiresAt = some 1700003600000000000 ∧
    sampleNow < (1700003600000000000 : Int) ∧
    ValidateToken goJSON sampleJWT sampleNow
        (sampleHeaderSegment ++ "." ++ notYetValidClaimsSegment ++ ".P0hB1GJ4vJV1XAFK-iAebsCKJobZju-Mmd1pEcMVZdQ") =
      .error (.validation ValidationErrorNotValidYet) := by
  decide

/-! ### The claim set of an issued token -/

/-- C15, as the code has it. The token that `GenerateToken(id, email)` returns parses to a
claim set with `UserID = id`, `Email = email`, the configured issuer, an issued-at
date that is the second clock reading truncated to the second, and an expiry date that
is the first clock reading plus the configured duration, truncated to the second. The
expiry is the issued-at date plus the duration when the duration is a whole number of
seconds and both clock readings fall in the same second; for any duration and two
clock readings in the same second, the expiry minus the issued-at date differs from the
duration by less than a second; and for any duration and any two clock readings it lies
strictly between the duration minus a second and the duration plus a second, both less
the time from the first reading to the second. -/
theorem generateToken_claims (L : JSONCodec) (j : JWTService) (now1 now2 : Int)
    (userID : Nat) (email : String)
    (hjson : L.RoundTrips (j.claimsFor now1 now2 userID email)) :
    ∃ (tok : String) (token : Token) (s0 s1 s2 : String) (exp iat : Int),
      GenerateToken L j now1 now2 userID email = .ok tok ∧
      ParseUnverified L tok = .ok (token, s0, s1, s2) ∧
      token.Claims.UserID = userID ∧ token.Claims.Email = email ∧
      token.Claims.Issuer = j.issuer ∧
      token.Claims.IssuedAt = some iat ∧ iat = now2 / 1000000000 * 1000000000 ∧
      token.Claims.ExpiresAt = some exp ∧
      exp = (now1 + j.tokenDuration) / 1000000000 * 1000000000 ∧
      (j.tokenDuration % 1000000000 = 0 → now1 / 1000000000 = now2 / 1000000000 →
        exp - iat = j.tokenDuration) ∧
      (now1 / 1000000000 = now2 / 1000000000 →
        j.tokenDuration - 1000000000 < exp - iat ∧
        exp - iat < j.tokenDuration + 1000000000) ∧
      (j.tokenDuration - 1000000000 - (now2 - now1) < exp - iat ∧
        exp - iat < j.tokenDuration + 1000000000 - (now2 - now1)) := by
  refine ⟨_, _, _, _, _, _, _, GenerateToken_eq L j now1 now2 userID email,
    ParseUnverified_signed L _ _ hjson (EncodeSegment_no_dot _ (hmac_lt _ _ _)),
    rfl, rfl, rfl, rfl, rfl, rfl, rfl, ?_, ?_, ?_⟩
  · intro hd hsame
    unfold NewNumericDate
    omega
  · intro hsame
    unfold NewNumericDate
    omega
  · unfold NewNumericDate
    omega

theorem generateToken_claims_witness :
    goJSON.RoundTrips (sampleJWT.claimsFor sampleNow (sampleNow + 5) 1 "test@example.com") ∧
    ∃ (tok : String) (token : Token) (s0 s1 s2 : String) (exp iat : Int),
      GenerateToken goJSON sampleJWT sampleNow (sampleNow + 5) 1 "test@example.com" = .ok tok ∧
      ParseUnverified goJSON tok = .ok (token, s0, s1, s2) ∧
      token.Claims.UserID = 1 ∧ token.Claims.Email = "test@example.com" ∧
      token.Claims.Issuer = sampleJWT.issuer ∧
      token.Claims.IssuedAt = some iat ∧ iat = (sampleNow + 5) / 1000000000 * 1000000000 ∧
      token.Claims.ExpiresAt = some exp ∧
      exp = (sampleNow + sampleJWT.tokenDuration) / 1000000000 * 1000000000 ∧
      (sampleJWT.tokenDuration % 1000000000 = 0 →
        sampleNow / 1000000000 = (sampleNow + 5) / 1000000000 →
        exp - iat = sampleJWT.tokenDuration) ∧
      (sampleNow / 1000000000 = (sampleNow + 5) / 1000000000 →
        sampleJWT.tokenDuration - 1000000000 < exp - iat ∧
        exp - iat < sampleJWT.tokenDuration + 1000000000) ∧
      (sampleJWT.tokenDuration - 1000000000 - (sampleNow + 5 - sampleNow) < exp - iat ∧
        exp - iat < sampleJWT.tokenDuration + 1000000000 - (sampleNow + 5 - sampleNow)) :=
  ⟨by decide,
    generateToken_claims goJSON sampleJWT sampleNow (sampleNow + 5) 1 "test@example.com"
      (by decide)⟩

/-- C15 fails as stated: for a service with a duration of one second and a half, the
claim set built at the clock reading 1700000000.2 s has an expiry one second after
its issued-at date, and the one built at 1700000000.6 s an expiry two seconds after
it; neither difference is the configured duration. And for a service with a duration of
one hour, the claim set built from the clock readings 1700000000.999999999 s and, two
nanoseconds later, 1700000001.000000001 s has an expiry 3599 seconds after its
issued-at date. -/
theorem expiry_minus_issuedAt_counterexample :
    ((NewJWTService "test-secret-key" "test-issuer" 1500000000).claimsFor
        1700000000200000000 1700000000200000000 1 "test@example.com").ExpiresAt =
      some 1700000001000000000 ∧
    ((NewJWTService "test-secret-key" "test-issuer" 1500000000).claimsFor
        1700000000200000000 1700000000200000000 1 "test@example.com").IssuedAt =
      some 1700000000000000000 ∧
    ((NewJWTService "test-secret-key" "test-issuer" 1500000000).claimsFor
        1700000000600000000 1700000000600000000 1 "test@example.com").ExpiresAt =
      some 1700000002000000000 ∧
    ((NewJWTService "test-secret-key" "test-issuer" 1500000000).claimsFor
        1700000000600000000 1700000000600000000 1 "test@example.com").IssuedAt =
      some 1700000000000000000 ∧
    (1700000001000000000 - 1700000000000000000 : Int) ≠
      (NewJWTService "test-secret-key" "test-issuer" 1500000000).tokenDuration ∧
    (1700000002000000000 - 1700000000000000000 : Int) ≠
      (NewJWTService "test-secret-key" "test-issuer" 1500000000).tokenDuration ∧
    (sampleJWT.claimsFor 1700000000999999999 1700000001000000001 1 "test@example.com").ExpiresAt =
      some 1700003600000000000 ∧
    (sampleJWT.claimsFor 1700000000999999999 1700000001000000001 1 "test@example.com").IssuedAt =
      some 1700000001000000000 ∧
    sampleJWT.tokenDuration = 3600000000000 ∧
    (1700003600000000000 - 1700000001000000000 : Int) = 3599000000000 := by
  decide

/-! ### Gates and handlers -/

/-- C16, as the code has it. When `HasPermission` fails because the user cannot be loaded,
`RequirePermission` answers 500 with the text "Failed to check permissions", for the
error `gorm.ErrRecordNotFound` and for every other error of the store alike; what it
tells apart is a failed lookup (500) from a user that is loaded and lacks the
permission (403). -/
theorem requirePermission_lookup_failure (db : DB) (resource action : String) (userID : Nat) :
    (∀ e, db.First (fun u => u.ID == userID) = .error e →
      RequirePermission (HasPermission db) resource action (some userID) =
        .abort ⟨500, "Failed to check permissions"⟩) ∧
    (db.fault = none → (∀ u ∈ db.users, u.ID ≠ userID) →
      RequirePermission (HasPermission db) resource action (some userID) =
        .abort ⟨500, "Failed to check permissions"⟩) ∧
    (∀ msg, db.fault = some msg →
      RequirePermission (HasPermission db) resource action (some userID) =
        .abort ⟨500, "Failed to check permissions"⟩) ∧
    (∀ u, db.First (fun u => u.ID == userID) = .ok u →
      roleLoop resource action u.Roles = false →
      RequirePermission (HasPermission db) resource action (some userID) =
        .abort ⟨403, "Permission denied"⟩) := by
  have key : ∀ e, db.First (fun u => u.ID == userID) = .error e →
      RequirePermission (HasPermission db) resource action (some userID) =
        .abort ⟨500, "Failed to check permissions"⟩ := by
    intro e he
    simp [RequirePermission, HasPermission_of_error resource action he]
  refine ⟨key, ?_, ?_, ?_⟩
  · intro hf hno
    exact key _ (First_notFound hf (fun u hu => by simpa using hno u hu))
  · intro msg hf
    exact key _ (First_fault hf)
  · intro u hload hno
    simp [RequirePermission, HasPermission_of_load resource action hload, hno]

/-- C16 fails as stated: for a user id that the sample store does not hold the lookup
fails with `gorm.ErrRecordNotFound`, in a store with a fault it fails with the fault's
error, and `RequirePermission` gives the same answer to both. -/
theorem requirePermission_conflates_failures :
    (HasPermission sampleDB 99 "users" "read").2 = some .recordNotFound ∧
    (HasPermission ⟨sampleDB.users, some "connection refused"⟩ 99 "users" "read").2 =
      some (.store "connection refused") ∧
    RequirePermission (HasPermission sampleDB) "users" "read" (some 99) =
      RequirePermission (HasPermission ⟨sampleDB.users, some "connection refused"⟩)
        "users" "read" (some 99) := by
  decide

/-- What the login handler answers when `Login` returns an error: 401 with the text of
that error, which is the uniform text "invalid username or password" for an unknown
user name and for a password that does not verify, and the store's own error text for
a fault of the store during the lookup. -/
theorem loginHandler_failure (L : JSONCodec) (bc : Bcrypt) (db : DB) (j : JWTService)
    (now1 now2 : Int) (req : LoginRequest) :
    (∀ e, Login L bc db j now1 now2 req = .error e →
      AuthHandler.Login L bc db j now1 now2 (.ok req) = .failure ⟨401, e.message⟩) ∧
    (db.fault = none → (∀ v ∈ db.users, v.Username ≠ req.Username) →
      AuthHandler.Login L bc db j now1 now2 (.ok req) =
        .failure ⟨401, "invalid username or password"⟩) ∧
    (∀ u, db.First (fun v => v.Username == req.Username) = .ok u →
      u.CheckPassword bc req.Password = false →
      AuthHandler.Login L bc db j now1 now2 (.ok req) =
        .failure ⟨401, "invalid username or password"⟩) ∧
    (∀ msg, db.fault = some msg →
      AuthHandler.Login L bc db j now1 now2 (.ok req) = .failure ⟨401, msg⟩) := by
  refine ⟨?_, ?_, ?_, ?_⟩
  · intro e he
    simp [AuthHandler.Login, he]
  · intro hf hno
    have hq : db.First (fun v => v.Username == req.Username) = .error .recordNotFound :=
      First_notFound hf (fun v hv => by simpa using hno v hv)
    simp [AuthHandler.Login, Login, hq, Error.message]
  · intro u hq hbad
    simp [AuthHandler.Login, Login, hq, hbad, Error.message]
  · intro msg hf
    have hq : db.First (fun v => v.Username == req.Username) = .error (.store msg) :=
      First_fault hf
    simp [AuthHandler.Login, Login, hq, Error.message]

/-- C17, at the failing input. With a store whose queries fail with a driver error,
`Login` returns that error as it is, and the handler answers the login with status 401
and the driver error as its text, not with the uniform message. -/
theorem loginHandler_leaks_store_error :
    Login goJSON sampleBcrypt
        ⟨sampleDB.users, some "dial tcp 10.0.0.5:5432: connect: connection refused"⟩
        sampleJWT sampleNow sampleNow ⟨"admin", "admin123"⟩ =
      .error (.store "dial tcp 10.0.0.5:5432: connect: connection refused") ∧
    AuthHandler.Login goJSON sampleBcrypt
        ⟨sampleDB.users, some "dial tcp 10.0.0.5:5432: connect: connection refused"⟩
        sampleJWT sampleNow sampleNow (.ok ⟨"admin", "admin123"⟩) =
      .failure ⟨401, "dial tcp 10.0.0.5:5432: connect: connection refused"⟩ ∧
    "dial tcp 10.0.0.5:5432: connect: connection refused" ≠ "invalid username or password" := by
  decide

/-! ### The sanitized projection of a user -/

/-- C18. The map that `ToResponse` returns has exactly the keys "id", "username", "email",
"full_name" and "roles", each with the corresponding field of the user; it has no key
"password", "created_at" or "updated_at"; and it does not depend on the user's
`Password`, `CreatedAt` or `UpdatedAt`: users that differ only there have the same
map. -/
theorem toResponse_fields (u : User) :
    u.ToResponse.map Prod.fst = ["id", "username", "email", "full_name", "roles"] ∧
    u.ToResponse.lookup "id" = some (.uint u.ID) ∧
    u.ToResponse.lookup "username" = some (.str u.Username) ∧
    u.ToResponse.lookup "email" = some (.str u.Email) ∧
    u.ToResponse.lookup "full_name" = some (.str u.FullName) ∧
    u.ToResponse.lookup "roles" = some (.roles u.Roles) ∧
    u.ToResponse.lookup "password" = none ∧
    u.ToResponse.lookup "created_at" = none ∧
    u.ToResponse.lookup "updated_at" = none ∧
    (∀ (password : String) (createdAt updatedAt : Int),
      ({ u with Password := password, CreatedAt := createdAt, UpdatedAt := updatedAt } :
        User).ToResponse = u.ToResponse) := by
  refine ⟨rfl, ?_, ?_, ?_, ?_, ?_, ?_, ?_, ?_, fun _ _ _ => rfl⟩ <;>
    simp [User.ToResponse, List.lookup]

/-! ### The password hasher -/

theorem bcByte_plain : ∀ v < 64,
    bcVal (bcByte v) = some v ∧ bcByte v < 128 ∧ bcByte v ≠ 13 ∧ bcByte v ≠ 10 := by decide

theorem bcVals_map_bcByte (vs : List Nat) (h : ∀ v ∈ vs, v < 64) :
    bcVals (vs.map bcByte) = some vs := by
  induction vs with
  | nil => rfl
  | cons v rest ih =>
    have hv := (bcByte_plain v (h v (by simp))).1
    have ih2 := ih (fun c hc => h c (by simp [hc]))
    simp only [List.map_cons, bcVals, hv, ih2]

theorem base64Encode_length (bs : List Nat) :
    (base64Encode bs).length = (4 * bs.length + 2) / 3 := by
  simp [base64Encode, b64Sextets_length]

theorem base64Encode_lt (bs : List Nat) (h : ∀ b ∈ bs, b < 256) :
    ∀ b ∈ base64Encode bs, b < 128 := by
  intro b hb
  simp only [base64Encode, List.mem_map] at hb
  obtain ⟨v, hv, rfl⟩ := hb
  exact (bcByte_plain v (b64Sextets_lt bs h v hv)).2.1

theorem base64Decode_base64Encode (bs : List Nat) (h : ∀ b ∈ bs, b < 256)
    (hlen : bs.length = 16) : base64Decode (base64Encode bs) = some bs := by
  have hfilter : (base64Encode bs).filter (fun b => b != 13 && b != 10) = base64Encode bs := by
    rw [List.filter_eq_self]
    intro b hb
    simp only [base64Encode, List.mem_map] at hb
    obtain ⟨v, hv, rfl⟩ := hb
    have := bcByte_plain v (b64Sextets_lt bs h v hv)
    simp [this.2.2.1, this.2.2.2]
  have hvals : bcVals (base64Encode bs) = some (b64Sextets bs) :=
    bcVals_map_bcByte _ (b64Sextets_lt bs h)
  have hl : (b64Sextets bs).length % 4 = 2 := by rw [b64Sextets_length, hlen]
  simp only [base64Decode, hfilter, hvals, hl, if_true]
  exact b64Bytes_b64Sextets bs h

theorem Encrypt_length (c : Cipher) (src : List Nat) : (c.Encrypt src).length = 8 := by
  simp [Cipher.Encrypt, beBytes]

theorem Encrypt_lt (c : Cipher) (src : List Nat) : ∀ b ∈ c.Encrypt src, b < 256 := by
  intro b hb
  simp only [Cipher.Encrypt, beBytes, List.mem_append, List.mem_map] at hb
  rcases hb with ⟨i, _, rfl⟩ | ⟨i, _, rfl⟩ <;> exact Nat.mod_lt _ (by decide)

theorem iterate_Encrypt (c : Cipher) (src : List Nat) :
    Nat.iterate c.Encrypt 64 src = c.Encrypt (Nat.iterate c.Encrypt 63 src) :=
  Function.iterate_succ_apply' c.Encrypt 63 src

/-- What `bcrypt` encodes: the first 23 bytes of the three encrypted blocks of the magic
text. -/
theorem bcrypt_eq (password : List Nat) (cost : Nat) (salt : List Nat)
    (hsalt : salt.length = 16 ∧ ∀ b ∈ salt, b < 256) :
    ∃ h, bcrypt password cost (base64Encode salt) = .ok h ∧ h.length = 31 ∧
      ∀ b ∈ h, b < 128 := by
  have hdec := base64Decode_base64Encode salt hsalt.2 hsalt.1
  have hnew : NewSaltedCipher (password ++ [0]) salt =
      .ok (expandKeyWithSalt (password ++ [0]) salt initCipher) := by
    unfold NewSaltedCipher
    rw [if_neg (by rw [hsalt.1]; decide), if_neg (by simp)]
  simp only [bcrypt, expensiveBlowfishSetup, hdec, hnew]
  refine ⟨_, rfl, ?_, ?_⟩
  · rw [base64Encode_length, List.length_take, List.length_append, List.length_append,
      iterate_Encrypt, iterate_Encrypt, iterate_Encrypt, Encrypt_length, Encrypt_length,
      Encrypt_length]
    decide
  · apply base64Encode_lt
    intro b hb
    have hb2 := List.mem_of_mem_take hb
    rw [iterate_Encrypt, iterate_Encrypt, iterate_Encrypt] at hb2
    simp only [List.mem_append] at hb2
    rcases hb2 with (hb2 | hb2) | hb2 <;> exact Encrypt_lt _ _ b hb2

/-- The digest depends on the password by the eighteen words of the key only. -/
theorem bcrypt_congr (p q : List Nat) (cost : Nat) (salt : List Nat)
    (h : keyWords (p ++ [0]) = keyWords (q ++ [0])) :
    bcrypt p cost salt = bcrypt q cost salt := by
  have hexp : ExpandKey (p ++ [0]) = ExpandKey (q ++ [0]) := by
    funext c
    simp only [ExpandKey, h]
  have hnew : ∀ csalt, csalt.length ≠ 0 →
      NewSaltedCipher (p ++ [0]) csalt = NewSaltedCipher (q ++ [0]) csalt := by
    intro csalt hc
    unfold NewSaltedCipher
    rw [if_neg hc, if_neg hc, if_neg (by simp), if_neg (by simp)]
    simp only [expandKeyWithSalt, h]
  unfold bcrypt expensiveBlowfishSetup
  cases hd : base64Decode salt with
  | none => rfl
  | some csalt =>
    have hc : csalt.length ≠ 0 := by
      simp only [base64Decode] at hd
      split at hd
      · exact absurd hd (by simp)
      · rename_i vs _
        split at hd
        · rename_i hl
          have := (b64Bytes_length vs csalt hd).1
          omega
        · exact absurd hd (by simp)
    simp only [hnew csalt hc, hexp]

theorem Hash_eq (s h : List Nat) (hs : s.length = 22) (hh : h.length = 31) :
    hashed.Hash ⟨h, s, 10, 50, 97⟩ = [36, 50, 97, 36, 49, 48, 36] ++ (s ++ h) := by
  have hlen : ([36, 50, 97, 36, 49, 48, 36] ++ (s ++ h)).length = 60 := by
    simp [hs, hh]
  have hhead : [36, 50] ++ (if (97 : Nat) ≠ 0 then [97] else []) ++ [36] ++
      [48 + 10 / 10 % 10, 48 + 10 % 10] ++ [36] = [36, 50, 97, 36, 49, 48, 36] := by decide
  have hassoc : [36, 50, 97, 36, 49, 48, 36] ++ s ++ h = [36, 50, 97, 36, 49, 48, 36] ++ (s ++ h) :=
    List.append_assoc _ _ _
  simp only [hashed.Hash, hhead, hassoc]
  rw [List.take_of_length_le (le_of_eq hlen)]
  exact List.take_left' (by rw [hlen]; rfl)

theorem GenerateFromPassword_eq (password salt : List Nat)
    (hsalt : salt.length = 16 ∧ ∀ b ∈ salt, b < 256) (hp : password.length ≤ 72) :
    ∃ h, bcrypt password DefaultCost (base64Encode salt) = .ok h ∧ h.length = 31 ∧
      (∀ b ∈ h, b < 128) ∧
      GenerateFromPassword password DefaultCost salt =
        .ok ([36, 50, 97, 36, 49, 48, 36] ++ (base64Encode salt ++ h)) := by
  obtain ⟨h, hb, hl, hlt⟩ := bcrypt_eq password DefaultCost salt hsalt
  refine ⟨h, hb, hl, hlt, ?_⟩
  have hcost : (if DefaultCost < MinCost then DefaultCost else DefaultCost) = DefaultCost := by
    decide
  have hcheck : checkCost (DefaultCost : Nat) = none := by decide
  have hs : (base64Encode salt).length = 22 := by rw [base64Encode_length, hsalt.1]
  unfold GenerateFromPassword newFromPassword
  rw [if_neg (by omega)]
  simp only [hcost, hcheck, hb]
  exact congrArg Except.ok (Hash_eq _ _ hs hl)

theorem GenerateFromPassword_long (password : List Nat) (cost : Nat) (salt : List Nat)
    (hp : 72 < password.length) :
    GenerateFromPassword password cost salt =
      .error (.new "bcrypt: password length exceeds 72 bytes") := by
  unfold GenerateFromPassword
  rw [if_pos hp]

theorem newFromHash_eq (s h : List Nat) (hs : s.length = 22) (hh : h.length = 31) :
    newFromHash ([36, 50, 97, 36, 49, 48, 36] ++ (s ++ h)) = .ok ⟨h, s, 10, 50, 97⟩ := by
  have hlen : ¬ ([36, 50, 97, 36, 49, 48, 36] ++ (s ++ h)).length < 59 := by
    simp [hs, hh]
  have hatoi : atoi2 49 48 = some 10 := by decide
  have hcheck : checkCost 10 = none := by decide
  unfold newFromHash
  rw [if_neg hlen]
  simp only [List.cons_append, List.nil_append, List.getD_cons_zero, List.getD_cons_succ,
    List.drop_succ_cons, List.drop_zero, ne_eq, not_true_eq_false, if_false,
    if_true, hatoi, hcheck]
  simp [hs, hatoi, hcheck]

/-- A password verifies against a digest of cost 10 exactly when `bcrypt` gives the hash
of the digest for it, under the salt of the digest. -/
theorem CompareHashAndPassword_iff (salt h q : List Nat)
    (hsalt : salt.length = 16 ∧ ∀ b ∈ salt, b < 256) (hh : h.length = 31) :
    CompareHashAndPassword ([36, 50, 97, 36, 49, 48, 36] ++ (base64Encode salt ++ h)) q = none ↔
      bcrypt q DefaultCost (base64Encode salt) = .ok h := by
  have hs : (base64Encode salt).length = 22 := by rw [base64Encode_length, hsalt.1]
  obtain ⟨h2, hb2, hl2, _⟩ := bcrypt_eq q DefaultCost salt hsalt
  have hb3 : bcrypt q 10 (base64Encode salt) = .ok h2 := hb2
  unfold CompareHashAndPassword
  rw [newFromHash_eq _ _ hs hh]
  simp only [hb3, hb2, Hash_eq _ _ hs hh, Hash_eq _ _ hs hl2]
  constructor
  · intro hc
    split at hc
    · rename_i heq
      have := List.append_cancel_left (List.append_cancel_left heq)
      rw [this]
    · exact absurd hc (by simp)
  · intro hc
    have : h2 = h := by simpa using hc
    rw [this]
    simp

/-- What the hasher makes of a password of at most 72 bytes: the text of the 60 bytes of
the digest. -/
theorem goBcrypt_generate (p : String) (salt : List Nat)
    (hsalt : salt.length = 16 ∧ ∀ b ∈ salt, b < 256) (hp : (utf8 p).length ≤ 72) :
    ∃ h, bcrypt (utf8 p) DefaultCost (base64Encode salt) = .ok h ∧ h.length = 31 ∧
      goBcrypt.GenerateFromPassword p DefaultCost salt =
        .ok (asciiString ([36, 50, 97, 36, 49, 48, 36] ++ (base64Encode salt ++ h))) ∧
      utf8 (asciiString ([36, 50, 97, 36, 49, 48, 36] ++ (base64Encode salt ++ h))) =
        [36, 50, 97, 36, 49, 48, 36] ++ (base64Encode salt ++ h) := by
  obtain ⟨h, hb, hl, hlt, hg⟩ := GenerateFromPassword_eq (utf8 p) salt hsalt hp
  refine ⟨h, hb, hl, ?_, ?_⟩
  · simp only [goBcrypt, hg]
  · apply utf8_asciiString
    intro b hb
    simp only [List.mem_append, List.mem_cons, List.mem_singleton, List.not_mem_nil,
      or_false] at hb
    rcases hb with (rfl | rfl | rfl | rfl | rfl | rfl | rfl) | hb | hb
    all_goals first
      | omega
      | exact base64Encode_lt salt hsalt.2 b hb
      | exact hlt b hb

theorem goBcrypt_compare (digest : String) (salt h : List Nat) (q : String)
    (hsalt : salt.length = 16 ∧ ∀ b ∈ salt, b < 256) (hh : h.length = 31)
    (hd : utf8 digest = [36, 50, 97, 36, 49, 48, 36] ++ (base64Encode salt ++ h)) :
    goBcrypt.CompareHashAndPassword digest q = true ↔
      bcrypt (utf8 q) DefaultCost (base64Encode salt) = .ok h := by
  rw [← CompareHashAndPassword_iff salt h (utf8 q) hsalt hh, ← hd]
  simp [goBcrypt]

/-- What `SetPassword` and the hashing branch of `BeforeCreate` store for a password of
at most 72 bytes, and which passwords verify against it. -/
theorem goBcrypt_stored (p : String) (salt : List Nat)
    (hsalt : salt.length = 16 ∧ ∀ b ∈ salt, b < 256) (hp : (utf8 p).length ≤ 72) :
    ∃ digest, goBcrypt.GenerateFromPassword p DefaultCost salt = .ok digest ∧
      (utf8 digest).length = 60 ∧
      ∀ q, goBcrypt.CompareHashAndPassword digest q = true ↔
        bcrypt (utf8 q) DefaultCost (base64Encode salt) =
          bcrypt (utf8 p) DefaultCost (base64Encode salt) := by
  obtain ⟨h, hb, hl, hg, hu⟩ := goBcrypt_generate p salt hsalt hp
  have hs : (base64Encode salt).length = 22 := by rw [base64Encode_length, hsalt.1]
  refine ⟨_, hg, ?_, ?_⟩
  · rw [hu]
    simp [hs, hl]
  · intro q
    rw [goBcrypt_compare _ salt h q hsalt hl hu, hb]

theorem getD_lt (l : List Nat) (n : Nat) (h : ∀ b ∈ l, b < n) (hn : 0 < n) (i : Nat) :
    l.getD i 0 < n := by
  by_cases hi : i < l.length
  · rw [List.getD_eq_getElem _ _ hi]
    exact h _ (List.getElem_mem _)
  · rw [List.getD_eq_default _ _ (by omega)]
    exact hn

theorem getNextWord_eq (l : List Nat) (pos : Nat) :
    getNextWord l pos =
      ((l.getD (pos % l.length) 0 * 256 + l.getD ((pos + 1) % l.length) 0) * 256 +
        l.getD ((pos + 2) % l.length) 0) * 256 + l.getD ((pos + 3) % l.length) 0 := by
  simp [getNextWord, beWord, List.range, List.range.loop]

/-- A password of 72 bytes is read off the eighteen words of its key. -/
theorem keyWords_injective (bs cs : List Nat) (hb : bs.length = 72) (hc : cs.length = 72)
    (hbl : ∀ b ∈ bs, b < 256) (hcl : ∀ b ∈ cs, b < 256)
    (h : keyWords (bs ++ [0]) = keyWords (cs ++ [0])) : bs = cs := by
  have hbl2 : ∀ b ∈ bs ++ [0], b < 256 := by
    intro b hm
    rcases List.mem_append.1 hm with hm | hm
    · exact hbl b hm
    · simp only [List.mem_singleton] at hm
      omega
  have hcl2 : ∀ b ∈ cs ++ [0], b < 256 := by
    intro b hm
    rcases List.mem_append.1 hm with hm | hm
    · exact hcl b hm
    · simp only [List.mem_singleton] at hm
      omega
  have hword : ∀ i < 18, getNextWord (bs ++ [0]) (4 * i) = getNextWord (cs ++ [0]) (4 * i) := by
    intro i hi
    have := congrArg (fun l => l.getD i 0) h
    simpa [keyWords, List.getD_eq_getElem?_getD, List.getElem?_map, List.getElem?_range hi]
      using this
  have hentry : ∀ m < 72, (bs ++ [0]).getD m 0 = (cs ++ [0]).getD m 0 := by
    intro m hm
    have hw := hword (m / 4) (by omega)
    rw [getNextWord_eq, getNextWord_eq] at hw
    have hlb : (bs ++ [0]).length = 73 := by simp [hb]
    have hlc : (cs ++ [0]).length = 73 := by simp [hc]
    rw [hlb, hlc] at hw
    have e0 : 4 * (m / 4) % 73 = 4 * (m / 4) := by omega
    have e1 : (4 * (m / 4) + 1) % 73 = 4 * (m / 4) + 1 := by omega
    have e2 : (4 * (m / 4) + 2) % 73 = 4 * (m / 4) + 2 := by omega
    have e3 : (4 * (m / 4) + 3) % 73 = 4 * (m / 4) + 3 := by omega
    rw [e0, e1, e2, e3] at hw
    have b0 := getD_lt _ 256 hbl2 (by decide) (4 * (m / 4))
    have b1 := getD_lt _ 256 hbl2 (by decide) (4 * (m / 4) + 1)
    have b2 := getD_lt _ 256 hbl2 (by decide) (4 * (m / 4) + 2)
    have b3 := getD_lt _ 256 hbl2 (by decide) (4 * (m / 4) + 3)
    have c0 := getD_lt _ 256 hcl2 (by decide) (4 * (m / 4))
    have c1 := getD_lt _ 256 hcl2 (by decide) (4 * (m / 4) + 1)
    have c2 := getD_lt _ 256 hcl2 (by decide) (4 * (m / 4) + 2)
    have c3 := getD_lt _ 256 hcl2 (by decide) (4 * (m / 4) + 3)
    have hcases : m = 4 * (m / 4) ∨ m = 4 * (m / 4) + 1 ∨ m = 4 * (m / 4) + 2 ∨
        m = 4 * (m / 4) + 3 := by omega
    have hall : (bs ++ [0]).getD (4 * (m / 4)) 0 = (cs ++ [0]).getD (4 * (m / 4)) 0 ∧
        (bs ++ [0]).getD (4 * (m / 4) + 1) 0 = (cs ++ [0]).getD (4 * (m / 4) + 1) 0 ∧
        (bs ++ [0]).getD (4 * (m / 4) + 2) 0 = (cs ++ [0]).getD (4 * (m / 4) + 2) 0 ∧
        (bs ++ [0]).getD (4 * (m / 4) + 3) 0 = (cs ++ [0]).getD (4 * (m / 4) + 3) 0 := by
      omega
    rcases hcases with e | e | e | e
    · rw [e]; exact hall.1
    · rw [e]; exact hall.2.1
    · rw [e]; exact hall.2.2.1
    · rw [e]; exact hall.2.2.2
  apply list_eq_of_getD 72 _ _ hb hc
  intro m hm
  have := hentry m hm
  rwa [List.getD_append _ _ _ _ (by omega), List.getD_append _ _ _ _ (by omega)] at this

/-- Among the passwords of 72 printable ASCII characters, two with different key words
get the same hash under a salt: there are more such passwords than hashes. -/
theorem exists_passwords_same_hash (salt : List Nat)
    (hsalt : salt.length = 16 ∧ ∀ b ∈ salt, b < 256) :
    ∃ p q : String, p ≠ q ∧ (utf8 p).length = 72 ∧ (utf8 q).length = 72 ∧
      keyWords (utf8 p ++ [0]) ≠ keyWords (utf8 q ++ [0]) ∧
      bcrypt (utf8 p) DefaultCost (base64Encode salt) =
        bcrypt (utf8 q) DefaultCost (base64Encode salt) := by
  let bytes : (Fin 72 → Fin 64) → List Nat := fun g => List.ofFn (fun i => (g i).val + 32)
  let hashOf : (Fin 72 → Fin 64) → (Fin 31 → Fin 128) := fun g i =>
    ⟨(match bcrypt (bytes g) DefaultCost (base64Encode salt) with
      | .ok h => h.getD i.val 0
      | .error _ => 0) % 128, Nat.mod_lt _ (by decide)⟩
  have hcard : Fintype.card (Fin 31 → Fin 128) < Fintype.card (Fin 72 → Fin 64) := by
    simp only [Fintype.card_fun, Fintype.card_fin]
    norm_num
  obtain ⟨g1, g2, hne, heq⟩ := Fintype.exists_ne_map_eq_of_card_lt hashOf hcard
  have hlen : ∀ g, (bytes g).length = 72 := fun g => by simp [bytes]
  have hlt : ∀ g, ∀ b ∈ bytes g, b < 128 := by
    intro g b hb
    simp only [bytes, List.mem_ofFn] at hb
    obtain ⟨i, rfl⟩ := hb
    have := (g i).isLt
    show (g i).val + 32 < 128
    omega
  have hbytes : bytes g1 ≠ bytes g2 := by
    intro h
    apply hne
    funext i
    have := congrFun (List.ofFn_injective h) i
    apply Fin.ext
    simpa using this
  have hu : ∀ g, utf8 (asciiString (bytes g)) = bytes g := fun g =>
    utf8_asciiString _ (hlt g)
  have hkw : keyWords (bytes g1 ++ [0]) ≠ keyWords (bytes g2 ++ [0]) := fun h =>
    hbytes (keyWords_injective _ _ (hlen g1) (hlen g2)
      (fun b hb => by have := hlt g1 b hb; omega) (fun b hb => by have := hlt g2 b hb; omega) h)
  refine ⟨asciiString (bytes g1), asciiString (bytes g2), ?_, ?_, ?_, ?_, ?_⟩
  · intro h
    apply hbytes
    rw [← hu g1, ← hu g2, h]
  · rw [hu, hlen]
  · rw [hu, hlen]
  · rw [hu, hu]
    exact hkw
  · rw [hu, hu]
    obtain ⟨h1, hb1, hl1, hlt1⟩ := bcrypt_eq (bytes g1) DefaultCost salt hsalt
    obtain ⟨h2, hb2, hl2, hlt2⟩ := bcrypt_eq (bytes g2) DefaultCost salt hsalt
    rw [hb1, hb2]
    congr 1
    apply list_eq_of_getD 31 _ _ hl1 hl2
    intro i hi
    have e := congrArg (fun f => (f ⟨i, hi⟩).val) heq
    simp only [hashOf, hb1, hb2] at e
    rw [Nat.mod_eq_of_lt (getD_lt h1 128 hlt1 (by decide) i),
      Nat.mod_eq_of_lt (getD_lt h2 128 hlt2 (by decide) i)] at e
    exact e


/-- C19, as the code has it. Let the entropy source give a salt of 16 bytes.
`SetPassword` succeeds on the passwords of at most 72 bytes and fails on the longer ones,
leaving the user as it was. After it has succeeded on `p`, the stored `Password` is the
text of 60 bytes made of `$2a$10$`, the 22 characters of the salt and the 31 characters
of the hash of `p`, so it differs from `p` whenever `p` has not 60 bytes or does not begin
with `$2a$10$` and the salt; `CheckPassword(p)` is true; and `CheckPassword(q)` is a truth
value for every `q`, false exactly when `bcrypt` gives for `q` a hash other than the one
that it gives for `p` under the stored salt, and true whenever the eighteen key words of
`q` are those of `p`. Against a stored `Password` of fewer than 59 bytes, which is no
digest, `CheckPassword(q)` is false for every `q`. -/
theorem setPassword_roundtrip (u : User) (p : String) (salt : List Nat)
    (hsalt : salt.length = 16 ∧ ∀ b ∈ salt, b < 256) :
    ((utf8 p).length ≤ 72 →
      ∃ digest h, u.SetPassword goBcrypt p salt = ({ u with Password := digest }, none) ∧
        bcrypt (utf8 p) DefaultCost (base64Encode salt) = .ok h ∧
        utf8 digest = [36, 50, 97, 36, 49, 48, 36] ++ (base64Encode salt ++ h) ∧
        (utf8 digest).length = 60 ∧
        ((utf8 p).length ≠ 60 ∨
            (utf8 p).take 29 ≠ [36, 50, 97, 36, 49, 48, 36] ++ base64Encode salt →
          digest ≠ p) ∧
        User.CheckPassword goBcrypt { u with Password := digest } p = true ∧
        (∀ q, User.CheckPassword goBcrypt { u with Password := digest } q = false ↔
          bcrypt (utf8 q) DefaultCost (base64Encode salt) ≠
            bcrypt (utf8 p) DefaultCost (base64Encode salt)) ∧
        (∀ q, keyWords (utf8 q ++ [0]) = keyWords (utf8 p ++ [0]) →
          User.CheckPassword goBcrypt { u with Password := digest } q = true)) ∧
    (72 < (utf8 p).length → ∃ e, u.SetPassword goBcrypt p salt = (u, some e)) ∧
    ((utf8 u.Password).length < 59 → ∀ q, User.CheckPassword goBcrypt u q = false) := by
  refine ⟨?_, ?_, ?_⟩
  · intro hp
    obtain ⟨h, hb, hl, hg, hu⟩ := goBcrypt_generate p salt hsalt hp
    have hs : (base64Encode salt).length = 22 := by rw [base64Encode_length, hsalt.1]
    have hc : ∀ q, User.CheckPassword goBcrypt
        { u with Password := asciiString ([36, 50, 97, 36, 49, 48, 36] ++ (base64Encode salt ++ h)) }
        q = true ↔
        bcrypt (utf8 q) DefaultCost (base64Encode salt) =
          bcrypt (utf8 p) DefaultCost (base64Encode salt) := by
      intro q
      rw [hb]
      exact goBcrypt_compare _ salt h q hsalt hl hu
    refine ⟨_, h, ?_, hb, hu, ?_, ?_, ?_, ?_, ?_⟩
    · simp only [User.SetPassword, hg]
    · rw [hu]
      simp [hs, hl]
    · intro hne heq
      rw [← heq, hu] at hne
      rcases hne with hne | hne
      · simp [hs, hl] at hne
      · apply hne
        rw [← List.append_assoc, List.take_left' (by simp [hs])]
    · exact (hc p).2 rfl
    · intro q
      rw [Ne, ← hc q, Bool.not_eq_true]
    · intro q hq
      exact (hc q).2 (bcrypt_congr _ _ _ _ hq)
  · intro hp
    refine ⟨.new "bcrypt: password length exceeds 72 bytes", ?_⟩
    simp only [User.SetPassword, goBcrypt, GenerateFromPassword_long _ _ _ hp]
  · intro hshort q
    simp [User.CheckPassword, goBcrypt, CompareHashAndPassword, newFromHash, hshort]

theorem setPassword_roundtrip_witness :
    (sampleSalt.length = 16 ∧ ∀ b ∈ sampleSalt, b < 256) ∧
    (utf8 "password123").length ≤ 72 ∧
    ∃ digest, guestUser.SetPassword goBcrypt "password123" sampleSalt =
        ({ guestUser with Password := digest }, none) ∧
      (utf8 digest).length = 60 ∧
      digest ≠ "password123" ∧
      User.CheckPassword goBcrypt { guestUser with Password := digest } "password123" = true ∧
      User.CheckPassword goBcrypt { guestUser with Password := digest } "password123\x00password123" =
        true ∧
      User.CheckPassword goBcrypt guestUser "guest123" = false :=
  have hp : (utf8 "password123").length ≤ 72 := by decide
  ⟨by decide, hp,
    ((setPassword_roundtrip guestUser "password123" sampleSalt (by decide)).1 hp).elim
      (fun digest h1 => h1.elim (fun _ h =>
        ⟨digest, h.1, h.2.2.2.1, h.2.2.2.2.1 (Or.inl (by decide)), h.2.2.2.2.2.1,
          h.2.2.2.2.2.2.2 _ (by decide),
          (setPassword_roundtrip guestUser "password123" sampleSalt (by decide)).2.2
            (by decide) "guest123"⟩))⟩

/-- C19 fails as stated: two different passwords verify against one digest. After
`SetPassword` on a password of 72 bytes, `CheckPassword` is true for the same password
with one more character; after `SetPassword("a")` it is true for the three characters
`a`, NUL, `a`. And there are two passwords of 72 bytes with different key words such
that, after `SetPassword` on the first, `CheckPassword` is true for the second: there are
more such passwords than hashes. -/
theorem checkPassword_accepts_other_password :
    (∃ digest, guestUser.SetPassword goBcrypt longPassword sampleSalt =
        ({ guestUser with Password := digest }, none) ∧
      longPassword ++ "b" ≠ longPassword ∧
      User.CheckPassword goBcrypt { guestUser with Password := digest }
        (longPassword ++ "b") = true) ∧
    (∃ digest, guestUser.SetPassword goBcrypt "a" sampleSalt =
        ({ guestUser with Password := digest }, none) ∧
      "a\x00a" ≠ "a" ∧
      User.CheckPassword goBcrypt { guestUser with Password := digest } "a\x00a" = true) ∧
    (∃ p q digest, q ≠ p ∧ keyWords (utf8 q ++ [0]) ≠ keyWords (utf8 p ++ [0]) ∧
      guestUser.SetPassword goBcrypt p sampleSalt =
        ({ guestUser with Password := digest }, none) ∧
      User.CheckPassword goBcrypt { guestUser with Password := digest } q = true) := by
  refine ⟨?_, ?_, ?_⟩
  · obtain ⟨digest, hg, _, hc⟩ := goBcrypt_stored longPassword sampleSalt (by decide) (by decide)
    refine ⟨digest, ?_, by decide, ?_⟩
    · simp only [User.SetPassword, hg]
    · exact (hc _).2 (bcrypt_congr _ _ _ _ (by decide))
  · obtain ⟨digest, hg, _, hc⟩ := goBcrypt_stored "a" sampleSalt (by decide) (by decide)
    refine ⟨digest, ?_, by decide, ?_⟩
    · simp only [User.SetPassword, hg]
    · exact (hc _).2 (bcrypt_congr _ _ _ _ (by decide))
  · obtain ⟨p, q, hne, hlp, _, hkw, hsame⟩ := exists_passwords_same_hash sampleSalt (by decide)
    obtain ⟨digest, hg, _, hc⟩ := goBcrypt_stored p sampleSalt (by decide) (le_of_eq hlp)
    refine ⟨p, q, digest, fun h => hne h.symm, fun h => hkw h.symm, ?_, ?_⟩
    · simp only [User.SetPassword, hg]
    · exact (hc q).2 hsame.symm

/-- C20, as the code has it. Let the entropy source give a salt of 16 bytes. For
a user whose `Password` holds a non-empty raw password `r` of fewer than 60 bytes,
`BeforeCreate` returns no error and the `Password` afterwards is a digest of `r`: a text
of 60 bytes, different from `r`, against which `CheckPassword(r)` is true. A `Password`
of 60 bytes or more, and an empty one, is kept as it is, and no error is returned. -/
theorem beforeCreate_digest (u : User) (salt : List Nat)
    (hsalt : salt.length = 16 ∧ ∀ b ∈ salt, b < 256) :
    (u.Password ≠ "" ∧ (utf8 u.Password).length < 60 →
      ∃ digest, u.BeforeCreate goBcrypt salt = ({ u with Password := digest }, none) ∧
        (utf8 digest).length = 60 ∧ digest ≠ u.Password ∧
        User.CheckPassword goBcrypt { u with Password := digest } u.Password = true) ∧
    (60 ≤ (utf8 u.Password).length → u.BeforeCreate goBcrypt salt = (u, none)) ∧
    (u.Password = "" → u.BeforeCreate goBcrypt salt = (u, none)) := by
  refine ⟨?_, ?_, ?_⟩
  · intro hr
    obtain ⟨digest, hg, hl, hc⟩ := goBcrypt_stored u.Password salt hsalt (by omega)
    refine ⟨digest, ?_, hl, ?_, (hc _).2 rfl⟩
    · simp only [User.BeforeCreate, if_pos hr, hg]
    · intro heq
      rw [heq] at hl
      omega
  · intro hlong
    simp only [User.BeforeCreate]
    rw [if_neg (fun h => by omega)]
  · intro hempty
    simp only [User.BeforeCreate]
    rw [if_neg (fun h => h.1 hempty)]

theorem beforeCreate_digest_witness :
    (sampleSalt.length = 16 ∧ ∀ b ∈ sampleSalt, b < 256) ∧
    ("rawpassword" ≠ "" ∧ (utf8 "rawpassword").length < 60) ∧
    ∃ digest, User.BeforeCreate goBcrypt { guestUser with Password := "rawpassword" } sampleSalt =
        ({ guestUser with Password := digest }, none) ∧
      (utf8 digest).length = 60 ∧ digest ≠ "rawpassword" ∧
      User.CheckPassword goBcrypt { guestUser with Password := digest } "rawpassword" = true :=
  ⟨by decide, by decide,
    (beforeCreate_digest { guestUser with Password := "rawpassword" } sampleSalt
      (by decide)).1 (by decide)⟩

/-- C20 fails as stated: a raw password of 64 bytes stays in the `Password` field as it
is when `BeforeCreate` returns without an error, and `CheckPassword` of it is false
afterwards. -/
theorem beforeCreate_keeps_long_password :
    longRawUser.Password = longRawPassword ∧ longRawPassword ≠ "" ∧
    longRawUser.BeforeCreate goBcrypt sampleSalt = (longRawUser, none) ∧
    (longRawUser.BeforeCreate goBcrypt sampleSalt).1.Password = longRawPassword ∧
    User.CheckPassword goBcrypt (longRawUser.BeforeCreate goBcrypt sampleSalt).1
      longRawPassword = false := by
  decide

/-! ### The hook before a user is stored -/

/-- A digest that the hasher returns has 60 bytes. -/
theorem goBcrypt_digest_length (p : String) (salt : List Nat) (digest : String)
    (hsalt : salt.length = 16 ∧ ∀ b ∈ salt, b < 256)
    (hg : goBcrypt.GenerateFromPassword p DefaultCost salt = .ok digest) :
    (utf8 digest).length = 60 := by
  by_cases hp : (utf8 p).length ≤ 72
  · obtain ⟨d, hd, hl, _⟩ := goBcrypt_stored p salt hsalt hp
    rw [hd] at hg
    cases hg
    exact hl
  · have := GenerateFromPassword_long (utf8 p) DefaultCost salt (by omega)
    simp [goBcrypt, this] at hg

/-- The hook does nothing to a password of 60 bytes or more, whatever the hasher is. -/
theorem BeforeCreate_skip (bc : Bcrypt) (u : User) (salt : List Nat)
    (h : 60 ≤ (utf8 u.Password).length) : u.BeforeCreate bc salt = (u, none) := by
  simp only [User.BeforeCreate]
  rw [if_neg (fun hc => by omega)]

/-- C21. No double hashing, for salts of 16 bytes from the entropy source. `BeforeCreate`
leaves a `Password` that is a digest made by the hasher as it is, whatever else the user
holds; so for a user whose raw password `r` it hashes (a non-empty one of fewer than 60
bytes), `BeforeCreate` stores a digest, a second `BeforeCreate` on the result returns the
result unchanged and without an error, and `CheckPassword(r)` is true before and after
the second run. -/
theorem beforeCreate_idempotent (u : User) (salt1 salt2 : List Nat)
    (hsalt : salt1.length = 16 ∧ ∀ b ∈ salt1, b < 256)
    (hr : u.Password ≠ "" ∧ (utf8 u.Password).length < 60) :
    (∀ (v : User) (p digest : String), goBcrypt.GenerateFromPassword p DefaultCost salt1 = .ok digest →
      User.BeforeCreate goBcrypt { v with Password := digest } salt2 =
        ({ v with Password := digest }, none)) ∧
    ∃ u1, u.BeforeCreate goBcrypt salt1 = (u1, none) ∧
      u1.CheckPassword goBcrypt u.Password = true ∧
      u1.BeforeCreate goBcrypt salt2 = (u1, none) ∧
      (u1.BeforeCreate goBcrypt salt2).1.CheckPassword goBcrypt u.Password = true := by
  constructor
  · intro v p digest hg
    exact BeforeCreate_skip _ _ _ (le_of_eq (goBcrypt_digest_length p salt1 digest hsalt hg).symm)
  · obtain ⟨digest, hg, hl, hc⟩ := goBcrypt_stored u.Password salt1 hsalt (by omega)
    have hskip : User.BeforeCreate goBcrypt { u with Password := digest } salt2 =
        ({ u with Password := digest }, none) := BeforeCreate_skip _ _ _ (le_of_eq hl.symm)
    refine ⟨{ u with Password := digest }, ?_, (hc _).2 rfl, hskip, ?_⟩
    · simp only [User.BeforeCreate, if_pos hr, hg]
    · rw [hskip]
      exact (hc _).2 rfl

theorem beforeCreate_idempotent_witness :
    (sampleSalt.length = 16 ∧ ∀ b ∈ sampleSalt, b < 256) ∧
    ("rawpassword" ≠ "" ∧ (utf8 "rawpassword").length < 60) ∧
    ∃ u1, User.BeforeCreate goBcrypt { guestUser with Password := "rawpassword" } sampleSalt =
        (u1, none) ∧
      u1.CheckPassword goBcrypt "rawpassword" = true ∧
      u1.BeforeCreate goBcrypt sampleSalt = (u1, none) ∧
      (u1.BeforeCreate goBcrypt sampleSalt).1.CheckPassword goBcrypt "rawpassword" = true :=
  ⟨by decide, by decide,
    (beforeCreate_idempotent { guestUser with Password := "rawpassword" } sampleSalt sampleSalt
      (by decide) (by decide)).2⟩

/-! ### Queries on the tables -/

theorem firstRow_eq_none {α : Type} (key : α → Nat) :
    ∀ l : List α, firstRow key l = none ↔ l = []
  | [] => by simp [firstRow]
  | a :: rest => by
    simp only [firstRow]
    cases h : firstRow key rest with
    | none => simp
    | some b =>
      simp only
      split <;> simp

theorem firstRow_mem {α : Type} (key : α → Nat) :
    ∀ (l : List α) (a : α), firstRow key l = some a → a ∈ l
  | [], a, h => by simp [firstRow] at h
  | x :: rest, a, h => by
    simp only [firstRow] at h
    cases hr : firstRow key rest with
    | none =>
      simp only [hr, Option.some.injEq] at h
      simp [h]
    | some b =>
      simp only [hr] at h
      have ih := firstRow_mem key rest b hr
      split at h
      · simp only [Option.some.injEq] at h
        subst h
        simp [ih]
      · simp only [Option.some.injEq] at h
        simp [h]

theorem queryFirst_ok {α : Type} (fault : Option String) (key : α → Nat) (rows : List α)
    (cond : α → Bool) (a : α) (h : queryFirst fault key rows cond = .ok a) :
    fault = none ∧ a ∈ rows ∧ cond a = true := by
  unfold queryFirst at h
  cases fault with
  | some msg => simp at h
  | none =>
    simp only at h
    cases hr : firstRow key (rows.filter cond) with
    | none => simp [hr] at h
    | some b =>
      simp only [hr, Except.ok.injEq] at h
      subst h
      have := firstRow_mem key _ _ hr
      simp only [List.mem_filter] at this
      exact ⟨rfl, this.1, this.2⟩

theorem RowsAffected_pos {α : Type} (key : α → Nat) (rows : List α) (cond : α → Bool) :
    0 < RowsAffected (queryFirst none key rows cond) ↔ ∃ a ∈ rows, cond a = true := by
  unfold queryFirst
  simp only
  cases hr : firstRow key (rows.filter cond) with
  | none =>
    have := (firstRow_eq_none key _).1 hr
    simp only [RowsAffected, Nat.lt_irrefl, false_iff, not_exists, not_and]
    intro a ha hc
    have hm : a ∈ rows.filter cond := List.mem_filter.2 ⟨ha, hc⟩
    rw [this] at hm
    simp at hm
  | some b =>
    have := firstRow_mem key _ _ hr
    simp only [List.mem_filter] at this
    simp only [RowsAffected, Nat.lt_one_iff, true_iff]
    exact ⟨b, this.1, this.2⟩

theorem RowsAffected_fault {α : Type} (msg : String) (key : α → Nat) (rows : List α)
    (cond : α → Bool) : RowsAffected (queryFirst (some msg) key rows cond) = 0 := rfl

/-! ### Permissions stay unique -/

/-- C22. Let the body of a `CreatePermission` request bind to a permission. When the store
answers and holds a permission with the resource and the action of the request, the
request is rejected with 400 "Permission already exists" and the tables stay as they
are. When the store answers, holds no such permission and the `ID` of the new row is
free and one that the column can hold, the request is answered with 201 and the new row
is in the tables, and the same request again is rejected with 400 and changes nothing.
A store that fails answers 500 and stays as it is. -/
theorem createPermission_duplicate_rejected (parseTime : String → Option Int) (t : Tables)
    (body : List (String × JValue))
    (permission : Permission) (hbind : bindPermission parseTime body = .ok permission) :
    (t.fault = none →
      (∃ existing ∈ t.permissions, existing.Resource = permission.Resource ∧
        existing.Action = permission.Action) →
      PermissionHandler.CreatePermission parseTime t body =
        (t, .failure ⟨400, "Permission already exists"⟩)) ∧
    (t.fault = none →
      (∀ p ∈ t.permissions, ¬ (p.Resource = permission.Resource ∧
        p.Action = permission.Action)) →
      (∀ p ∈ t.permissions,
        p.ID ≠ (if permission.ID = 0 then t.permissionSeq + 1 else permission.ID)) →
      (if permission.ID = 0 then t.permissionSeq + 1 else permission.ID) ≤ maxID →
      ∃ t1 created,
        PermissionHandler.CreatePermission parseTime t body = (t1, .success 201 created) ∧
        created ∈ t1.permissions ∧ created.Resource = permission.Resource ∧
        created.Action = permission.Action ∧
        t1.permissions = t.permissions ++ [created] ∧
        PermissionHandler.CreatePermission parseTime t1 body =
          (t1, .failure ⟨400, "Permission already exists"⟩)) ∧
    (∀ msg, t.fault = some msg →
      PermissionHandler.CreatePermission parseTime t body =
        (t, .failure ⟨500, "Failed to create permission"⟩)) := by
  have hdup : ∀ s : Tables, s.fault = none →
      (∃ existing ∈ s.permissions, existing.Resource = permission.Resource ∧
        existing.Action = permission.Action) →
      PermissionHandler.CreatePermission parseTime s body =
        (s, .failure ⟨400, "Permission already exists"⟩) := by
    intro s hf ⟨existing, hm, hr, ha⟩
    have hpos : RowsAffected (s.firstPermission (fun p =>
        p.Resource == permission.Resource && p.Action == permission.Action)) > 0 := by
      unfold Tables.firstPermission
      rw [hf]
      exact (RowsAffected_pos _ _ _).2 ⟨existing, hm, by simp [hr, ha]⟩
    simp only [PermissionHandler.CreatePermission, hbind, if_pos hpos]
  refine ⟨hdup t, ?_, ?_⟩
  · intro hf hfresh hid hmax
    have hzero : ¬ RowsAffected (t.firstPermission (fun p =>
        p.Resource == permission.Resource && p.Action == permission.Action)) > 0 := by
      unfold Tables.firstPermission
      rw [hf]
      intro hpos
      obtain ⟨a, ha, hc⟩ := (RowsAffected_pos _ _ _).1 hpos
      simp only [Bool.and_eq_true, beq_iff_eq] at hc
      exact hfresh a ha hc
    have hany : (t.permissions.any (fun q =>
        q.ID == (if permission.ID = 0 then t.permissionSeq + 1 else permission.ID))) = false := by
      rw [List.any_eq_false]
      intro q hq
      simpa using hid q hq
    have hcreate : t.createPermission permission =
        ({ (if permission.ID = 0 then { t with permissionSeq := t.permissionSeq + 1 } else t) with
            permissions := t.permissions ++
              [{ permission with
                  ID := if permission.ID = 0 then t.permissionSeq + 1 else permission.ID }] },
          .ok { permission with
            ID := if permission.ID = 0 then t.permissionSeq + 1 else permission.ID }) := by
      simp only [Tables.createPermission, hf, hany]
      rw [if_neg (Nat.not_lt.2 hmax)]
      rfl
    refine ⟨{ (if permission.ID = 0 then { t with permissionSeq := t.permissionSeq + 1 } else t) with
          permissions := t.permissions ++
            [{ permission with
                ID := if permission.ID = 0 then t.permissionSeq + 1 else permission.ID }] },
      { permission with
          ID := if permission.ID = 0 then t.permissionSeq + 1 else permission.ID },
      ?_, ?_, rfl, rfl, rfl, ?_⟩
    · simp only [PermissionHandler.CreatePermission, hbind, if_neg hzero, hcreate]
    · simp
    · apply hdup
      · split <;> exact hf
      · exact ⟨{ permission with
            ID := if permission.ID = 0 then t.permissionSeq + 1 else permission.ID },
          by simp, rfl, rfl⟩
  · intro msg hf
    have hzero : ¬ RowsAffected (t.firstPermission (fun p =>
        p.Resource == permission.Resource && p.Action == permission.Action)) > 0 := by
      unfold Tables.firstPermission
      rw [hf, RowsAffected_fault]
      decide
    simp only [PermissionHandler.CreatePermission, hbind, if_neg hzero, Tables.createPermission, hf]

set_option maxRecDepth 100000 in
theorem createPermission_duplicate_rejected_witness :
    bindPermission sampleParseTime createPermissionBody = .ok ⟨0, "articles", "read", "", 0, 0⟩ ∧
    ∃ t1 created,
      PermissionHandler.CreatePermission sampleParseTime seededTables createPermissionBody =
        (t1, .success 201 created) ∧
      created ∈ t1.permissions ∧ created.Resource = "articles" ∧ created.Action = "read" ∧
      t1.permissions = seededTables.permissions ++ [created] ∧
      PermissionHandler.CreatePermission sampleParseTime t1 createPermissionBody =
        (t1, .failure ⟨400, "Permission already exists"⟩) :=
  ⟨by decide,
    (createPermission_duplicate_rejected sampleParseTime seededTables createPermissionBody
      ⟨0, "articles", "read", "", 0, 0⟩ (by decide)).2.1 (by decide) (by decide) (by decide)
      (by decide)⟩

/-- In a table with a primary key, the row with the key of a row of the table is that
row. -/
theorem row_of_key (l : List Permission) (hkeys : l.Pairwise (fun p q => p.ID ≠ q.ID))
    (a b : Permission) (ha : a ∈ l) (hb : b ∈ l) (h : a.ID = b.ID) : a = b := by
  by_contra hne
  exact hkeys.forall (fun _ _ hxy => fun hyx => hxy hyx.symm) ha hb hne h

/-- Writing columns into the row with the key `id` keeps the pairs of resource and action
distinct, when no other row has the pair that the row gets. -/
theorem updated_pairs_unique (l : List Permission) (id : Nat) (ups : PermissionUpdates)
    (permission : Permission)
    (hkeys : l.Pairwise (fun p q => p.ID ≠ q.ID))
    (hpairs : l.Pairwise (fun p q => ¬ (p.Resource = q.Resource ∧ p.Action = q.Action)))
    (hmem : permission ∈ l) (hid : permission.ID = id)
    (hother : ∀ q ∈ l, q.ID ≠ id →
      ¬ (q.Resource = (ups.apply permission).Resource ∧
        q.Action = (ups.apply permission).Action)) :
    (l.map (fun p => if p.ID = id then ups.apply p else p)).Pairwise
      (fun p q => ¬ (p.Resource = q.Resource ∧ p.Action = q.Action)) := by
  rw [List.pairwise_map]
  refine List.Pairwise.imp_of_mem ?_ (hpairs.and hkeys)
  intro a b ha hb ⟨hab, hk⟩
  by_cases h1 : a.ID = id <;> by_cases h2 : b.ID = id
  · exact absurd (h1.trans h2.symm) hk
  · have : a = permission := row_of_key l hkeys a permission ha hmem (h1.trans hid.symm)
    subst this
    simp only [h1, h2, if_true, if_false]
    intro h
    exact hother b hb h2 ⟨h.1.symm, h.2.symm⟩
  · have : b = permission := row_of_key l hkeys b permission hb hmem (h2.trans hid.symm)
    subst this
    simp only [h1, h2, if_true, if_false]
    exact hother a ha h1
  · simp only [h1, h2, if_false]
    exact hab

theorem updated_keys_unique (l : List Permission) (id : Nat) (ups : PermissionUpdates)
    (hkeys : l.Pairwise (fun p q => p.ID ≠ q.ID)) :
    (l.map (fun p => if p.ID = id then ups.apply p else p)).Pairwise
      (fun p q => p.ID ≠ q.ID) := by
  rw [List.pairwise_map]
  refine List.Pairwise.imp ?_ hkeys
  intro a b hab
  have hid : ∀ p : Permission, (if p.ID = id then ups.apply p else p).ID = p.ID := by
    intro p
    split <;> rfl
  rw [hid a, hid b]
  exact hab

/-- C23. `UpdatePermission` keeps the pairs of resource and action distinct. When no two
permissions of the tables have the same `ID` and no two have the same resource and
action, the same holds after the request, whatever the id in the path and the body are;
and a request that would give the permission the resource and action of another row is
rejected with 400 "Permission already exists" and leaves the tables as they are. -/
theorem updatePermission_preserves_unique (t : Tables) (idParam : String)
    (body : List (String × JValue))
    (hkeys : t.permissionKeysUnique) (hpairs : t.permissionPairsUnique) :
    (PermissionHandler.UpdatePermission t idParam body).1.permissionPairsUnique ∧
    (PermissionHandler.UpdatePermission t idParam body).1.permissionKeysUnique ∧
    (∀ permissionID permission updateData other,
      ParseUint32 idParam = some permissionID →
      t.firstPermission (fun p => p.ID == permissionID) = .ok permission →
      bindPermissionUpdate body = .ok updateData →
      other ∈ t.permissions → other.ID ≠ permission.ID →
      other.Resource =
        (if updateData.Resource ≠ "" then updateData.Resource else permission.Resource) →
      other.Action =
        (if updateData.Action ≠ "" then updateData.Action else permission.Action) →
      PermissionHandler.UpdatePermission t idParam body =
        (t, .failure ⟨400, "Permission already exists"⟩)) := by
  have hrej : ∀ permissionID permission updateData other,
      ParseUint32 idParam = some permissionID →
      t.firstPermission (fun p => p.ID == permissionID) = .ok permission →
      bindPermissionUpdate body = .ok updateData →
      other ∈ t.permissions → other.ID ≠ permission.ID →
      other.Resource =
        (if updateData.Resource ≠ "" then updateData.Resource else permission.Resource) →
      other.Action =
        (if updateData.Action ≠ "" then updateData.Action else permission.Action) →
      PermissionHandler.UpdatePermission t idParam body =
        (t, .failure ⟨400, "Permission already exists"⟩) := by
    intro permissionID permission updateData other hparse hfirst hbind hmem hne hr ha
    obtain ⟨hf, hpm, _⟩ := queryFirst_ok _ _ _ _ _ hfirst
    have hchange : (updateData.Resource ≠ "" ∧ updateData.Resource ≠ permission.Resource) ∨
        (updateData.Action ≠ "" ∧ updateData.Action ≠ permission.Action) := by
      by_contra hc
      have hsame : other.Resource = permission.Resource ∧ other.Action = permission.Action := by
        constructor
        · rw [hr]
          split
          · rename_i h1
            by_contra h2
            exact hc (Or.inl ⟨h1, h2⟩)
          · rfl
        · rw [ha]
          split
          · rename_i h1
            by_contra h2
            exact hc (Or.inr ⟨h1, h2⟩)
          · rfl
      have hneq : other ≠ permission := fun h => hne (by rw [h])
      exact hpairs.forall (fun _ _ hxy => fun hyx => hxy ⟨hyx.1.symm, hyx.2.symm⟩)
        hmem hpm hneq hsame
    have hpos : RowsAffected (t.firstPermission (fun p =>
        p.Resource == (if updateData.Resource ≠ "" then updateData.Resource
          else permission.Resource) &&
        p.Action == (if updateData.Action ≠ "" then updateData.Action
          else permission.Action) && p.ID != permission.ID)) > 0 := by
      unfold Tables.firstPermission
      rw [hf]
      refine (RowsAffected_pos _ _ _).2 ⟨other, hmem, ?_⟩
      simp only [Bool.and_eq_true, beq_iff_eq, bne_iff_ne, ne_eq]
      exact ⟨⟨hr, ha⟩, hne⟩
    simp only [PermissionHandler.UpdatePermission, hparse, hfirst, hbind]
    rw [if_pos ⟨hchange, hpos⟩]
  have hboth : (PermissionHandler.UpdatePermission t idParam body).1.permissionPairsUnique ∧
      (PermissionHandler.UpdatePermission t idParam body).1.permissionKeysUnique := by
    cases hparse : ParseUint32 idParam with
    | none =>
      simp only [PermissionHandler.UpdatePermission, hparse]
      exact ⟨hpairs, hkeys⟩
    | some permissionID =>
      cases hfirst : t.firstPermission (fun p => p.ID == permissionID) with
      | error e =>
        simp only [PermissionHandler.UpdatePermission, hparse, hfirst]
        exact ⟨hpairs, hkeys⟩
      | ok permission =>
        obtain ⟨hf, hpm, hpid⟩ := queryFirst_ok _ _ _ _ _ hfirst
        cases hbind : bindPermissionUpdate body with
        | error e =>
          simp only [PermissionHandler.UpdatePermission, hparse, hfirst, hbind]
          exact ⟨hpairs, hkeys⟩
        | ok updateData =>
          by_cases hcheck : ((updateData.Resource ≠ "" ∧
                updateData.Resource ≠ permission.Resource) ∨
              (updateData.Action ≠ "" ∧ updateData.Action ≠ permission.Action)) ∧
              RowsAffected (t.firstPermission (fun p =>
                p.Resource == (if updateData.Resource ≠ "" then updateData.Resource
                  else permission.Resource) &&
                p.Action == (if updateData.Action ≠ "" then updateData.Action
                  else permission.Action) && p.ID != permission.ID)) > 0
          · simp only [PermissionHandler.UpdatePermission, hparse, hfirst, hbind]
            rw [if_pos hcheck]
            exact ⟨hpairs, hkeys⟩
          · have hupd : ∀ ups : PermissionUpdates, t.updatePermission permission.ID ups =
                (⟨t.users, t.roles,
                  t.permissions.map (fun p => if p.ID = permission.ID then ups.apply p else p),
                  t.userRoles, t.rolePermissions, t.userSeq, t.roleSeq, t.permissionSeq,
                  t.fault⟩, none) := by
              intro ups
              simp only [Tables.updatePermission, hf]
            have hgoal : ∀ t1 : Tables,
                t1.permissions = t.permissions.map (fun p => if p.ID = permission.ID then
                  (PermissionUpdates.mk
                    (if updateData.Resource ≠ "" then some updateData.Resource else none)
                    (if updateData.Action ≠ "" then some updateData.Action else none)
                    (if updateData.Description ≠ "" then some updateData.Description
                      else none)).apply p else p) →
                t1.permissionPairsUnique ∧ t1.permissionKeysUnique := by
              intro t1 ht1
              unfold Tables.permissionPairsUnique Tables.permissionKeysUnique
              rw [ht1]
              refine ⟨updated_pairs_unique _ _ _ permission hkeys hpairs hpm rfl ?_,
                updated_keys_unique _ _ _ hkeys⟩
              intro q hq hqid hq2
              have hres : (PermissionUpdates.apply
                  ⟨if updateData.Resource ≠ "" then some updateData.Resource else none,
                   if updateData.Action ≠ "" then some updateData.Action else none,
                   if updateData.Description ≠ "" then some updateData.Description else none⟩
                  permission).Resource =
                  (if updateData.Resource ≠ "" then updateData.Resource
                    else permission.Resource) := by
                simp only [PermissionUpdates.apply]
                by_cases h : updateData.Resource ≠ ""
                · rw [if_pos h, if_pos h]
                  rfl
                · rw [if_neg h, if_neg h]
                  rfl
              have hact : (PermissionUpdates.apply
                  ⟨if updateData.Resource ≠ "" then some updateData.Resource else none,
                   if updateData.Action ≠ "" then some updateData.Action else none,
                   if updateData.Description ≠ "" then some updateData.Description else none⟩
                  permission).Action =
                  (if updateData.Action ≠ "" then updateData.Action
                    else permission.Action) := by
                simp only [PermissionUpdates.apply]
                by_cases h : updateData.Action ≠ ""
                · rw [if_pos h, if_pos h]
                  rfl
                · rw [if_neg h, if_neg h]
                  rfl
              rw [hres, hact] at hq2
              have := hrej permissionID permission updateData q hparse hfirst hbind hq hqid
                hq2.1 hq2.2
              simp only [PermissionHandler.UpdatePermission, hparse, hfirst, hbind] at this
              rw [if_neg hcheck, hupd] at this
              simp only at this
              generalize Tables.firstPermission _ (fun p => p.ID == permissionID) = r at this
              cases r <;> simp at this
            simp only [PermissionHandler.UpdatePermission, hparse, hfirst, hbind]
            rw [if_neg hcheck, hupd]
            simp only
            generalize Tables.firstPermission _ (fun p => p.ID == permissionID) = r
            cases r <;> exact hgoal _ rfl
  exact ⟨hboth.1, hboth.2, hrej⟩

set_option maxRecDepth 100000 in
theorem updatePermission_preserves_unique_witness :
    seededTables.permissionKeysUnique ∧ seededTables.permissionPairsUnique ∧
    (PermissionHandler.UpdatePermission seededTables "2"
      [("action", .str "delete")]).1.permissionPairsUnique ∧
    PermissionHandler.UpdatePermission seededTables "2" [("action", .str "read")] =
      (seededTables, .failure ⟨400, "Permission already exists"⟩) :=
  ⟨by decide, by decide,
    (updatePermission_preserves_unique seededTables "2" [("action", .str "delete")]
      (by decide) (by decide)).1,
    (updatePermission_preserves_unique seededTables "2" [("action", .str "read")]
      (by decide) (by decide)).2.2 2 ⟨2, "users", "write", "แก้ไขข้อมูลผู้ใช้", 0, 0⟩
      ⟨"", "read", ""⟩ ⟨1, "users", "read", "อ่านข้อมูลผู้ใช้", 0, 0⟩
      (by decide) (by decide) (by decide) (by decide) (by decide) (by decide) (by decide)⟩

/-! ### Users stay unique -/

/-- The insert of `Create` keeps the primary key and the unique indexes of the users. -/
theorem createUser_preserves (bc : Bcrypt) (salt : List Nat) (t : Tables) (u : User)
    (hkeys : t.userKeysUnique) (hnames : t.usernamesUnique) (hemails : t.emailsUnique) :
    (t.createUser bc salt u).1.userKeysUnique ∧ (t.createUser bc salt u).1.usernamesUnique ∧
      (t.createUser bc salt u).1.emailsUnique := by
  unfold Tables.createUser
  cases hf : t.fault with
  | some msg => exact ⟨hkeys, hnames, hemails⟩
  | none =>
    simp only
    rcases hb : u.BeforeCreate bc salt with ⟨u1, _ | e⟩
    · simp only
      by_cases hmax : (if u1.ID = 0 then t.userSeq + 1 else u1.ID) > maxID
      · rw [if_pos hmax]
        exact ⟨hkeys, hnames, hemails⟩
      rw [if_neg hmax]
      by_cases hany : (t.users.any (fun v =>
          v.ID == (if u1.ID = 0 then t.userSeq + 1 else u1.ID) ||
            v.Username == u1.Username || v.Email == u1.Email)) = true
      · rw [if_pos hany]
        by_cases h0 : u1.ID = 0
        · simp only [h0, if_true]
          exact ⟨hkeys, hnames, hemails⟩
        · simp only [h0, if_false]
          exact ⟨hkeys, hnames, hemails⟩
      · rw [if_neg hany]
        have hall : ∀ v ∈ t.users, v.ID ≠ (if u1.ID = 0 then t.userSeq + 1 else u1.ID) ∧
            v.Username ≠ u1.Username ∧ v.Email ≠ u1.Email := by
          intro v hv
          have hany2 : ∀ x ∈ t.users,
              ((¬x.ID = if u1.ID = 0 then t.userSeq + 1 else u1.ID) ∧
                ¬x.Username = u1.Username) ∧ ¬x.Email = u1.Email := by
            simpa using hany
          exact ⟨(hany2 v hv).1.1, (hany2 v hv).1.2, (hany2 v hv).2⟩
        unfold Tables.userKeysUnique Tables.usernamesUnique Tables.emailsUnique at *
        simp only
        refine ⟨?_, ?_, ?_⟩
        · rw [List.pairwise_append]
          refine ⟨hkeys, by simp, ?_⟩
          intro a ha b hb2
          simp only [List.mem_singleton] at hb2
          subst hb2
          exact (hall a ha).1
        · rw [List.pairwise_append]
          refine ⟨hnames, by simp, ?_⟩
          intro a ha b hb2
          simp only [List.mem_singleton] at hb2
          subst hb2
          exact (hall a ha).2.1
        · rw [List.pairwise_append]
          refine ⟨hemails, by simp, ?_⟩
          intro a ha b hb2
          simp only [List.mem_singleton] at hb2
          subst hb2
          exact (hall a ha).2.2
    · exact ⟨hkeys, hnames, hemails⟩

/-- The update of `Updates` keeps the primary key and the unique indexes of the users. -/
theorem updateUser_preserves (t : Tables) (id : Nat) (ups : UserUpdates)
    (hkeys : t.userKeysUnique) (hnames : t.usernamesUnique) (hemails : t.emailsUnique) :
    (t.updateUser id ups).1.userKeysUnique ∧ (t.updateUser id ups).1.usernamesUnique ∧
      (t.updateUser id ups).1.emailsUnique := by
  unfold Tables.updateUser
  cases hf : t.fault with
  | some msg => exact ⟨hkeys, hnames, hemails⟩
  | none =>
    simp only
    by_cases hany : (t.users.any (fun u => u.ID == id &&
        t.users.any (fun v => v.ID != id &&
          (v.Username == (ups.apply u).Username || v.Email == (ups.apply u).Email)))) = true
    · rw [if_pos hany]
      exact ⟨hkeys, hnames, hemails⟩
    · rw [if_neg hany]
      have hall : ∀ u ∈ t.users, u.ID = id → ∀ v ∈ t.users, v.ID ≠ id →
          v.Username ≠ (ups.apply u).Username ∧ v.Email ≠ (ups.apply u).Email := by
        intro u hu hid v hv hvid
        have hany2 : ∀ x ∈ t.users, x.ID = id → ∀ y ∈ t.users, ¬y.ID = id →
            ¬y.Username = (ups.apply x).Username ∧ ¬y.Email = (ups.apply x).Email := by
          simpa using hany
        exact hany2 u hu hid v hv hvid
      have hid : ∀ u : User, (if u.ID = id then ups.apply u else u).ID = u.ID := by
        intro u
        split <;> rfl
      unfold Tables.userKeysUnique Tables.usernamesUnique Tables.emailsUnique at *
      simp only
      refine ⟨?_, ?_, ?_⟩
      · rw [List.pairwise_map]
        refine List.Pairwise.imp ?_ hkeys
        intro a b hab
        rw [hid a, hid b]
        exact hab
      · rw [List.pairwise_map]
        refine List.Pairwise.imp_of_mem ?_ (hnames.and hkeys)
        intro a b ha hb ⟨hab, hk⟩
        by_cases h1 : a.ID = id <;> by_cases h2 : b.ID = id
        · exact absurd (h1.trans h2.symm) hk
        · simp only [h1, h2, if_true, if_false]
          exact fun h => (hall a ha h1 b hb h2).1 h.symm
        · simp only [h1, h2, if_true, if_false]
          exact (hall b hb h2 a ha h1).1
        · simp only [h1, h2, if_false]
          exact hab
      · rw [List.pairwise_map]
        refine List.Pairwise.imp_of_mem ?_ (hemails.and hkeys)
        intro a b ha hb ⟨hab, hk⟩
        by_cases h1 : a.ID = id <;> by_cases h2 : b.ID = id
        · exact absurd (h1.trans h2.symm) hk
        · simp only [h1, h2, if_true, if_false]
          exact fun h => (hall a ha h1 b hb h2).2 h.symm
        · simp only [h1, h2, if_true, if_false]
          exact (hall b hb h2 a ha h1).2
        · simp only [h1, h2, if_false]
          exact hab

/-- The tables after `CreateUser` are those before or those after its `Create`. -/
theorem CreateUser_tables (bc : Bcrypt) (salt : List Nat) (t : Tables)
    (body : List (String × JValue)) :
    (UserHandler.CreateUser bc salt t body).1 = t ∨
      ∃ u, (UserHandler.CreateUser bc salt t body).1 = (t.createUser bc salt u).1 := by
  unfold UserHandler.CreateUser
  cases hbind : bindUser body with
  | error e => exact Or.inl rfl
  | ok user =>
    simp only
    by_cases hc : RowsAffected (t.firstUser (fun u =>
        u.Username == user.Username || u.Email == user.Email)) > 0
    · rw [if_pos hc]
      exact Or.inl rfl
    · rw [if_neg hc]
      right
      refine ⟨user, ?_⟩
      rcases t.createUser bc salt user with ⟨t1, _ | _⟩ <;> rfl

/-- The tables after `UpdateUser` are those before or those after its `Updates`. -/
theorem UpdateUser_tables (bc : Bcrypt) (salt : List Nat) (t : Tables) (idParam : String)
    (body : List (String × JValue)) :
    (UserHandler.UpdateUser bc salt t idParam body).1 = t ∨
      ∃ id ups, (UserHandler.UpdateUser bc salt t idParam body).1 = (t.updateUser id ups).1 := by
  unfold UserHandler.UpdateUser
  cases hparse : ParseUint32 idParam with
  | none => exact Or.inl rfl
  | some userID =>
    simp only
    cases hfirst : t.firstUser (fun u => u.ID == userID) with
    | error e => exact Or.inl rfl
    | ok user =>
      simp only
      cases hbind : bindUserUpdate body with
      | error e => exact Or.inl rfl
      | ok updateData =>
        simp only
        by_cases h1 : updateData.Username ≠ "" ∧ updateData.Username ≠ user.Username ∧
            RowsAffected (t.firstUser (fun u => u.Username == updateData.Username)) > 0
        · rw [if_pos h1]
          exact Or.inl rfl
        · rw [if_neg h1]
          by_cases h2 : updateData.Email ≠ "" ∧ updateData.Email ≠ user.Email ∧
              RowsAffected (t.firstUser (fun u => u.Email == updateData.Email)) > 0
          · rw [if_pos h2]
            exact Or.inl rfl
          · rw [if_neg h2]
            rcases (if updateData.Password ≠ "" then user.SetPassword bc updateData.Password salt
                else (user, none)) with ⟨user1, _ | e⟩
            · simp only
              right
              refine ⟨user1.ID,
                ⟨if updateData.Username ≠ "" then some updateData.Username else none,
                 if updateData.Email ≠ "" then some updateData.Email else none,
                 if updateData.Password ≠ "" then some user1.Password else none,
                 if updateData.FullName ≠ "" then some updateData.FullName else none⟩, ?_⟩
              rcases hu : t.updateUser user1.ID
                ⟨if updateData.Username ≠ "" then some updateData.Username else none,
                 if updateData.Email ≠ "" then some updateData.Email else none,
                 if updateData.Password ≠ "" then some user1.Password else none,
                 if updateData.FullName ≠ "" then some updateData.FullName else none⟩
                with ⟨t1, _ | e⟩
              · simp only
                generalize Tables.firstUser _ (fun u => u.ID == userID) = r
                cases r <;> rfl
              · rfl
            · exact Or.inl rfl

/-- C24. User names and e-mail addresses stay unique. When no two users of the tables have
the same `ID`, no two the same user name and no two the same e-mail address, the same
holds after a `CreateUser` request and after an `UpdateUser` request, whatever the
hasher, the id in the path and the body are. When the store answers, `CreateUser`
rejects a user whose user name or e-mail address is that of a stored user with 400
"Username or email already exists", and `UpdateUser` rejects a user name or an e-mail
address in its body that another user holds with 400; both leave the tables as they
are. -/
theorem users_stay_unique (bc : Bcrypt) (salt : List Nat) (t : Tables) (idParam : String)
    (body : List (String × JValue))
    (hkeys : t.userKeysUnique) (hnames : t.usernamesUnique) (hemails : t.emailsUnique) :
    ((UserHandler.CreateUser bc salt t body).1.userKeysUnique ∧
      (UserHandler.CreateUser bc salt t body).1.usernamesUnique ∧
      (UserHandler.CreateUser bc salt t body).1.emailsUnique) ∧
    ((UserHandler.UpdateUser bc salt t idParam body).1.userKeysUnique ∧
      (UserHandler.UpdateUser bc salt t idParam body).1.usernamesUnique ∧
      (UserHandler.UpdateUser bc salt t idParam body).1.emailsUnique) ∧
    (∀ user existing, t.fault = none → bindUser body = .ok user → existing ∈ t.users →
      existing.Username = user.Username ∨ existing.Email = user.Email →
      UserHandler.CreateUser bc salt t body =
        (t, .failure ⟨400, "Username or email already exists"⟩)) ∧
    (∀ userID user updateData other,
      ParseUint32 idParam = some userID →
      t.firstUser (fun u => u.ID == userID) = .ok user →
      bindUserUpdate body = .ok updateData →
      other ∈ t.users → other.ID ≠ user.ID →
      (updateData.Username ≠ "" ∧ other.Username = updateData.Username) ∨
        (updateData.Email ≠ "" ∧ other.Email = updateData.Email) →
      UserHandler.UpdateUser bc salt t idParam body =
          (t, .failure ⟨400, "Username already exists"⟩) ∨
        UserHandler.UpdateUser bc salt t idParam body =
          (t, .failure ⟨400, "Email already exists"⟩)) := by
  refine ⟨?_, ?_, ?_, ?_⟩
  · rcases CreateUser_tables bc salt t body with h | ⟨u, h⟩
    · rw [h]
      exact ⟨hkeys, hnames, hemails⟩
    · rw [h]
      exact createUser_preserves bc salt t u hkeys hnames hemails
  · rcases UpdateUser_tables bc salt t idParam body with h | ⟨id, ups, h⟩
    · rw [h]
      exact ⟨hkeys, hnames, hemails⟩
    · rw [h]
      exact updateUser_preserves t id ups hkeys hnames hemails
  · intro user existing hf hbind hmem hsame
    have hpos : RowsAffected (t.firstUser (fun u =>
        u.Username == user.Username || u.Email == user.Email)) > 0 := by
      unfold Tables.firstUser
      rw [hf]
      refine (RowsAffected_pos _ _ _).2 ⟨existing, hmem, ?_⟩
      simpa using hsame
    simp only [UserHandler.CreateUser, hbind, if_pos hpos]
  · intro userID user updateData other hparse hfirst hbind hmem hne hsame
    obtain ⟨hf, hum, _⟩ := queryFirst_ok _ _ _ _ _ hfirst
    have hneq : other ≠ user := fun h => hne (by rw [h])
    by_cases h1 : updateData.Username ≠ "" ∧ updateData.Username ≠ user.Username ∧
        RowsAffected (t.firstUser (fun u => u.Username == updateData.Username)) > 0
    · left
      simp only [UserHandler.UpdateUser, hparse, hfirst, hbind]
      rw [if_pos h1]
    · right
      have hemail : updateData.Email ≠ "" ∧ other.Email = updateData.Email := by
        rcases hsame with ⟨hn, ho⟩ | he
        · exfalso
          apply h1
          refine ⟨hn, ?_, ?_⟩
          · intro heq
            exact hnames.forall (fun _ _ hxy => fun hyx => hxy hyx.symm) hmem hum hneq
              (ho.trans heq)
          · unfold Tables.firstUser
            rw [hf]
            exact (RowsAffected_pos _ _ _).2 ⟨other, hmem, by simpa using ho⟩
        · exact he
      have h2 : updateData.Email ≠ "" ∧ updateData.Email ≠ user.Email ∧
          RowsAffected (t.firstUser (fun u => u.Email == updateData.Email)) > 0 := by
        refine ⟨hemail.1, ?_, ?_⟩
        · intro heq
          exact hemails.forall (fun _ _ hxy => fun hyx => hxy hyx.symm) hmem hum hneq
            (hemail.2.trans heq)
        · unfold Tables.firstUser
          rw [hf]
          exact (RowsAffected_pos _ _ _).2 ⟨other, hmem, by simpa using hemail.2⟩
      simp only [UserHandler.UpdateUser, hparse, hfirst, hbind]
      rw [if_neg h1, if_pos h2]

set_option maxRecDepth 100000 in
theorem users_stay_unique_witness :
    (seededTables.userKeysUnique ∧ seededTables.usernamesUnique ∧
      seededTables.emailsUnique) ∧
    ((UserHandler.CreateUser sampleBcrypt [] seededTables createUserBody).1.usernamesUnique ∧
      (UserHandler.CreateUser sampleBcrypt [] seededTables createUserBody).1.emailsUnique) ∧
    UserHandler.CreateUser sampleBcrypt [] seededTables
        [("username", .str "admin"), ("email", .str "other@example.com")] =
      (seededTables, .failure ⟨400, "Username or email already exists"⟩) :=
  ⟨by decide,
    ⟨(users_stay_unique sampleBcrypt [] seededTables "1" createUserBody
        (by decide) (by decide) (by decide)).1.2.1,
      (users_stay_unique sampleBcrypt [] seededTables "1" createUserBody
        (by decide) (by decide) (by decide)).1.2.2⟩,
    (users_stay_unique sampleBcrypt [] seededTables "1"
        [("username", .str "admin"), ("email", .str "other@example.com")]
        (by decide) (by decide) (by decide)).2.2.1
      ⟨0, "admin", "other@example.com", "", "", [], 0, 0⟩
      ⟨1, "admin", "admin@example.com", "$2a$10$adminpassword", "System Administrator", [], 0, 0⟩
      (by decide) (by decide) (by decide) (by decide)⟩

/-! ### The gates, case by case -/

/-- C25. `RequirePermission(resource, action)` hands the request on exactly when the
context holds a `userID` and `HasPermission(userID, resource, action)` returns
`(true, nil)`. Without a `userID` it aborts with 401, when `HasPermission` returns an
error with 500, and when it returns `(false, nil)` with 403. The service is asked about
the `userID` of the context and the configured resource and action only: two services
that agree there get the same answer. -/
theorem requirePermission_next_iff
    (hasPermission : Nat → String → String → Bool × Option Error)
    (resource action : String) (ctxUserID : Option Nat) :
    (RequirePermission hasPermission resource action ctxUserID = .next ↔
      ∃ userID, ctxUserID = some userID ∧
        hasPermission userID resource action = (true, none)) ∧
    (ctxUserID = none →
      RequirePermission hasPermission resource action ctxUserID =
        .abort ⟨401, "Unauthorized"⟩) ∧
    (∀ userID has e, ctxUserID = some userID →
      hasPermission userID resource action = (has, some e) →
      RequirePermission hasPermission resource action ctxUserID =
        .abort ⟨500, "Failed to check permissions"⟩) ∧
    (∀ userID, ctxUserID = some userID →
      hasPermission userID resource action = (false, none) →
      RequirePermission hasPermission resource action ctxUserID =
        .abort ⟨403, "Permission denied"⟩) ∧
    (∀ other : Nat → String → String → Bool × Option Error,
      (∀ userID, ctxUserID = some userID →
        other userID resource action = hasPermission userID resource action) →
      RequirePermission other resource action ctxUserID =
        RequirePermission hasPermission resource action ctxUserID) := by
  refine ⟨?_, ?_, ?_, ?_, ?_⟩
  · cases ctxUserID with
    | none => simp [RequirePermission]
    | some userID =>
      rcases h : hasPermission userID resource action with ⟨has, _ | e⟩
      · cases has <;> simp [RequirePermission, h]
      · simp [RequirePermission, h]
  · rintro rfl
    rfl
  · rintro userID has e rfl h
    simp [RequirePermission, h]
  · rintro userID rfl h
    simp [RequirePermission, h]
  · intro other h
    cases ctxUserID with
    | none => rfl
    | some userID => simp only [RequirePermission, h userID rfl]

/-- C26. `AuthMiddleware` hands the request on exactly when the `Authorization` header
splits at its spaces into two parts of which the first is `Bearer`, `ValidateToken`
accepts the second part and `GetUserByID` of the claims' `UserID` succeeds; the
context then holds that `UserID` and the loaded user, and the user was looked up once.
In every other case the answer is an abort with status 401 and nothing is put into the
context. -/
theorem authMiddleware_next_iff (L : JSONCodec) (j : JWTService)
    (getUserByID : Nat → Except Error User) (now : Int) (authHeader : String) :
    ((AuthMiddleware L j getUserByID now authHeader).gate = .next ↔
      ∃ token claims user,
        (splitOn ' ' authHeader.data).map String.mk = ["Bearer", token] ∧
        ValidateToken L j now token = .ok claims ∧
        getUserByID claims.UserID = .ok user) ∧
    (∀ token claims user,
      (splitOn ' ' authHeader.data).map String.mk = ["Bearer", token] →
      ValidateToken L j now token = .ok claims →
      getUserByID claims.UserID = .ok user →
      AuthMiddleware L j getUserByID now authHeader =
        ⟨.next, some user, some claims.UserID, [claims.UserID]⟩) ∧
    ((AuthMiddleware L j getUserByID now authHeader).gate ≠ .next →
      (∃ text, (AuthMiddleware L j getUserByID now authHeader).gate = .abort ⟨401, text⟩) ∧
      (AuthMiddleware L j getUserByID now authHeader).user = none ∧
      (AuthMiddleware L j getUserByID now authHeader).userID = none) := by
  have hempty : authHeader = "" → (splitOn ' ' authHeader.data).map String.mk = [""] := by
    rintro rfl
    decide
  by_cases h0 : authHeader = ""
  · have hs := hempty h0
    refine ⟨?_, ?_, ?_⟩
    · simp [AuthMiddleware, h0]
      intro token
      have hs2 : (splitOn ' ' "".data).map String.mk = [""] := by decide
      simp at hs2
      simp [hs2]
    · intro token claims user hsplit
      rw [hs] at hsplit
      simp at hsplit
    · intro _
      simp [AuthMiddleware, h0]
  · unfold AuthMiddleware
    rw [if_neg h0]
    rcases hparts : (splitOn ' ' authHeader.data).map String.mk with _ | ⟨p0, _ | ⟨p1, _ | ⟨p2, rest⟩⟩⟩
    · simp
    · simp
    · by_cases hb : p0 = "Bearer"
      · subst hb
        simp only [ne_eq, not_true_eq_false, if_false]
        cases hv : ValidateToken L j now p1 with
        | error e =>
          simp [hv]
          rintro token claims user rfl h
          rw [hv] at h
          exact absurd h (by simp)
        | ok claims =>
          cases hu : getUserByID claims.UserID with
          | error e =>
            simp [hv, hu]
            rintro token claims2 user rfl h
            rw [hv] at h
            cases h
            rw [hu]
            simp
          | ok user =>
            simp [hv, hu]
            rintro token claims2 user2 rfl h h2
            rw [hv] at h
            cases h
            rw [hu] at h2
            cases h2
            exact ⟨rfl, rfl⟩
      · simp [hb]
    · simp

/-! ### The seeded administrator -/

/-- The last block of the seeding on tables without users that hold the role `admin`,
when the hasher returns a digest. -/
theorem seedAdminUser_eq (bc : Bcrypt) (salt : List Nat) (digest : String) (t : Tables)
    (role : Role) (hf : t.fault = none) (hu : t.users = []) (hur : t.userRoles = [])
    (hseq : t.userSeq + 1 ≤ maxID)
    (hrole : t.firstRole (fun r => r.Name == "admin") = .ok role)
    (hg : bc.GenerateFromPassword "adminpassword" DefaultCost salt = .ok digest) :
    seedAdminUser bc salt t =
      ⟨[⟨t.userSeq + 1, "admin", "admin@example.com", digest, "System Administrator", [], 0, 0⟩],
        t.roles, t.permissions, [(t.userSeq + 1, role.ID)], t.rolePermissions, t.userSeq + 1,
        t.roleSeq, t.permissionSeq, none⟩ := by
  have hzero : RowsAffected (t.firstUser (fun u => u.Username == "admin")) = 0 := by
    simp [Tables.firstUser, queryFirst, hf, hu, firstRow, RowsAffected]
  have hraw : ("adminpassword" ≠ "" ∧ (utf8 "adminpassword").length < 60) := by decide
  have hcreate : t.createUser bc salt
      ⟨0, "admin", "admin@example.com", "adminpassword", "System Administrator", [], 0, 0⟩ =
      (⟨[⟨t.userSeq + 1, "admin", "admin@example.com", digest, "System Administrator", [], 0, 0⟩],
        t.roles, t.permissions, [], t.rolePermissions, t.userSeq + 1,
        t.roleSeq, t.permissionSeq, none⟩,
       .ok ⟨t.userSeq + 1, "admin", "admin@example.com", digest, "System Administrator", [],
        0, 0⟩) := by
    simp only [Tables.createUser, hf, User.BeforeCreate, if_pos hraw, hg, hu, hur]
    simp
    exact hseq
  have hrole2 : Tables.firstRole
      ⟨[⟨t.userSeq + 1, "admin", "admin@example.com", digest, "System Administrator", [], 0, 0⟩],
        t.roles, t.permissions, [], t.rolePermissions, t.userSeq + 1,
        t.roleSeq, t.permissionSeq, none⟩ (fun r => r.Name == "admin") = .ok role := by
    simpa [Tables.firstRole, hf] using hrole
  simp only [seedAdminUser, hzero, if_true, hcreate, hrole2, Tables.appendRole]
  simp

set_option maxRecDepth 100000 in
/-- What the seeding of an empty database gives, when the hasher returns a digest for the
password of the administrator: the sample tables with that digest. -/
theorem SeedDefaultData_empty (bc : Bcrypt) (salt : List Nat) (digest : String)
    (hg : bc.GenerateFromPassword "adminpassword" DefaultCost salt = .ok digest) :
    SeedDefaultData bc salt Tables.empty =
      ⟨[⟨1, "admin", "admin@example.com", digest, "System Administrator", [], 0, 0⟩],
        seededTables.roles, seededTables.permissions, seededTables.userRoles,
        seededTables.rolePermissions, seededTables.userSeq, seededTables.roleSeq,
        seededTables.permissionSeq, none⟩ := by
  have hrole : (seedRoles Tables.empty).firstRole (fun r => r.Name == "admin") =
      .ok ⟨1, "admin", "ผู้ดูแลระบบ", [], 0, 0⟩ := by decide
  unfold SeedDefaultData
  rw [seedAdminUser_eq bc salt digest (seedRoles Tables.empty) _ (by decide) (by decide)
    (by decide) (by decide) hrole hg]
  have h1 : (seedRoles Tables.empty).userSeq = 0 := by decide
  have h2 : seededTables.roles = (seedRoles Tables.empty).roles := by decide
  have h3 : seededTables.permissions = (seedRoles Tables.empty).permissions := by decide
  have h4 : seededTables.userRoles = [(1, 1)] := by decide
  have h5 : seededTables.rolePermissions = (seedRoles Tables.empty).rolePermissions := by decide
  have h6 : seededTables.userSeq = 1 := by decide
  have h7 : seededTables.roleSeq = (seedRoles Tables.empty).roleSeq := by decide
  have h8 : seededTables.permissionSeq = (seedRoles Tables.empty).permissionSeq := by decide
  rw [h1, h2, h3, h4, h5, h6, h7, h8]

set_option maxRecDepth 100000 in
/-- C27. After `SeedDefaultData` on an empty database, with the bcrypt of the library and a
salt of 16 bytes, the authorization service loads one user: `admin`, with the `ID` 1 and
one role, `admin`, which holds all the permissions of the table, and these are the six
pairs of `users`, `roles`, `permissions` with `read`, `write`. So `HasPermission` of the
administrator is true without an error exactly for these six pairs, `("users", "read")`
among them, and false without an error for every other pair, such as
`("users", "delete")`. -/
theorem seeded_admin_permissions (salt : List Nat)
    (hsalt : salt.length = 16 ∧ ∀ b ∈ salt, b < 256) (resource action : String) :
    (∃ admin role, (SeedDefaultData goBcrypt salt Tables.empty).toDB.users = [admin] ∧
      admin.ID = 1 ∧ admin.Username = "admin" ∧ admin.Roles = [role] ∧ role.Name = "admin" ∧
      role.Permissions = (SeedDefaultData goBcrypt salt Tables.empty).permissions ∧
      role.Permissions.map (fun p => (p.Resource, p.Action)) =
        [("users", "read"), ("users", "write"), ("roles", "read"), ("roles", "write"),
         ("permissions", "read"), ("permissions", "write")]) ∧
    (HasPermission (SeedDefaultData goBcrypt salt Tables.empty).toDB 1 resource action =
        (true, none) ↔
      (resource, action) ∈
        [("users", "read"), ("users", "write"), ("roles", "read"), ("roles", "write"),
         ("permissions", "read"), ("permissions", "write")]) ∧
    ((resource, action) ∉
        [("users", "read"), ("users", "write"), ("roles", "read"), ("roles", "write"),
         ("permissions", "read"), ("permissions", "write")] →
      HasPermission (SeedDefaultData goBcrypt salt Tables.empty).toDB 1 resource action =
        (false, none)) := by
  obtain ⟨digest, hg, _, _⟩ := goBcrypt_stored "adminpassword" salt hsalt (by decide)
  have hroles : seededTables.rolesOf true 1 =
      [⟨1, "admin", "ผู้ดูแลระบบ", seededTables.permissions, 0, 0⟩] := by decide
  have hpairs : seededTables.permissions.map (fun p => (p.Resource, p.Action)) =
      [("users", "read"), ("users", "write"), ("roles", "read"), ("roles", "write"),
       ("permissions", "read"), ("permissions", "write")] := by decide
  have hdb : (SeedDefaultData goBcrypt salt Tables.empty).toDB =
      ⟨[⟨1, "admin", "admin@example.com", digest, "System Administrator",
          [⟨1, "admin", "ผู้ดูแลระบบ", seededTables.permissions, 0, 0⟩], 0, 0⟩], none⟩ := by
    rw [SeedDefaultData_empty goBcrypt salt digest hg, ← hroles]
    rfl
  have hperms : (SeedDefaultData goBcrypt salt Tables.empty).permissions =
      seededTables.permissions := by
    rw [SeedDefaultData_empty goBcrypt salt digest hg]
  have hhas : HasPermission (SeedDefaultData goBcrypt salt Tables.empty).toDB 1 resource action =
      (roleLoop resource action [⟨1, "admin", "ผู้ดูแลระบบ", seededTables.permissions, 0, 0⟩],
        none) := by
    rw [hdb]
    exact HasPermission_of_load (u := ⟨1, "admin", "admin@example.com", digest,
      "System Administrator", [⟨1, "admin", "ผู้ดูแลระบบ", seededTables.permissions, 0, 0⟩],
      0, 0⟩) resource action (by simp [DB.First, firstByID])
  have hloop : roleLoop resource action
      [⟨1, "admin", "ผู้ดูแลระบบ", seededTables.permissions, 0, 0⟩] = true ↔
      (resource, action) ∈
        [("users", "read"), ("users", "write"), ("roles", "read"), ("roles", "write"),
         ("permissions", "read"), ("permissions", "write")] := by
    rw [roleLoop_iff, ← hpairs]
    simp only [List.mem_singleton, exists_eq_left, List.mem_map, Prod.mk.injEq]
  refine ⟨⟨⟨1, "admin", "admin@example.com", digest, "System Administrator",
      [⟨1, "admin", "ผู้ดูแลระบบ", seededTables.permissions, 0, 0⟩], 0, 0⟩,
    ⟨1, "admin", "ผู้ดูแลระบบ", seededTables.permissions, 0, 0⟩,
    ?_, rfl, rfl, rfl, rfl, hperms.symm, hpairs⟩, ?_, ?_⟩
  · rw [hdb]
  · rw [hhas, ← hloop]
    simp
  · intro hnot
    rw [hhas]
    rw [← hloop] at hnot
    simp only [Bool.not_eq_true] at hnot
    rw [hnot]

theorem seeded_admin_permissions_witness :
    (sampleSalt.length = 16 ∧ ∀ b ∈ sampleSalt, b < 256) ∧
    HasPermission (SeedDefaultData goBcrypt sampleSalt Tables.empty).toDB 1 "users" "read" =
      (true, none) ∧
    HasPermission (SeedDefaultData goBcrypt sampleSalt Tables.empty).toDB 1 "users" "delete" =
      (false, none) :=
  ⟨by decide,
    (seeded_admin_permissions sampleSalt (by decide) "users" "read").2.1.2 (by decide),
    (seeded_admin_permissions sampleSalt (by decide) "users" "delete").2.2 (by decide)⟩

/-! ### The key of a permission -/

/-- C28, at the failing input. The key of a permission is its resource, a colon and its
action. The permissions with resource `a:b` and action `c`, and with resource `a` and
action `b:c`, have the same key and different resources and actions; permissions whose
resources hold no colon have the same key only when their resources and their actions
are the same. -/
theorem permission_key_collision :
    (⟨1, "a:b", "c", "", 0, 0⟩ : Permission).Key = (⟨2, "a", "b:c", "", 0, 0⟩ : Permission).Key ∧
    (⟨1, "a:b", "c", "", 0, 0⟩ : Permission).Key = "a:b:c" ∧
    (⟨1, "a:b", "c", "", 0, 0⟩ : Permission).Resource ≠
      (⟨2, "a", "b:c", "", 0, 0⟩ : Permission).Resource ∧
    (⟨1, "a:b", "c", "", 0, 0⟩ : Permission).Action ≠
      (⟨2, "a", "b:c", "", 0, 0⟩ : Permission).Action ∧
    (∀ p q : Permission, ':' ∉ p.Resource.data → ':' ∉ q.Resource.data →
      (p.Key = q.Key ↔ p.Resource = q.Resource ∧ p.Action = q.Action)) := by
  refine ⟨by decide, by decide, by decide, by decide, ?_⟩
  intro p q hp hq
  constructor
  · intro h
    have hd := congrArg String.data h
    simp only [Permission.Key, String.data_append] at hd
    rw [List.append_assoc, List.append_assoc, List.singleton_append,
      List.singleton_append] at hd
    rcases append_cons_cases _ _ _ _ _ _ hd with ⟨xs2, hx, _⟩ | ⟨h1, _, h2⟩ | ⟨pre2, hx, _⟩
    · exact absurd (by rw [hx]; simp) hq
    · exact ⟨String.ext h1, String.ext h2⟩
    · exact absurd (by rw [hx]; simp) hp
  · rintro ⟨h1, h2⟩
    simp only [Permission.Key, h1, h2]

/-! ### Creating a user and logging in -/

set_option maxRecDepth 100000 in
/-- C29, at the failing input. The request of the integration test that creates the user
`testuser` with the password `password123` is answered with 201, and the row that it
adds to the users has an empty `Password`; a login of `testuser` with `password123`
fails afterwards with "invalid username or password". It is so for every body: the
binding leaves the `Password` of the user empty, whatever the body holds, and no
password verifies against an empty `Password`. -/
theorem created_user_cannot_log_in :
    UserHandler.CreateUser goBcrypt sampleSalt seededTables createUserBody =
      (⟨seededTables.users ++ [⟨2, "testuser", "test@example.com", "", "Test User", [], 0, 0⟩],
          seededTables.roles, seededTables.permissions, seededTables.userRoles,
          seededTables.rolePermissions, 2, seededTables.roleSeq, seededTables.permissionSeq,
          none⟩,
        .success 201 [("id", .uint 2), ("username", .str "testuser"),
          ("email", .str "test@example.com"), ("full_name", .str "Test User"),
          ("roles", .roles [])]) ∧
    Login goJSON goBcrypt
        (UserHandler.CreateUser goBcrypt sampleSalt seededTables createUserBody).1.toDB
        sampleJWT sampleNow sampleNow ⟨"testuser", "password123"⟩ =
      .error (.new "invalid username or password") ∧
    (∀ body user, bindUser body = .ok user → user.Password = "") ∧
    (∀ (u : User) (p : String), u.Password = "" → u.CheckPassword goBcrypt p = false) := by
  refine ⟨by decide, by decide, ?_, ?_⟩
  · intro body user h
    unfold bindUser at h
    split at h
    · simp only [Except.ok.injEq] at h
      rw [← h]
    all_goals exact absurd h (by simp)
  · intro u p h
    have h0 : utf8 "" = [] := rfl
    simp [User.CheckPassword, goBcrypt, h, h0, CompareHashAndPassword, newFromHash]

/-! ### What the hook changes -/

/-- C30. What `BeforeCreate` changes. Whatever the hasher is, the user afterwards is the
user before with at most another `Password`: `ID`, `Username`, `Email`, `FullName`,
`Roles` and the time stamps stay. An empty `Password` and one of 60 bytes or more stay
too, without an error. For a non-empty `Password` of fewer than 60 bytes the hasher is
called with the default cost: when it fails, its error is returned and the user is
unchanged; when it returns a digest, that is the new `Password`. With the bcrypt of the
library and a salt of 16 bytes, `BeforeCreate` changes the user exactly when its
`Password` is non-empty and shorter than 60 bytes, and the old password then verifies
against the new one. -/
theorem beforeCreate_frame (u : User) (salt : List Nat)
    (hsalt : salt.length = 16 ∧ ∀ b ∈ salt, b < 256) :
    (∀ bc : Bcrypt, (u.BeforeCreate bc salt).1 =
      { u with Password := (u.BeforeCreate bc salt).1.Password }) ∧
    (∀ bc : Bcrypt, u.Password = "" ∨ 60 ≤ (utf8 u.Password).length →
      u.BeforeCreate bc salt = (u, none)) ∧
    (∀ (bc : Bcrypt) (e : Error), u.Password ≠ "" → (utf8 u.Password).length < 60 →
      bc.GenerateFromPassword u.Password DefaultCost salt = .error e →
      u.BeforeCreate bc salt = (u, some e)) ∧
    (∀ (bc : Bcrypt) (digest : String), u.Password ≠ "" → (utf8 u.Password).length < 60 →
      bc.GenerateFromPassword u.Password DefaultCost salt = .ok digest →
      u.BeforeCreate bc salt = ({ u with Password := digest }, none)) ∧
    ((u.BeforeCreate goBcrypt salt).1 ≠ u ↔
      u.Password ≠ "" ∧ (utf8 u.Password).length < 60) ∧
    (u.Password ≠ "" ∧ (utf8 u.Password).length < 60 →
      (u.BeforeCreate goBcrypt salt).2 = none ∧
      (utf8 (u.BeforeCreate goBcrypt salt).1.Password).length = 60 ∧
      (u.BeforeCreate goBcrypt salt).1.CheckPassword goBcrypt u.Password = true) := by
  have hskip : ∀ bc : Bcrypt, u.Password = "" ∨ 60 ≤ (utf8 u.Password).length →
      u.BeforeCreate bc salt = (u, none) := by
    intro bc h
    simp only [User.BeforeCreate]
    rw [if_neg]
    rintro ⟨h1, h2⟩
    rcases h with h | h
    · exact h1 h
    · omega
  have hhash : u.Password ≠ "" ∧ (utf8 u.Password).length < 60 →
      ∃ digest, u.BeforeCreate goBcrypt salt = ({ u with Password := digest }, none) ∧
        (utf8 digest).length = 60 ∧
        User.CheckPassword goBcrypt { u with Password := digest } u.Password = true := by
    intro hr
    obtain ⟨digest, hg, hl, hc⟩ := goBcrypt_stored u.Password salt hsalt (by omega)
    exact ⟨digest, by simp only [User.BeforeCreate, if_pos hr, hg], hl, (hc _).2 rfl⟩
  refine ⟨?_, hskip, ?_, ?_, ?_, ?_⟩
  · intro bc
    simp only [User.BeforeCreate]
    split
    · split <;> rfl
    · rfl
  · intro bc e h1 h2 hg
    simp only [User.BeforeCreate, if_pos (And.intro h1 h2), hg]
  · intro bc digest h1 h2 hg
    simp only [User.BeforeCreate, if_pos (And.intro h1 h2), hg]
  · constructor
    · intro hne
      by_contra hc
      apply hne
      rw [hskip goBcrypt]
      by_cases h1 : u.Password = ""
      · exact Or.inl h1
      · right
        by_contra h2
        exact hc ⟨h1, by omega⟩
    · intro hr
      obtain ⟨digest, hb, hl, _⟩ := hhash hr
      rw [hb]
      intro heq
      have hpw := congrArg User.Password heq
      simp only at hpw
      rw [hpw] at hl
      omega
  · intro hr
    obtain ⟨digest, hb, hl, hc⟩ := hhash hr
    rw [hb]
    exact ⟨rfl, hl, hc⟩

theorem beforeCreate_frame_witness :
    (sampleSalt.length = 16 ∧ ∀ b ∈ sampleSalt, b < 256) ∧
    ((User.BeforeCreate goBcrypt { guestUser with Password := "rawpassword" } sampleSalt).1 ≠
        { guestUser with Password := "rawpassword" } ↔
      "rawpassword" ≠ "" ∧ (utf8 "rawpassword").length < 60) ∧
    (longRawUser.BeforeCreate goBcrypt sampleSalt = (longRawUser, none)) :=
  ⟨by decide,
    (beforeCreate_frame { guestUser with Password := "rawpassword" } sampleSalt (by decide)).2.2.2.2.1,
    (beforeCreate_frame longRawUser sampleSalt (by decide)).2.1 goBcrypt (Or.inr (by decide))⟩

end AuthApi
